import Mathlib

/-!
Immersed-boundary particle-mesh coupling (IAMR, `Source/DiffusedIB.cpp`)

A shallow embedding of the diffused immersed-boundary engine and proofs about it.

Modelling conventions.

* `Real` / `ParticleReal` are the elements of an arbitrary linearly ordered field `K`
  with a floor function (exact arithmetic; rounding, infinities and NaN are not
  modelled).  Every definition is computable as soon as `K` is, for instance at `ℚ`.
* The C math library is a parameter: `std::sqrt` is an arbitrary function `sqrt : K → K`
  and theorems assume about it only what they state.
* `int` is `Int`; the conversion `static_cast<int>(Math::floor(x))` is `Int.floor`.
* An `Array4<Real>` is a total function of the three cell indices and the component;
  `Gpu::Atomic::AddNoRet` is a pointwise function update, the loops run sequentially.
  Accesses outside the allocated array are not modelled.
* A `MultiFab` is one box (`validbox`) with its data; the particle container is one tile,
  a list of markers.
-/

set_option autoImplicit false
set_option linter.unusedVariables false
set_option linter.unusedSectionVars false

namespace IAMR

/-! ## Data model -/

/-- Modelled from the spec: the enumeration `DELTA_FUNCTION_TYPE` of the header
`DiffusedIB.H`, with the two kernel variants `deltaFunction` switches on. -/
inductive DELTA_FUNCTION_TYPE where
  | FOUR_POINT_IB
  | THREE_POINT_IB
deriving DecidableEq, Repr

/-- Three reals: `amrex::RealVect`, `GpuArray<Real,3>` and a particle position;
`v0`, `v1`, `v2` are the entries `[0]`, `[1]`, `[2]`. -/
structure RealVect (K : Type) where
  v0 : K
  v1 : K
  v2 : K
deriving DecidableEq, Repr

/-- The data of `amrex::Array4<Real>`: a value for every cell `(i, j, k)` and component `n`. -/
abbrev Array4 (K : Type) : Type := Int → Int → Int → Int → K

/-- The five stencil offsets, in the order of `for(int ii = -2; ii < +3; ii++)`. -/
def stencilOffsets : List Int := [-2, -1, 0, 1, 2]

section Kernels

variable {K : Type} [LinearOrderedField K] [FloorRing K]

/-- `deltaFunction(xf, xp, h, value, type)`: the value written to `value`. -/
def deltaFunction (sqrt : K → K) (xf xp h : K) (type : DELTA_FUNCTION_TYPE) : K :=
  let rr := abs ((xf - xp) / h)
  match type with
  | DELTA_FUNCTION_TYPE.FOUR_POINT_IB =>
    if rr ≥ 0 ∧ rr < 1 / 2 then
      1 / 8 * (3 - 2 * rr + sqrt (1 + 4 * rr - 4 * rr ^ 2)) / h
    else if rr ≥ 1 ∧ rr < 2 then
      1 / 8 * (5 - 2 * rr - sqrt (-7 + 12 * rr - 4 * rr ^ 2)) / h
    else
      0
  | DELTA_FUNCTION_TYPE.THREE_POINT_IB =>
    if rr ≥ 0 ∧ rr < 1 then
      1 / 6 * (5 - 3 * rr + sqrt (-3 * (1 - rr ^ 2) + 1)) / h
    else if rr ≥ 1 ∧ rr < 2 then
      1 / 3 * (1 + sqrt (1 - 3 * rr ^ 2)) / h
    else
      0

/-- `Gpu::Atomic::AddNoRet(&E(i, j, k, n), v)`: add `v` to one entry of the array. -/
def AddNoRet (E : Array4 K) (i j k n : Int) (v : K) : Array4 K :=
  fun i' j' k' n' =>
    if i' = i ∧ j' = j ∧ k' = k ∧ n' = n then E i' j' k' n' + v else E i' j' k' n'

/-- The value `delta_value = tU * tV * tW` computed in the loop body of both
`ForceSpreading_cic` and `VelocityInterpolation_cir` for the marker position `pos`,
the containing cell `(i, j, k)` and the offset `(ii, jj, kk)`. -/
def delta_value (sqrt : K → K) (pos dx : RealVect K) (type : DELTA_FUNCTION_TYPE)
    (i j k ii jj kk : Int) : K :=
  let xi := ((i + ii : Int) : K) * dx.v0 + dx.v0 / 2
  let yj := ((j + jj : Int) : K) * dx.v1 + dx.v1 / 2
  let kz := ((k + kk : Int) : K) * dx.v2 + dx.v2 / 2
  let tU := deltaFunction sqrt pos.v0 xi dx.v0 type
  let tV := deltaFunction sqrt pos.v1 yj dx.v1 type
  let tW := deltaFunction sqrt pos.v2 kz dx.v2 type
  tU * tV * tW

/-- `ForceSpreading_cic(p, fxP, fyP, fzP, E, EularFIndex, plo, dx, type)`: the array `E`
after the call; `pos` is `p.pos`. -/
def ForceSpreading_cic (sqrt : K → K) (pos : RealVect K) (fxP fyP fzP : K) (E : Array4 K)
    (EularFIndex : Int) (plo dx : RealVect K) (type : DELTA_FUNCTION_TYPE) : Array4 K :=
  let d := dx.v0 * dx.v1 * dx.v2
  let lx := (pos.v0 - plo.v0) / dx.v0
  let ly := (pos.v1 - plo.v1) / dx.v1
  let lz := (pos.v2 - plo.v2) / dx.v2
  let i := Int.floor lx
  let j := Int.floor ly
  let k := Int.floor lz
  stencilOffsets.foldl (fun E ii =>
    stencilOffsets.foldl (fun E jj =>
      stencilOffsets.foldl (fun E kk =>
        let dv := delta_value sqrt pos dx type i j k ii jj kk
        let E1 := AddNoRet E (i + ii) (j + jj) (k + kk) EularFIndex (dv * fxP * d)
        let E2 := AddNoRet E1 (i + ii) (j + jj) (k + kk) (EularFIndex + 1) (dv * fyP * d)
        AddNoRet E2 (i + ii) (j + jj) (k + kk) (EularFIndex + 2) (dv * fzP * d)) E) E) E

/-- `VelocityInterpolation_cir(p, Up, Vp, Wp, E, EularVIndex, plo, dx, type)`: the values of
`(Up, Vp, Wp)` after the call.  `Up0 Vp0 Wp0` are the values the three references hold on
entry; the function assigns `0` to them before accumulating. -/
def VelocityInterpolation_cir (sqrt : K → K) (pos : RealVect K) (Up0 Vp0 Wp0 : K)
    (E : Array4 K) (EularVIndex : Int) (plo dx : RealVect K) (type : DELTA_FUNCTION_TYPE) :
    K × K × K :=
  let d := dx.v0 * dx.v1 * dx.v2
  let lx := (pos.v0 - plo.v0) / dx.v0
  let ly := (pos.v1 - plo.v1) / dx.v1
  let lz := (pos.v2 - plo.v2) / dx.v2
  let i := Int.floor lx
  let j := Int.floor ly
  let k := Int.floor lz
  let start : K × K × K := (0, 0, 0)
  stencilOffsets.foldl (fun acc ii =>
    stencilOffsets.foldl (fun acc jj =>
      stencilOffsets.foldl (fun acc kk =>
        let dv := delta_value sqrt pos dx type i j k ii jj kk
        (acc.1 + dv * E (i + ii) (j + jj) (k + kk) EularVIndex * d,
         acc.2.1 + dv * E (i + ii) (j + jj) (k + kk) (EularVIndex + 1) * d,
         acc.2.2 + dv * E (i + ii) (j + jj) (k + kk) (EularVIndex + 2) * d)) acc) acc) start

end Kernels

/-! ## The particle container and the engine -/

/-- Modelled from the spec: one Lagrangian marker of the particle container declared in
`DiffusedIB.H`: its position and the six real attributes named by `P_ATTR`
(interpolated velocity `U, V, W` and corrective force `Fx, Fy, Fz`). -/
structure Marker (K : Type) where
  pos : RealVect K
  U_Marker : K
  V_Marker : K
  W_Marker : K
  Fx_Marker : K
  Fy_Marker : K
  Fz_Marker : K
deriving DecidableEq, Repr

/-- Modelled from the spec: the rigid-body record `kernel` of `DiffusedIB.H`, with the
fields `InitParticles` assigns. -/
structure kernel (K : Type) where
  location : RealVect K
  velocity : RealVect K
  omega : RealVect K
  varphi : RealVect K
  radious : K
  ml : Int
  dv : K
  rho : K
deriving DecidableEq, Repr

/-- The cells `lo ≤ (i, j, k) ≤ hi` of an `amrex::Box`. -/
structure Box where
  lo : Int × Int × Int
  hi : Int × Int × Int
deriving DecidableEq, Repr

/-- Whether the cell `(i, j, k)` lies in the box. -/
def Box.contains (bx : Box) (i j k : Int) : Prop :=
  bx.lo.1 ≤ i ∧ i ≤ bx.hi.1 ∧ bx.lo.2.1 ≤ j ∧ j ≤ bx.hi.2.1 ∧ bx.lo.2.2 ≤ k ∧ k ≤ bx.hi.2.2

instance (bx : Box) (i j k : Int) : Decidable (bx.contains i j k) := by
  unfold Box.contains; infer_instance

/-- An `amrex::MultiFab` on one grid: the valid box of the grid and the data, which
extends to the ghost cells around it. -/
structure MultiFab (K : Type) where
  validbox : Box
  array : Array4 K

/-- The functions of the C math library and the constant `Math::pi<Real>()` the engine
calls. -/
structure Libm (K : Type) where
  sqrt : K → K
  sin : K → K
  cos : K → K
  acos : K → K
  fmod : K → K → K
  pi : K

/-- The members of `mParticle` the engine reads: the bodies, the markers of the particle
tile, the component offsets and fluid density stored by `InitParticles`, and the geometry
`m_gdb->Geom(euler_finest_level)` (`ProbLoArray` and `CellSizeArray`). -/
structure mParticle (K : Type) where
  particle_kernels : List (kernel K)
  markers : List (Marker K)
  euler_force_index : Int
  euler_velocity_index : Int
  euler_fluid_rho : K
  plo : RealVect K
  dx : RealVect K

section Engine

variable {K : Type} [LinearOrderedField K] [FloorRing K]

/-- `RealVect::operator+`. -/
def RealVect.add (a b : RealVect K) : RealVect K := ⟨a.v0 + b.v0, a.v1 + b.v1, a.v2 + b.v2⟩

/-- `RealVect::operator-`. -/
def RealVect.sub (a b : RealVect K) : RealVect K := ⟨a.v0 - b.v0, a.v1 - b.v1, a.v2 - b.v2⟩

/-- `RealVect::operator*(Real)` and `operator*(Real, RealVect)`. -/
def RealVect.scale (s : K) (a : RealVect K) : RealVect K := ⟨s * a.v0, s * a.v1, s * a.v2⟩

/-- `RealVect::crossProduct`. -/
def RealVect.crossProduct (a b : RealVect K) : RealVect K :=
  ⟨a.v1 * b.v2 - a.v2 * b.v1, a.v2 * b.v0 - a.v0 * b.v2, a.v0 * b.v1 - a.v1 * b.v0⟩

/-- The vector `(0, 0, 0)`. -/
def RealVect.zero : RealVect K := ⟨0, 0, 0⟩

/-- `cal_momentum(rho, radious)`. -/
def cal_momentum (L : Libm K) (rho radious : K) : K :=
  8 * L.pi * rho * radious ^ 5 / 15

/-- The first loop of the `while` body of `InteractWithEuler` ("clear Euler force"):
the three force components are set to `0.0` on the valid box. -/
def clearEulerForce (Euler : MultiFab K) (EulerForceIndex : Int) : MultiFab K :=
  { Euler with
    array := fun i j k n =>
      if Euler.validbox.contains i j k ∧
          (n = EulerForceIndex ∨ n = EulerForceIndex + 1 ∨ n = EulerForceIndex + 2) then 0
      else Euler.array i j k n }

/-- `MultiFab::Saxpy(dst, a, src, srccomp, dstcomp, numcomp, 0)` of AMReX with `dst` and
`src` the same `MultiFab`, as `InteractWithEuler` calls it: for `n = 0, ..., numcomp - 1`
in turn, `dst(i,j,k,dstcomp+n) += a * src(i,j,k,srccomp+n)` on the valid box. -/
def Saxpy (Euler : MultiFab K) (a : K) (srccomp dstcomp : Int) (numcomp : Nat) : MultiFab K :=
  (List.range numcomp).foldl (fun (mf : MultiFab K) (n : Nat) =>
    { mf with
      array := fun i j k m =>
        if mf.validbox.contains i j k ∧ m = dstcomp + n then
          mf.array i j k m + a * mf.array i j k (srccomp + n)
        else mf.array i j k m }) Euler

/-- `mParticle::InitialWithLargrangianPoints(current_kernel)`: the positions of the first
`ml` markers are rewritten from the body record. -/
def InitialWithLargrangianPoints (L : Libm K) (self : mParticle K)
    (current_kernel : kernel K) : mParticle K :=
  let res := (List.range current_kernel.ml.toNat).foldl
    (fun (st : K × List (Marker K)) (index : Nat) =>
      let Hk : K := -1 + 2 * (index : K) / ((current_kernel.ml : K) - 1)
      let thetaK := L.acos Hk
      let phiK :=
        if index = 0 ∨ (index : Int) = current_kernel.ml - 1 then 0
        else L.fmod (st.1 + 3809 / 1000 / L.sqrt (current_kernel.ml : K) / L.sqrt (1 - Hk ^ 2))
          (2 * L.pi)
      (phiK, st.2.modify (fun m =>
        { m with
          pos := ⟨current_kernel.location.v0 + current_kernel.radious * L.sin thetaK * L.cos phiK,
                  current_kernel.location.v1 + current_kernel.radious * L.sin thetaK * L.sin phiK,
                  current_kernel.location.v2 + current_kernel.radious * L.cos thetaK⟩ }) index))
    (0, self.markers)
  { self with markers := res.2 }

/-- The body of the `for` loop of `InitialWithLargrangianPoints`, for one value of `index`:
the state is the variable `phiK` and the markers of the tile. -/
def lagrangianPointStep (L : Libm K) (current_kernel : kernel K) (st : K × List (Marker K))
    (index : Nat) : K × List (Marker K) :=
  let Hk : K := -1 + 2 * (index : K) / ((current_kernel.ml : K) - 1)
  let thetaK := L.acos Hk
  let phiK :=
    if index = 0 ∨ (index : Int) = current_kernel.ml - 1 then 0
    else L.fmod (st.1 + 3809 / 1000 / L.sqrt (current_kernel.ml : K) / L.sqrt (1 - Hk ^ 2))
      (2 * L.pi)
  (phiK, st.2.modify (fun m =>
    { m with
      pos := ⟨current_kernel.location.v0 + current_kernel.radious * L.sin thetaK * L.cos phiK,
              current_kernel.location.v1 + current_kernel.radious * L.sin thetaK * L.sin phiK,
              current_kernel.location.v2 + current_kernel.radious * L.cos thetaK⟩ }) index)

/-- The conversion `static_cast<int>(x)` of a real to `int`: truncation toward zero. -/
def truncToInt (x : K) : Int := if 0 ≤ x then ⌊x⌋ else ⌈x⌉

/-- The value an `int` holds when the mathematical result of an operation on `int`s is `n`:
`n` reduced modulo `2^32` into the range `-2^31, ..., 2^31 - 1`, which is what the compiled
program computes when the 32-bit arithmetic overflows. -/
def wrapInt32 (n : Int) : Int := (n + 2147483648) % 4294967296 - 2147483648

/-- `mParticle::InitParticles(x, y, z, rho_s, radious, rho_f, force_index, velocity_index)`:
the container after the call and whether the message of the length check was printed.  The
cell size `h` is `CellSizeArray()[0]`; the `Ml` markers are appended to the tile
(`Redistribute` keeps them in the one tile of the model); the product
`12 * radious * radious` is computed in `int` before it is converted to a real. -/
def InitParticles (L : Libm K) (self : mParticle K) (x y z : List K) (rho_s : K)
    (radious : Int) (rho_f : K) (force_index velocity_index : Int) : mParticle K × Bool :=
  let self1 : mParticle K :=
    { self with
      euler_force_index := force_index
      euler_fluid_rho := rho_f
      euler_velocity_index := velocity_index }
  if ¬ (x.length = y.length ∧ x.length = z.length) then (self1, true)
  else
    let h := self.dx.v0
    let Ml : Int := truncToInt (L.pi / 3 * (12 * ((radious : K) / h) ^ 2))
    let dv : K := L.pi * h / 3 / (Ml : K)
      * (((wrapInt32 (wrapInt32 (12 * radious) * radious) : Int) : K) + h * h)
    let bodies : List (kernel K) := (List.zip x (List.zip y z)).map (fun c =>
      { location := ⟨c.1, c.2.1, c.2.2⟩
        velocity := ⟨0, 0, 0⟩
        omega := ⟨0, 0, 0⟩
        varphi := ⟨0, 0, 0⟩
        radious := (radious : K)
        ml := Ml
        dv := dv
        rho := rho_s })
    let newMarkers : List (Marker K) :=
      List.replicate Ml.toNat ⟨⟨0, 0, 0⟩, 0, 0, 0, 0, 0, 0⟩
    ({ self1 with
       particle_kernels := self.particle_kernels ++ bodies
       markers := self.markers ++ newMarkers }, false)

/-- `mParticle::VelocityInterpolation(Euler, type)`: every marker receives the velocity
interpolated at its position (the file written at the end is not modelled). -/
def VelocityInterpolation (sqrt : K → K) (self : mParticle K) (Euler : MultiFab K)
    (type : DELTA_FUNCTION_TYPE) : mParticle K :=
  { self with
    markers := self.markers.map (fun m =>
      let r := VelocityInterpolation_cir sqrt m.pos m.U_Marker m.V_Marker m.W_Marker
        Euler.array self.euler_velocity_index self.plo self.dx type
      { m with U_Marker := r.1, V_Marker := r.2.1, W_Marker := r.2.2 }) }

/-- `mParticle::ForceSpreading(Euler, type)`: `ForceSpreading_cic` is called for every
marker with the arrays `fxP`, `fyP`, `fzP`, which are the real data of the attributes
`U_Marker`, `V_Marker`, `W_Marker`. -/
def ForceSpreading (sqrt : K → K) (self : mParticle K) (Euler : MultiFab K)
    (type : DELTA_FUNCTION_TYPE) : MultiFab K :=
  { Euler with
    array := self.markers.foldl (fun E m =>
      ForceSpreading_cic sqrt m.pos m.U_Marker m.V_Marker m.W_Marker E
        self.euler_force_index self.plo self.dx type) Euler.array }

/-- `mParticle::ComputeLagrangianForce(dt, kernel)`. -/
def ComputeLagrangianForce (self : mParticle K) (dt : K) (kernel : kernel K) : mParticle K :=
  let Ub := kernel.velocity.v0
  let Vb := kernel.velocity.v1
  let Wb := kernel.velocity.v2
  { self with
    markers := self.markers.map (fun m =>
      { m with
        Fx_Marker := (Ub - m.U_Marker) / dt
        Fy_Marker := (Vb - m.V_Marker) / dt
        Fz_Marker := (Wb - m.W_Marker) / dt }) }

/-- `mParticle::UpdateParticles(Euler, kernel, dt, alpha_k)`: the updated body record and
the container with the updated markers (`Euler` is not read). -/
def UpdateParticles (L : Libm K) (self : mParticle K) (kernel : kernel K) (dt alpha_k : K) :
    IAMR.kernel K × mParticle K :=
  let Dv := kernel.dv
  let rho_p := kernel.rho
  let ForceDv := self.markers.foldl (fun (acc : RealVect K) m =>
    acc.add (RealVect.scale Dv ⟨m.Fx_Marker, m.Fy_Marker, m.Fz_Marker⟩)) RealVect.zero
  let Moment := self.markers.foldl (fun (acc : RealVect K) m =>
    acc.add (RealVect.scale Dv
      ((m.pos.sub kernel.location).crossProduct ⟨m.Fx_Marker, m.Fy_Marker, m.Fz_Marker⟩)))
    RealVect.zero
  let oldVelocity := kernel.velocity
  let oldOmega := kernel.omega
  let velocity := kernel.velocity.sub
    (RealVect.scale (2 * alpha_k * dt / (L.pi * 4 * kernel.radious ^ 3 / 3)
      / (kernel.rho - self.euler_fluid_rho)) ForceDv)
  let omega := kernel.omega.sub
    (RealVect.scale (2 * alpha_k * dt * kernel.rho / cal_momentum L kernel.rho kernel.radious
      / (kernel.rho - self.euler_fluid_rho)) Moment)
  let deltaX := RealVect.scale (alpha_k * dt) (velocity.add oldVelocity)
  let location := kernel.location.add deltaX
  let varphi := kernel.varphi.add (RealVect.scale (alpha_k * dt) (omega.add oldOmega))
  let markers := self.markers.map (fun m =>
    let tmp := omega.crossProduct (location.sub m.pos)
    { m with
      Fx_Marker := rho_p / dt * (m.U_Marker + tmp.v0)
      Fy_Marker := rho_p / dt * (m.V_Marker + tmp.v1)
      Fz_Marker := rho_p / dt * (m.W_Marker + tmp.v2)
      pos := ⟨m.pos.v0 + deltaX.v0, m.pos.v1 + deltaX.v1, m.pos.v2 + deltaX.v2⟩ })
  ({ kernel with velocity := velocity, omega := omega, location := location, varphi := varphi },
   { self with markers := markers })

/-- One pass of the body of `while(loop_time > 0)` in `InteractWithEuler`, without the
decrement: clear the force block, interpolate, compute the Lagrangian force, spread,
correct the velocity. -/
def correctionStep (sqrt : K → K) (kernel : kernel K) (dt : K) (type : DELTA_FUNCTION_TYPE)
    (s : mParticle K × MultiFab K) : mParticle K × MultiFab K :=
  let Euler1 := clearEulerForce s.2 s.1.euler_force_index
  let self1 := VelocityInterpolation sqrt s.1 Euler1 type
  let self2 := ComputeLagrangianForce self1 dt kernel
  let Euler2 := ForceSpreading sqrt self2 Euler1 type
  let Euler3 := Saxpy Euler2 dt self2.euler_force_index self2.euler_velocity_index 3
  (self2, Euler3)

/-- The loop `while(loop_time > 0){ body; loop_time--; }`: the state and the value of
`loop_time` when the loop exits, and the number of times the body ran added to `count`
(a counter that is not in the source, for stating how often the body runs). -/
def whileLoop {S : Type} (body : S → S) (loop_time : Int) (s : S) (count : Nat) :
    S × Int × Nat :=
  if h : loop_time > 0 then whileLoop body (loop_time - 1) (body s) (count + 1)
  else (s, loop_time, count)
termination_by loop_time.toNat
decreasing_by omega

/-- The state the `for` loop of `InteractWithEuler` carries: the container, the field, the
current value of the by-value parameter `loop_time`, the body records already visited
(updated) and, for each of them in order, how many passes of the `while` body ran. -/
structure InteractState (K : Type) where
  self : mParticle K
  Euler : MultiFab K
  loop_time : Int
  visited : List (kernel K)
  passes : List Nat

/-- The body of `for(kernel& kernel : particle_kernels)` in `InteractWithEuler`. -/
def interactBody (L : Libm K) (dt alpha_k : K) (type : DELTA_FUNCTION_TYPE)
    (st : InteractState K) (kernel : kernel K) : InteractState K :=
  let self1 := InitialWithLargrangianPoints L st.self kernel
  let upd := UpdateParticles L self1 kernel dt alpha_k
  let r := whileLoop (correctionStep L.sqrt upd.1 dt type) st.loop_time (upd.2, st.Euler) 0
  { self := r.1.1
    Euler := r.1.2
    loop_time := r.2.1
    visited := st.visited ++ [upd.1]
    passes := st.passes ++ [r.2.2] }

/-- `mParticle::InteractWithEuler(Euler, loop_time, dt, alpha_k, type)`: the final state of
the `for` loop; the bodies of the container after the call are `visited`. -/
def InteractWithEuler (L : Libm K) (self : mParticle K) (Euler : MultiFab K) (loop_time : Int)
    (dt alpha_k : K) (type : DELTA_FUNCTION_TYPE) : InteractState K :=
  let r := self.particle_kernels.foldl (interactBody L dt alpha_k type)
    { self := self, Euler := Euler, loop_time := loop_time, visited := [], passes := [] }
  { r with self := { r.self with particle_kernels := r.visited } }

end Engine

/-! ## The grid-metrics helper (`CoordSys.cpp`) -/

/-- Modelled from the spec: the enumeration `CoordSys::CoordType` of the header `CoordSys.H`,
with the values `CoordSys.cpp` names. -/
inductive CoordType where
  | undef
  | cartesian
  | RZ
deriving DecidableEq, Repr

/-- Modelled from the spec: the data of a cell-centred `BOX` that `CoordSys.cpp` reads, the
arrays `loVect()` and `hiVect()` indexed by the direction. -/
structure BOX where
  loVect : Nat → Int
  hiVect : Nat → Int

/-- Modelled from the spec: the members of the class `CoordSys` declared in `CoordSys.H`:
the coordinate type `c_sys`, the arrays `offset` and `dx` indexed by the direction, and the
flag `ok`; `BL_SPACEDIM` is the dimension the file is compiled for. -/
structure CoordSys (K : Type) where
  BL_SPACEDIM : Nat
  c_sys : CoordType
  offset : Nat → K
  dx : Nat → K
  ok : Bool

section Metrics

variable {K : Type} [LinearOrderedField K] [FloorRing K]

/-- `CoordSys::GetEdgeLoc(loc, region, dir)`: the array `loc` after the call, `none` when
`assert(ok)` fails. -/
def CoordSys.GetEdgeLoc (c : CoordSys K) (region : BOX) (dir : Nat) : Option (List K) :=
  if c.ok = false then none
  else
    let lo := region.loVect
    let hi := region.hiVect
    let len : Int := hi dir - lo dir + 2
    let off : K := c.offset dir + c.dx dir * (lo dir : K)
    some ((List.range len.toNat).map (fun (i : Nat) => off + c.dx dir * (i : K)))

/-- `CoordSys::GetCellLoc(loc, region, dir)`: the array `loc` after the call, `none` when
`assert(ok)` fails. -/
def CoordSys.GetCellLoc (c : CoordSys K) (region : BOX) (dir : Nat) : Option (List K) :=
  if c.ok = false then none
  else
    let lo := region.loVect
    let hi := region.hiVect
    let len : Int := hi dir - lo dir + 1
    let off : K := c.offset dir + c.dx dir * (1 / 2 + (lo dir : K))
    some ((List.range len.toNat).map (fun (i : Nat) => off + c.dx dir * (i : K)))

/-- `CoordSys::GetEdgeVolCoord(vc, region, dir)`: the array `vc` after the call. -/
def CoordSys.GetEdgeVolCoord (c : CoordSys K) (region : BOX) (dir : Nat) : Option (List K) :=
  match c.GetEdgeLoc region dir with
  | none => none
  | some vc =>
    if c.BL_SPACEDIM = 2 ∧ dir = 0 ∧ c.c_sys = CoordType.RZ then
      some (vc.map (fun r => 1 / 2 * r * r))
    else some vc

/-- `CoordSys::GetCellVolCoord(vc, region, dir)`: the array `vc` after the call. -/
def CoordSys.GetCellVolCoord (c : CoordSys K) (region : BOX) (dir : Nat) : Option (List K) :=
  match c.GetCellLoc region dir with
  | none => none
  | some vc =>
    if c.BL_SPACEDIM = 2 ∧ dir = 0 ∧ c.c_sys = CoordType.RZ then
      some (vc.map (fun r => 1 / 2 * r * r))
    else some vc

/-- `CoordSys::CellCenter(point, loc)`: the array `loc` after the call, `none` when
`assert(ok)` fails.  An `IntVect` and an array of `BL_SPACEDIM` reals are functions of the
direction `k`, of which the entries `k < BL_SPACEDIM` exist. -/
def CoordSys.CellCenter (c : CoordSys K) (point : Nat → Int) (loc : Nat → K) :
    Option (Nat → K) :=
  if c.ok = false then none
  else some (fun k =>
    if k < c.BL_SPACEDIM then c.offset k + c.dx k * (1 / 2 + (point k : K)) else loc k)

/-- `CoordSys::LoEdge(int point, int dir)`. -/
def CoordSys.LoEdge (c : CoordSys K) (point : Int) (dir : Nat) : Option K :=
  if c.ok = false then none else some (c.offset dir + c.dx dir * (point : K))

/-- `CoordSys::HiEdge(int point, int dir)`. -/
def CoordSys.HiEdge (c : CoordSys K) (point : Int) (dir : Nat) : Option K :=
  if c.ok = false then none else some (c.offset dir + c.dx dir * ((point + 1 : Int) : K))

/-- `CoordSys::LoNode(point, loc)`: the array `loc` after the call. -/
def CoordSys.LoNode (c : CoordSys K) (point : Nat → Int) (loc : Nat → K) : Option (Nat → K) :=
  if c.ok = false then none
  else some (fun k =>
    if k < c.BL_SPACEDIM then c.offset k + c.dx k * (point k : K) else loc k)

/-- `CoordSys::HiNode(point, loc)`: the array `loc` after the call. -/
def CoordSys.HiNode (c : CoordSys K) (point : Nat → Int) (loc : Nat → K) : Option (Nat → K) :=
  if c.ok = false then none
  else some (fun k =>
    if k < c.BL_SPACEDIM then c.offset k + c.dx k * ((point k + 1 : Int) : K) else loc k)

/-- `CoordSys::CellIndex(point)`: the cast `(int)` truncates toward zero; the entries of the
returned `IntVect` from `BL_SPACEDIM` on are given as `0`. -/
def CoordSys.CellIndex (c : CoordSys K) (point : Nat → K) : Option (Nat → Int) :=
  if c.ok = false then none
  else some (fun k =>
    if k < c.BL_SPACEDIM then truncToInt ((point k - c.offset k) / c.dx k) else 0)

/-- The constant `RZFACTOR = 2*4*atan(1.0)`; `atan` is the function of the C math library. -/
def RZFACTOR (atan : K → K) : K := 2 * 4 * atan 1

/-- `CoordSys::Volume(xlo, xhi)`: `none` when `assert(0)` is reached. -/
def CoordSys.Volume_xlo_xhi (atan : K → K) (c : CoordSys K) (xlo xhi : Nat → K) : Option K :=
  match c.c_sys with
  | CoordType.cartesian =>
    some ((xhi 0 - xlo 0)
      * (if 2 ≤ c.BL_SPACEDIM then xhi 1 - xlo 1 else 1)
      * (if 3 ≤ c.BL_SPACEDIM then xhi 2 - xlo 2 else 1))
  | CoordType.RZ =>
    if c.BL_SPACEDIM = 2 then
      some (1 / 2 * RZFACTOR atan * (xhi 1 - xlo 1) * (xhi 0 * xhi 0 - xlo 0 * xlo 0))
    else none
  | CoordType.undef => none

/-- `CoordSys::Volume(point)`; the local arrays `xhi`, `xlo` are filled by `HiNode` and
`LoNode`. -/
def CoordSys.Volume (atan : K → K) (c : CoordSys K) (point : Nat → Int) : Option K :=
  match c.HiNode point (fun _ => 0) with
  | none => none
  | some xhi =>
    match c.LoNode point (fun _ => 0) with
    | none => none
    | some xlo => c.Volume_xlo_xhi atan xlo xhi

/-- `CoordSys::AreaLo(point, dir)`.  In the two-dimensional build a Cartesian system with
`dir` other than `0`, `1` falls through to the `RZ` case, and there `dir` other than `0`,
`1` reaches `assert(0)`. -/
def CoordSys.AreaLo (atan : K → K) (c : CoordSys K) (point : Nat → Int) (dir : Nat) :
    Option K :=
  if c.BL_SPACEDIM = 2 then
    let rz : Option K :=
      match c.LoNode point (fun _ => 0) with
      | none => none
      | some xlo =>
        if dir = 0 then some (RZFACTOR atan * c.dx 1 * xlo 0)
        else if dir = 1 then
          some (((xlo 0 + c.dx 0) * (xlo 0 + c.dx 0) - xlo 0 * xlo 0) * (1 / 2 * RZFACTOR atan))
        else none
    match c.c_sys with
    | CoordType.cartesian =>
      if dir = 0 then some (c.dx 1) else if dir = 1 then some (c.dx 0) else rz
    | CoordType.RZ => rz
    | CoordType.undef => none
  else if c.BL_SPACEDIM = 3 then
    if dir = 0 then some (c.dx 1 * c.dx 2)
    else if dir = 1 then some (c.dx 0 * c.dx 2)
    else if dir = 2 then some (c.dx 1 * c.dx 0)
    else some 0
  else some 0

/-- `CoordSys::AreaHi(point, dir)`, with the same fall-through as `AreaLo`. -/
def CoordSys.AreaHi (atan : K → K) (c : CoordSys K) (point : Nat → Int) (dir : Nat) :
    Option K :=
  if c.BL_SPACEDIM = 2 then
    let rz : Option K :=
      match c.HiNode point (fun _ => 0) with
      | none => none
      | some xhi =>
        if dir = 0 then some (RZFACTOR atan * c.dx 1 * xhi 0)
        else if dir = 1 then
          some ((xhi 0 * xhi 0 - (xhi 0 - c.dx 0) * (xhi 0 - c.dx 0)) * (RZFACTOR atan * (1 / 2)))
        else none
    match c.c_sys with
    | CoordType.cartesian =>
      if dir = 0 then some (c.dx 1) else if dir = 1 then some (c.dx 0) else rz
    | CoordType.RZ => rz
    | CoordType.undef => none
  else if c.BL_SPACEDIM = 3 then
    if dir = 0 then some (c.dx 1 * c.dx 2)
    else if dir = 1 then some (c.dx 0 * c.dx 2)
    else if dir = 2 then some (c.dx 1 * c.dx 0)
    else some 0
  else some 0

end Metrics

/-! ## A concrete configuration

One marker on the cell centre `(1/2, 1/2, 1/2)` of a unit grid with origin `0`, a body at
rest, the force block in the components `0, 1, 2`, the velocity block in `3, 4, 5`, and a
fluid moving with the uniform velocity `(1, 0, 0)`. -/

/-- A body record with zero velocity. -/
def sampleKernel : kernel ℚ :=
  { location := ⟨1 / 2, 1 / 2, -1 / 2⟩, velocity := ⟨0, 0, 0⟩, omega := ⟨0, 0, 0⟩,
    varphi := ⟨0, 0, 0⟩, radious := 1, ml := 1, dv := 1, rho := 2 }

/-- A container with one marker whose attributes are all zero. -/
def sampleParticles : mParticle ℚ :=
  { particle_kernels := [sampleKernel]
    markers := [⟨⟨1 / 2, 1 / 2, 1 / 2⟩, 0, 0, 0, 0, 0, 0⟩]
    euler_force_index := 0
    euler_velocity_index := 3
    euler_fluid_rho := 1
    plo := ⟨0, 0, 0⟩
    dx := ⟨1, 1, 1⟩ }

/-- A field on the box `[-3, 3]³` with velocity `(1, 0, 0)` everywhere and zero force. -/
def sampleEuler : MultiFab ℚ :=
  { validbox := ⟨(-3, -3, -3), (3, 3, 3)⟩
    array := fun _ _ _ n => if n = 3 then 1 else 0 }

/-- Rational stand-ins for the C math library, to run the engine on rational inputs:
`Rat.sqrt`, the values of `sin`, `cos`, `acos` at the angle `0`, `fmod` returning its first
argument, and `22/7` for `pi`.  What is proved about a run with them holds for every
`Libm`. -/
def sampleLibm : Libm ℚ :=
  { sqrt := Rat.sqrt, sin := fun _ => 0, cos := fun _ => 1, acos := fun _ => 0,
    fmod := fun a _ => a, pi := 22 / 7 }

/-- A body of radius four cells at rest, with the marker count and marker volume
`InitParticles` computes for the radius `4`, the cell size `1` and `pi = 22/7`. -/
def restingKernel : kernel ℚ :=
  { location := ⟨8, 8, 8⟩, velocity := ⟨0, 0, 0⟩, omega := ⟨0, 0, 0⟩, varphi := ⟨0, 0, 0⟩,
    radious := 4, ml := 201, dv := 4246 / 4221, rho := 2 }

/-- A container with the body `restingKernel` and its 201 markers as `InitParticles`
creates them. -/
def restingParticles : mParticle ℚ :=
  { particle_kernels := [restingKernel]
    markers := List.replicate 201 ⟨⟨0, 0, 0⟩, 0, 0, 0, 0, 0, 0⟩
    euler_force_index := 0
    euler_velocity_index := 3
    euler_fluid_rho := 1
    plo := ⟨0, 0, 0⟩
    dx := ⟨1, 1, 1⟩ }

/-- A field on the box `[0, 15]³` that is zero in every component. -/
def stillEuler : MultiFab ℚ :=
  { validbox := ⟨(0, 0, 0), (15, 15, 15)⟩
    array := fun _ _ _ _ => 0 }

/-- A two-dimensional `RZ` coordinate system with offset `(1, 0)` and cell size `(1/2, 1)`. -/
def sampleCoordSys : CoordSys ℚ :=
  { BL_SPACEDIM := 2, c_sys := CoordType.RZ, offset := fun d => if d = 0 then 1 else 0,
    dx := fun d => if d = 0 then 1 / 2 else 1, ok := true }

/-- The cell-centred box `[2, 3] × [0, 1]`. -/
def sampleBOX : BOX :=
  { loVect := fun d => if d = 0 then 2 else 0, hiVect := fun d => if d = 0 then 3 else 1 }

/-- A three-dimensional Cartesian coordinate system with offset `(0, 0, 0)` and cell size
`(1, 2, 3)`. -/
def cartesianCoordSys : CoordSys ℚ :=
  { BL_SPACEDIM := 3, c_sys := CoordType.cartesian, offset := fun _ => 0,
    dx := fun d => (d : ℚ) + 1, ok := true }

/-- A body centred at the origin that moves with the velocity `(1, 0, 0)` and spins with the
angular velocity `(0, 0, 1)`. -/
def spinningKernel : kernel ℚ :=
  { location := ⟨0, 0, 0⟩, velocity := ⟨1, 0, 0⟩, omega := ⟨0, 0, 1⟩, varphi := ⟨0, 0, 0⟩,
    radious := 1, ml := 1, dv := 1, rho := 2 }

/-- A container with the body `spinningKernel` and one marker at `(1, 0, 0)` whose attributes
are all zero. -/
def spinningParticles : mParticle ℚ :=
  { particle_kernels := [spinningKernel]
    markers := [⟨⟨1, 0, 0⟩, 0, 0, 0, 0, 0, 0⟩]
    euler_force_index := 0
    euler_velocity_index := 3
    euler_fluid_rho := 1
    plo := ⟨0, 0, 0⟩
    dx := ⟨1, 1, 1⟩ }

/-- A body of radius `4` centred at `(8, 8, 8)` with two markers, one for each pole. -/
def polarKernel : kernel ℚ :=
  { location := ⟨8, 8, 8⟩, velocity := ⟨0, 0, 0⟩, omega := ⟨0, 0, 0⟩, varphi := ⟨0, 0, 0⟩,
    radious := 4, ml := 2, dv := 1, rho := 2 }

/-- A container with the body `polarKernel` and two markers whose positions and attributes
are all zero. -/
def polarParticles : mParticle ℚ :=
  { particle_kernels := [polarKernel]
    markers := [⟨⟨0, 0, 0⟩, 0, 0, 0, 0, 0, 0⟩, ⟨⟨0, 0, 0⟩, 0, 0, 0, 0, 0, 0⟩]
    euler_force_index := 0
    euler_velocity_index := 3
    euler_fluid_rho := 1
    plo := ⟨0, 0, 0⟩
    dx := ⟨1, 1, 1⟩ }

/-- Rational stand-ins for the C math library on which `cos (acos x) = x`: an angle is
represented by its cosine, and `sin` is given its value `0` at the two poles. -/
def poleLibm : Libm ℚ :=
  { sqrt := Rat.sqrt, sin := fun _ => 0, cos := fun x => x, acos := fun x => x,
    fmod := fun a _ => a, pi := 22 / 7 }

/-- A body of radius `4` centred at `(8, 8, 8)` with four markers. -/
def quadKernel : kernel ℚ :=
  { location := ⟨8, 8, 8⟩, velocity := ⟨0, 0, 0⟩, omega := ⟨0, 0, 0⟩, varphi := ⟨0, 0, 0⟩,
    radious := 4, ml := 4, dv := 1, rho := 2 }

/-- A body record with the centre, radius and marker count of `quadKernel` and other values
elsewhere. -/
def quadKernelMoving : kernel ℚ :=
  { location := ⟨8, 8, 8⟩, velocity := ⟨1, 2, 3⟩, omega := ⟨0, 0, 1⟩, varphi := ⟨1, 1, 1⟩,
    radious := 4, ml := 4, dv := 7, rho := 5 }

/-- A container with four fresh markers. -/
def quadParticles : mParticle ℚ :=
  { particle_kernels := [quadKernel]
    markers := [⟨⟨0, 0, 0⟩, 0, 0, 0, 0, 0, 0⟩, ⟨⟨0, 0, 0⟩, 0, 0, 0, 0, 0, 0⟩,
      ⟨⟨0, 0, 0⟩, 0, 0, 0, 0, 0, 0⟩, ⟨⟨0, 0, 0⟩, 0, 0, 0, 0, 0, 0⟩]
    euler_force_index := 0
    euler_velocity_index := 3
    euler_fluid_rho := 1
    plo := ⟨0, 0, 0⟩
    dx := ⟨1, 1, 1⟩ }

/-- A container with four markers that carry positions and attributes of earlier use. -/
def quadParticlesUsed : mParticle ℚ :=
  { particle_kernels := [quadKernelMoving]
    markers := [⟨⟨7, 7, 7⟩, 1, 2, 3, 4, 5, 6⟩, ⟨⟨1, 2, 3⟩, 6, 5, 4, 3, 2, 1⟩,
      ⟨⟨-1, 0, 9⟩, 1, 1, 1, 1, 1, 1⟩, ⟨⟨3, 3, 3⟩, 0, 0, 0, 2, 2, 2⟩]
    euler_force_index := 0
    euler_velocity_index := 3
    euler_fluid_rho := 1
    plo := ⟨0, 0, 0⟩
    dx := ⟨1, 1, 1⟩ }

/-- Rational stand-ins for the C math library under which the sampled position depends on
both angles: `sqrt x` is `x + 1`, `sin x` is `x`, `cos x` is `x + 1`, `acos x` is `x`, `fmod`
returns its first argument. -/
def affineLibm : Libm ℚ :=
  { sqrt := fun x => x + 1, sin := fun x => x, cos := fun x => x + 1, acos := fun x => x,
    fmod := fun a _ => a, pi := 22 / 7 }

/-- The cell size `0.1` as the program holds it: the double nearest to `1/10`. -/
def dxTenth : ℚ := 3602879701896397 / 36028797018963968

/-- An empty container on a grid of cell size `1000`. -/
def coarseParticles : mParticle ℚ :=
  { particle_kernels := []
    markers := []
    euler_force_index := 0
    euler_velocity_index := 3
    euler_fluid_rho := 1
    plo := ⟨0, 0, 0⟩
    dx := ⟨1000, 1000, 1000⟩ }

/-! ## Auxiliary lemmas -/

section Lemmas

variable {K : Type} [LinearOrderedField K] [FloorRing K]

theorem abs_div_of_pos (a h : K) (hh : 0 < h) : abs (a / h) = abs a / h := by
  rw [abs_div, abs_of_pos hh]

theorem stencilOffsets_nodup : stencilOffsets.Nodup := by decide

theorem mem_stencilOffsets (a : Int) : a ∈ stencilOffsets ↔ -2 ≤ a ∧ a ≤ 2 := by
  unfold stencilOffsets
  constructor
  · intro h
    simp only [List.mem_cons, List.mem_singleton, List.not_mem_nil, or_false] at h
    omega
  · intro h
    simp only [List.mem_cons, List.mem_singleton, List.not_mem_nil, or_false]
    omega

theorem AddNoRet_apply (E : Array4 K) (i j k n : Int) (v : K) (x y z m : Int) :
    AddNoRet E i j k n v x y z m
      = E x y z m + (if x = i ∧ y = j ∧ z = k ∧ m = n then v else 0) := by
  unfold AddNoRet
  split <;> simp

/-- A loop that adds a contribution `g a` in every pass adds the sum of the contributions. -/
theorem foldl_pointwise_add {α : Type} (g : α → Array4 K) (step : Array4 K → α → Array4 K)
    (hstep : ∀ E a x y z n, step E a x y z n = E x y z n + g a x y z n)
    (l : List α) (E0 : Array4 K) (x y z n : Int) :
    l.foldl step E0 x y z n = E0 x y z n + (l.map (fun a => g a x y z n)).sum := by
  induction l generalizing E0 with
  | nil => simp
  | cons a l ih =>
    simp only [List.foldl_cons, List.map_cons, List.sum_cons]
    rw [ih, hstep]
    ring

/-- A sum over offsets whose terms vanish unless `x = i + a` has at most one term. -/
theorem sum_map_offset_single (l : List Int) (hl : l.Nodup) (x i : Int) (t : Int → K)
    (ht : ∀ a ∈ l, x ≠ i + a → t a = 0) :
    (l.map t).sum = if x - i ∈ l then t (x - i) else 0 := by
  induction l with
  | nil => simp
  | cons a l ih =>
    have hnd := List.nodup_cons.mp hl
    have ih1 := ih hnd.2 (fun b hb => ht b (List.mem_cons_of_mem a hb))
    simp only [List.map_cons, List.sum_cons, List.mem_cons]
    by_cases hxa : x = i + a
    · have hxi : x - i = a := by omega
      rw [ih1, hxi]
      simp [hnd.1]
    · have hxi : ¬ (x - i = a) := by omega
      rw [ih1, ht a (List.mem_cons_self a l) hxa]
      simp [hxi]

/-- Three nested loops that add a contribution in every pass add the triple sum. -/
theorem foldl3_pointwise_add (g : Int → Int → Int → Array4 K)
    (step : Array4 K → Int → Int → Int → Array4 K)
    (hstep : ∀ E a b c x y z n, step E a b c x y z n = E x y z n + g a b c x y z n)
    (l1 l2 l3 : List Int) (E0 : Array4 K) (x y z n : Int) :
    l1.foldl (fun E a => l2.foldl (fun E b => l3.foldl (fun E c => step E a b c) E) E) E0 x y z n
      = E0 x y z n
        + (l1.map (fun a => (l2.map (fun b => (l3.map (fun c => g a b c x y z n)).sum)).sum)).sum := by
  have h3 : ∀ (a b : Int) (E : Array4 K) (x y z n : Int),
      l3.foldl (fun E c => step E a b c) E x y z n
        = E x y z n + (l3.map (fun c => g a b c x y z n)).sum := fun a b E x y z n =>
    foldl_pointwise_add (fun c => g a b c) (fun E c => step E a b c)
      (fun E c x y z n => hstep E a b c x y z n) l3 E x y z n
  have h2 : ∀ (a : Int) (E : Array4 K) (x y z n : Int),
      l2.foldl (fun E b => l3.foldl (fun E c => step E a b c) E) E x y z n
        = E x y z n + (l2.map (fun b => (l3.map (fun c => g a b c x y z n)).sum)).sum :=
    fun a E x y z n =>
    foldl_pointwise_add (fun b x y z n => (l3.map (fun c => g a b c x y z n)).sum)
      (fun E b => l3.foldl (fun E c => step E a b c) E)
      (fun E b x y z n => h3 a b E x y z n) l2 E x y z n
  exact foldl_pointwise_add
    (fun a x y z n => (l2.map (fun b => (l3.map (fun c => g a b c x y z n)).sum)).sum)
    (fun E a => l2.foldl (fun E b => l3.foldl (fun E c => step E a b c) E) E)
    (fun E a x y z n => h2 a E x y z n) l1 E0 x y z n

/-- A triple sum over the stencil whose terms vanish away from the node `(x, y, z)` has at
most one term. -/
theorem sum3_offset_single (x y z i j k : Int) (t : Int → Int → Int → K)
    (ht : ∀ a b c, ¬ (x = i + a ∧ y = j + b ∧ z = k + c) → t a b c = 0) :
    (stencilOffsets.map (fun a => (stencilOffsets.map (fun b =>
        (stencilOffsets.map (fun c => t a b c)).sum)).sum)).sum
      = if x - i ∈ stencilOffsets ∧ y - j ∈ stencilOffsets ∧ z - k ∈ stencilOffsets then
          t (x - i) (y - j) (z - k) else 0 := by
  have h3 : ∀ a b, (stencilOffsets.map (fun c => t a b c)).sum
      = if z - k ∈ stencilOffsets then t a b (z - k) else 0 := fun a b =>
    sum_map_offset_single stencilOffsets stencilOffsets_nodup z k (fun c => t a b c)
      (fun c _ hc => ht a b c (fun h => hc h.2.2))
  have h2 : ∀ a, (stencilOffsets.map (fun b =>
      (if z - k ∈ stencilOffsets then t a b (z - k) else 0))).sum
      = if y - j ∈ stencilOffsets then
          (if z - k ∈ stencilOffsets then t a (y - j) (z - k) else 0) else 0 := fun a =>
    sum_map_offset_single stencilOffsets stencilOffsets_nodup y j
      (fun b => if z - k ∈ stencilOffsets then t a b (z - k) else 0)
      (fun b _ hb => by
        show (if z - k ∈ stencilOffsets then t a b (z - k) else 0) = 0
        rw [ht a b (z - k) (fun h => hb h.2.1)]
        simp)
  have h1 : (stencilOffsets.map (fun a =>
      (if y - j ∈ stencilOffsets then
          (if z - k ∈ stencilOffsets then t a (y - j) (z - k) else 0) else 0))).sum
      = if x - i ∈ stencilOffsets then
          (if y - j ∈ stencilOffsets then
            (if z - k ∈ stencilOffsets then t (x - i) (y - j) (z - k) else 0) else 0) else 0 :=
    sum_map_offset_single stencilOffsets stencilOffsets_nodup x i
      (fun a => if y - j ∈ stencilOffsets then
          (if z - k ∈ stencilOffsets then t a (y - j) (z - k) else 0) else 0)
      (fun a _ ha => by
        show (if y - j ∈ stencilOffsets then
          (if z - k ∈ stencilOffsets then t a (y - j) (z - k) else 0) else 0) = 0
        rw [ht a (y - j) (z - k) (fun h => ha h.1)]
        simp)
  simp only [h3, h2, h1]
  by_cases hx : x - i ∈ stencilOffsets <;> by_cases hy : y - j ∈ stencilOffsets <;>
    by_cases hz : z - k ∈ stencilOffsets <;> simp [hx, hy, hz]

/-- The three atomic additions of one pass of the spreading loop. -/
theorem spread_pass_apply (E : Array4 K) (i j k F : Int) (a b c : K) (x y z n : Int) :
    AddNoRet (AddNoRet (AddNoRet E i j k F a) i j k (F + 1) b) i j k (F + 2) c x y z n
      = E x y z n +
        (if x = i ∧ y = j ∧ z = k then
          (if n = F then a else if n = F + 1 then b else if n = F + 2 then c else 0)
        else 0) := by
  simp only [AddNoRet_apply]
  by_cases hp : x = i ∧ y = j ∧ z = k
  · obtain ⟨h1, h2, h3⟩ := hp
    subst h1 h2 h3
    by_cases h0 : n = F
    · subst h0; simp
    · by_cases h1 : n = F + 1
      · subst h1; simp
      · by_cases h2 : n = F + 2
        · subst h2; simp
        · simp [h0, h1, h2]
  · have e : ∀ m : Int, ¬ (x = i ∧ y = j ∧ z = k ∧ n = m) := fun m h => hp ⟨h.1, h.2.1, h.2.2.1⟩
    simp [hp, e]

/-- Closed form of the array written by `ForceSpreading_cic`. -/
theorem ForceSpreading_cic_apply (sqrt : K → K) (pos : RealVect K) (fxP fyP fzP : K)
    (E : Array4 K) (F : Int) (plo dx : RealVect K) (type : DELTA_FUNCTION_TYPE)
    (x y z n : Int) :
    ForceSpreading_cic sqrt pos fxP fyP fzP E F plo dx type x y z n
      = E x y z n +
        (if x - ⌊(pos.v0 - plo.v0) / dx.v0⌋ ∈ stencilOffsets ∧
            y - ⌊(pos.v1 - plo.v1) / dx.v1⌋ ∈ stencilOffsets ∧
            z - ⌊(pos.v2 - plo.v2) / dx.v2⌋ ∈ stencilOffsets then
          (if n = F then
            delta_value sqrt pos dx type ⌊(pos.v0 - plo.v0) / dx.v0⌋ ⌊(pos.v1 - plo.v1) / dx.v1⌋
              ⌊(pos.v2 - plo.v2) / dx.v2⌋ (x - ⌊(pos.v0 - plo.v0) / dx.v0⌋)
              (y - ⌊(pos.v1 - plo.v1) / dx.v1⌋) (z - ⌊(pos.v2 - plo.v2) / dx.v2⌋)
              * fxP * (dx.v0 * dx.v1 * dx.v2)
          else if n = F + 1 then
            delta_value sqrt pos dx type ⌊(pos.v0 - plo.v0) / dx.v0⌋ ⌊(pos.v1 - plo.v1) / dx.v1⌋
              ⌊(pos.v2 - plo.v2) / dx.v2⌋ (x - ⌊(pos.v0 - plo.v0) / dx.v0⌋)
              (y - ⌊(pos.v1 - plo.v1) / dx.v1⌋) (z - ⌊(pos.v2 - plo.v2) / dx.v2⌋)
              * fyP * (dx.v0 * dx.v1 * dx.v2)
          else if n = F + 2 then
            delta_value sqrt pos dx type ⌊(pos.v0 - plo.v0) / dx.v0⌋ ⌊(pos.v1 - plo.v1) / dx.v1⌋
              ⌊(pos.v2 - plo.v2) / dx.v2⌋ (x - ⌊(pos.v0 - plo.v0) / dx.v0⌋)
              (y - ⌊(pos.v1 - plo.v1) / dx.v1⌋) (z - ⌊(pos.v2 - plo.v2) / dx.v2⌋)
              * fzP * (dx.v0 * dx.v1 * dx.v2)
          else 0)
        else 0) := by
  unfold ForceSpreading_cic
  simp only []
  generalize ⌊(pos.v0 - plo.v0) / dx.v0⌋ = i
  generalize ⌊(pos.v1 - plo.v1) / dx.v1⌋ = j
  generalize ⌊(pos.v2 - plo.v2) / dx.v2⌋ = k
  rw [foldl3_pointwise_add
    (fun ii jj kk x y z n =>
      if x = i + ii ∧ y = j + jj ∧ z = k + kk then
        (if n = F then delta_value sqrt pos dx type i j k ii jj kk * fxP * (dx.v0 * dx.v1 * dx.v2)
         else if n = F + 1 then
          delta_value sqrt pos dx type i j k ii jj kk * fyP * (dx.v0 * dx.v1 * dx.v2)
         else if n = F + 2 then
          delta_value sqrt pos dx type i j k ii jj kk * fzP * (dx.v0 * dx.v1 * dx.v2)
         else 0)
      else 0)
    (fun E ii jj kk =>
      AddNoRet (AddNoRet (AddNoRet E (i + ii) (j + jj) (k + kk) F
        (delta_value sqrt pos dx type i j k ii jj kk * fxP * (dx.v0 * dx.v1 * dx.v2)))
        (i + ii) (j + jj) (k + kk) (F + 1)
        (delta_value sqrt pos dx type i j k ii jj kk * fyP * (dx.v0 * dx.v1 * dx.v2)))
        (i + ii) (j + jj) (k + kk) (F + 2)
        (delta_value sqrt pos dx type i j k ii jj kk * fzP * (dx.v0 * dx.v1 * dx.v2)))
    (fun E a b c x y z n => spread_pass_apply E (i + a) (j + b) (k + c) F _ _ _ x y z n)]
  rw [sum3_offset_single x y z i j k _ (fun a b c h => if_neg h)]
  by_cases hs : x - i ∈ stencilOffsets ∧ y - j ∈ stencilOffsets ∧ z - k ∈ stencilOffsets
  · have e : x = i + (x - i) ∧ y = j + (y - j) ∧ z = k + (z - k) := by omega
    rw [if_pos hs, if_pos hs, if_pos e]
  · rw [if_neg hs, if_neg hs]

/-- A loop that adds to three accumulators in every pass adds the three sums. -/
theorem foldl_triple_add {α : Type} (f g h : α → K) (step : K × K × K → α → K × K × K)
    (hstep : ∀ acc a, step acc a = (acc.1 + f a, acc.2.1 + g a, acc.2.2 + h a))
    (l : List α) (acc0 : K × K × K) :
    l.foldl step acc0
      = (acc0.1 + (l.map f).sum, acc0.2.1 + (l.map g).sum, acc0.2.2 + (l.map h).sum) := by
  induction l generalizing acc0 with
  | nil => simp
  | cons a l ih =>
    simp only [List.foldl_cons, List.map_cons, List.sum_cons]
    rw [ih, hstep]
    simp only [add_assoc]

/-- Three nested accumulating loops compute the three triple sums. -/
theorem foldl3_triple_add (f g h : Int → Int → Int → K)
    (step : K × K × K → Int → Int → Int → K × K × K)
    (hstep : ∀ acc a b c,
      step acc a b c = (acc.1 + f a b c, acc.2.1 + g a b c, acc.2.2 + h a b c))
    (l1 l2 l3 : List Int) (acc0 : K × K × K) :
    l1.foldl (fun acc a => l2.foldl (fun acc b => l3.foldl (fun acc c => step acc a b c) acc) acc)
        acc0
      = (acc0.1 + (l1.map (fun a => (l2.map (fun b => (l3.map (fun c => f a b c)).sum)).sum)).sum,
         acc0.2.1 + (l1.map (fun a => (l2.map (fun b => (l3.map (fun c => g a b c)).sum)).sum)).sum,
         acc0.2.2
          + (l1.map (fun a => (l2.map (fun b => (l3.map (fun c => h a b c)).sum)).sum)).sum) := by
  have h3 : ∀ (a b : Int) (acc : K × K × K),
      l3.foldl (fun acc c => step acc a b c) acc
        = (acc.1 + (l3.map (fun c => f a b c)).sum, acc.2.1 + (l3.map (fun c => g a b c)).sum,
           acc.2.2 + (l3.map (fun c => h a b c)).sum) := fun a b acc =>
    foldl_triple_add (fun c => f a b c) (fun c => g a b c) (fun c => h a b c)
      (fun acc c => step acc a b c) (fun acc c => hstep acc a b c) l3 acc
  have h2 : ∀ (a : Int) (acc : K × K × K),
      l2.foldl (fun acc b => l3.foldl (fun acc c => step acc a b c) acc) acc
        = (acc.1 + (l2.map (fun b => (l3.map (fun c => f a b c)).sum)).sum,
           acc.2.1 + (l2.map (fun b => (l3.map (fun c => g a b c)).sum)).sum,
           acc.2.2 + (l2.map (fun b => (l3.map (fun c => h a b c)).sum)).sum) := fun a acc =>
    foldl_triple_add (fun b => (l3.map (fun c => f a b c)).sum)
      (fun b => (l3.map (fun c => g a b c)).sum) (fun b => (l3.map (fun c => h a b c)).sum)
      (fun acc b => l3.foldl (fun acc c => step acc a b c) acc) (fun acc b => h3 a b acc) l2 acc
  exact foldl_triple_add (fun a => (l2.map (fun b => (l3.map (fun c => f a b c)).sum)).sum)
    (fun a => (l2.map (fun b => (l3.map (fun c => g a b c)).sum)).sum)
    (fun a => (l2.map (fun b => (l3.map (fun c => h a b c)).sum)).sum)
    (fun acc a => l2.foldl (fun acc b => l3.foldl (fun acc c => step acc a b c) acc) acc)
    (fun acc a => h2 a acc) l1 acc0

/-- A sum over the list of stencil offsets is the sum over the integers `-2, ..., 2`. -/
theorem sum_stencilOffsets (f : Int → K) :
    (stencilOffsets.map f).sum = ∑ a ∈ Finset.Icc (-2 : Int) 2, f a := by
  rw [← List.sum_toFinset f stencilOffsets_nodup]
  rfl

/-- Closed form of the three values computed by `VelocityInterpolation_cir`. -/
theorem VelocityInterpolation_cir_eq (sqrt : K → K) (pos : RealVect K) (Up0 Vp0 Wp0 : K)
    (E : Array4 K) (V : Int) (plo dx : RealVect K) (type : DELTA_FUNCTION_TYPE) :
    VelocityInterpolation_cir sqrt pos Up0 Vp0 Wp0 E V plo dx type
      = (∑ ii ∈ Finset.Icc (-2 : Int) 2, ∑ jj ∈ Finset.Icc (-2 : Int) 2,
          ∑ kk ∈ Finset.Icc (-2 : Int) 2,
            delta_value sqrt pos dx type ⌊(pos.v0 - plo.v0) / dx.v0⌋ ⌊(pos.v1 - plo.v1) / dx.v1⌋
              ⌊(pos.v2 - plo.v2) / dx.v2⌋ ii jj kk
            * E (⌊(pos.v0 - plo.v0) / dx.v0⌋ + ii) (⌊(pos.v1 - plo.v1) / dx.v1⌋ + jj)
                (⌊(pos.v2 - plo.v2) / dx.v2⌋ + kk) V
            * (dx.v0 * dx.v1 * dx.v2),
         ∑ ii ∈ Finset.Icc (-2 : Int) 2, ∑ jj ∈ Finset.Icc (-2 : Int) 2,
          ∑ kk ∈ Finset.Icc (-2 : Int) 2,
            delta_value sqrt pos dx type ⌊(pos.v0 - plo.v0) / dx.v0⌋ ⌊(pos.v1 - plo.v1) / dx.v1⌋
              ⌊(pos.v2 - plo.v2) / dx.v2⌋ ii jj kk
            * E (⌊(pos.v0 - plo.v0) / dx.v0⌋ + ii) (⌊(pos.v1 - plo.v1) / dx.v1⌋ + jj)
                (⌊(pos.v2 - plo.v2) / dx.v2⌋ + kk) (V + 1)
            * (dx.v0 * dx.v1 * dx.v2),
         ∑ ii ∈ Finset.Icc (-2 : Int) 2, ∑ jj ∈ Finset.Icc (-2 : Int) 2,
          ∑ kk ∈ Finset.Icc (-2 : Int) 2,
            delta_value sqrt pos dx type ⌊(pos.v0 - plo.v0) / dx.v0⌋ ⌊(pos.v1 - plo.v1) / dx.v1⌋
              ⌊(pos.v2 - plo.v2) / dx.v2⌋ ii jj kk
            * E (⌊(pos.v0 - plo.v0) / dx.v0⌋ + ii) (⌊(pos.v1 - plo.v1) / dx.v1⌋ + jj)
                (⌊(pos.v2 - plo.v2) / dx.v2⌋ + kk) (V + 2)
            * (dx.v0 * dx.v1 * dx.v2)) := by
  unfold VelocityInterpolation_cir
  simp only []
  generalize ⌊(pos.v0 - plo.v0) / dx.v0⌋ = i
  generalize ⌊(pos.v1 - plo.v1) / dx.v1⌋ = j
  generalize ⌊(pos.v2 - plo.v2) / dx.v2⌋ = k
  rw [foldl3_triple_add
    (fun ii jj kk => delta_value sqrt pos dx type i j k ii jj kk
      * E (i + ii) (j + jj) (k + kk) V * (dx.v0 * dx.v1 * dx.v2))
    (fun ii jj kk => delta_value sqrt pos dx type i j k ii jj kk
      * E (i + ii) (j + jj) (k + kk) (V + 1) * (dx.v0 * dx.v1 * dx.v2))
    (fun ii jj kk => delta_value sqrt pos dx type i j k ii jj kk
      * E (i + ii) (j + jj) (k + kk) (V + 2) * (dx.v0 * dx.v1 * dx.v2))
    _ (fun acc a b c => rfl)]
  simp only [zero_add, ← sum_stencilOffsets]

end Lemmas

/-! ## The delta kernel -/

section DeltaKernel

variable {K : Type} [LinearOrderedField K] [FloorRing K]

/-- `Rat.sqrt`, the square root used at the concrete rational inputs below, is exact at `1`. -/
theorem rat_sqrt_one : Rat.sqrt 1 = 1 := by
  have h := Rat.sqrt_eq 1
  rwa [mul_one, abs_one] at h

/-- C8. Four-point kernel: for `h > 0` and `r = |xf - xp| / h`, `deltaFunction` yields
`(3 - 2r + sqrt(1 + 4r - 4r²)) / (8h)` on `0 ≤ r < 1/2`,
`(5 - 2r - sqrt(-7 + 12r - 4r²)) / (8h)` on `1 ≤ r < 2`, and `0` on `1/2 ≤ r < 1` and on
`r ≥ 2`. -/
theorem deltaFunction_four_point_branches (sqrt : K → K) (xf xp h : K) (hh : 0 < h) :
    (0 ≤ abs (xf - xp) / h ∧ abs (xf - xp) / h < 1 / 2 →
      deltaFunction sqrt xf xp h DELTA_FUNCTION_TYPE.FOUR_POINT_IB
        = (3 - 2 * (abs (xf - xp) / h)
            + sqrt (1 + 4 * (abs (xf - xp) / h) - 4 * (abs (xf - xp) / h) ^ 2)) / (8 * h)) ∧
    (1 ≤ abs (xf - xp) / h ∧ abs (xf - xp) / h < 2 →
      deltaFunction sqrt xf xp h DELTA_FUNCTION_TYPE.FOUR_POINT_IB
        = (5 - 2 * (abs (xf - xp) / h)
            - sqrt (-7 + 12 * (abs (xf - xp) / h) - 4 * (abs (xf - xp) / h) ^ 2)) / (8 * h)) ∧
    (1 / 2 ≤ abs (xf - xp) / h ∧ abs (xf - xp) / h < 1 →
      deltaFunction sqrt xf xp h DELTA_FUNCTION_TYPE.FOUR_POINT_IB = 0) ∧
    (2 ≤ abs (xf - xp) / h →
      deltaFunction sqrt xf xp h DELTA_FUNCTION_TYPE.FOUR_POINT_IB = 0) := by
  have hne : h ≠ 0 := ne_of_gt hh
  unfold deltaFunction
  simp only [abs_div_of_pos _ h hh]
  generalize abs (xf - xp) / h = r
  refine ⟨fun hr => ?_, fun hr => ?_, fun hr => ?_, fun hr => ?_⟩
  · rw [if_pos ⟨hr.1, hr.2⟩]
    field_simp
  · have h1 : ¬ (r ≥ 0 ∧ r < 1 / 2) := fun c => by linarith [c.2, hr.1]
    rw [if_neg h1, if_pos ⟨hr.1, hr.2⟩]
    field_simp
  · have h1 : ¬ (r ≥ 0 ∧ r < 1 / 2) := fun c => by linarith [c.2, hr.1]
    have h2 : ¬ (r ≥ 1 ∧ r < 2) := fun c => by linarith [c.1, hr.2]
    rw [if_neg h1, if_neg h2]
  · have h1 : ¬ (r ≥ 0 ∧ r < 1 / 2) := fun c => by linarith [c.2, hr]
    have h2 : ¬ (r ≥ 1 ∧ r < 2) := fun c => by linarith [c.2, hr]
    rw [if_neg h1, if_neg h2]

/-- The four-point kernel at `h = 1`, `xp = 0` and the distances `0`, `1`, `3/4`, `2`. -/
theorem deltaFunction_four_point_branches_witness :
    deltaFunction Rat.sqrt 0 0 1 DELTA_FUNCTION_TYPE.FOUR_POINT_IB = 1 / 2 ∧
    deltaFunction Rat.sqrt 1 0 1 DELTA_FUNCTION_TYPE.FOUR_POINT_IB = 1 / 4 ∧
    deltaFunction Rat.sqrt (3 / 4) 0 1 DELTA_FUNCTION_TYPE.FOUR_POINT_IB = 0 ∧
    deltaFunction Rat.sqrt 2 0 1 DELTA_FUNCTION_TYPE.FOUR_POINT_IB = 0 := by
  refine ⟨?_, ?_, ?_, ?_⟩
  · rw [(deltaFunction_four_point_branches Rat.sqrt 0 0 1 (by norm_num)).1 (by norm_num)]
    norm_num [rat_sqrt_one]
  · rw [(deltaFunction_four_point_branches Rat.sqrt 1 0 1 (by norm_num)).2.1 (by norm_num)]
    norm_num [rat_sqrt_one]
  · exact (deltaFunction_four_point_branches Rat.sqrt (3 / 4) 0 1 (by norm_num)).2.2.1
      (by norm_num [abs_of_pos])
  · exact (deltaFunction_four_point_branches Rat.sqrt 2 0 1 (by norm_num)).2.2.2 (by norm_num)

/-- C9. Three-point kernel: for `h > 0` and `r = |xf - xp| / h`, `deltaFunction` yields `0`
whenever `r ≥ 2` (support half-width two cells), `(5 - 3r + sqrt(1 - 3(1 - r²))) / (6h)` on
`0 ≤ r < 1` and `(1 + sqrt(1 - 3r²)) / (3h)` on `1 ≤ r < 2`. -/
theorem deltaFunction_three_point_branches (sqrt : K → K) (xf xp h : K) (hh : 0 < h) :
    (2 ≤ abs (xf - xp) / h →
      deltaFunction sqrt xf xp h DELTA_FUNCTION_TYPE.THREE_POINT_IB = 0) ∧
    (0 ≤ abs (xf - xp) / h ∧ abs (xf - xp) / h < 1 →
      deltaFunction sqrt xf xp h DELTA_FUNCTION_TYPE.THREE_POINT_IB
        = (5 - 3 * (abs (xf - xp) / h)
            + sqrt (1 - 3 * (1 - (abs (xf - xp) / h) ^ 2))) / (6 * h)) ∧
    (1 ≤ abs (xf - xp) / h ∧ abs (xf - xp) / h < 2 →
      deltaFunction sqrt xf xp h DELTA_FUNCTION_TYPE.THREE_POINT_IB
        = (1 + sqrt (1 - 3 * (abs (xf - xp) / h) ^ 2)) / (3 * h)) := by
  have hne : h ≠ 0 := ne_of_gt hh
  unfold deltaFunction
  simp only [abs_div_of_pos _ h hh]
  generalize abs (xf - xp) / h = r
  refine ⟨fun hr => ?_, fun hr => ?_, fun hr => ?_⟩
  · have h1 : ¬ (r ≥ 0 ∧ r < 1) := fun c => by linarith [c.2, hr]
    have h2 : ¬ (r ≥ 1 ∧ r < 2) := fun c => by linarith [c.2, hr]
    rw [if_neg h1, if_neg h2]
  · rw [if_pos ⟨hr.1, hr.2⟩]
    have e : -3 * (1 - r ^ 2) + 1 = 1 - 3 * (1 - r ^ 2) := by ring
    rw [e]
    field_simp
  · have h1 : ¬ (r ≥ 0 ∧ r < 1) := fun c => by linarith [c.2, hr.1]
    rw [if_neg h1, if_pos ⟨hr.1, hr.2⟩]
    field_simp

/-- The three-point kernel at `h = 1`, `xp = 0` and the distances `2`, `5/2` and `9/11`
(where `1 - 3(1 - r²) = (1/11)²`). -/
theorem deltaFunction_three_point_branches_witness :
    deltaFunction Rat.sqrt 2 0 1 DELTA_FUNCTION_TYPE.THREE_POINT_IB = 0 ∧
    deltaFunction Rat.sqrt (5 / 2) 0 1 DELTA_FUNCTION_TYPE.THREE_POINT_IB = 0 ∧
    deltaFunction Rat.sqrt (9 / 11) 0 1 DELTA_FUNCTION_TYPE.THREE_POINT_IB = 29 / 66 := by
  refine ⟨?_, ?_, ?_⟩
  · exact (deltaFunction_three_point_branches Rat.sqrt 2 0 1 (by norm_num)).1 (by norm_num)
  · exact (deltaFunction_three_point_branches Rat.sqrt (5 / 2) 0 1 (by norm_num)).1
      (by norm_num [abs_of_pos])
  · rw [(deltaFunction_three_point_branches Rat.sqrt (9 / 11) 0 1 (by norm_num)).2.1
      (by norm_num [abs_of_pos])]
    have e : (1 : ℚ) - 3 * (1 - (abs (9 / 11 - 0) / 1) ^ 2) = (1 / 11) * (1 / 11) := by
      norm_num [abs_of_pos]
    rw [e, Rat.sqrt_eq]
    norm_num [abs_of_pos]

end DeltaKernel

/-! ## The transfer operators -/

section Transfer

variable {K : Type} [LinearOrderedField K] [FloorRing K]

/-- C5. `ForceSpreading_cic` for one marker with force `(fxP, fyP, fzP)`: with `(i, j, k)` the
componentwise floor of `(pos - plo) / dx`, at every node `(i+ii, j+jj, k+kk)` with offsets in
`-2..2` the components `EularFIndex + 0, 1, 2` increase by exactly
`tU * tV * tW * f_c * (dx0 * dx1 * dx2)`, where `tU, tV, tW` are the kernel values the loop
body computes for that node, and every node outside the stencil keeps its value. -/
theorem ForceSpreading_cic_stencil (sqrt : K → K) (pos : RealVect K) (fxP fyP fzP : K)
    (E : Array4 K) (EularFIndex : Int) (plo dx : RealVect K) (type : DELTA_FUNCTION_TYPE)
    (i j k : Int) (hi : i = ⌊(pos.v0 - plo.v0) / dx.v0⌋) (hj : j = ⌊(pos.v1 - plo.v1) / dx.v1⌋)
    (hk : k = ⌊(pos.v2 - plo.v2) / dx.v2⌋) :
    (∀ ii jj kk : Int, -2 ≤ ii → ii ≤ 2 → -2 ≤ jj → jj ≤ 2 → -2 ≤ kk → kk ≤ 2 →
      ForceSpreading_cic sqrt pos fxP fyP fzP E EularFIndex plo dx type
          (i + ii) (j + jj) (k + kk) EularFIndex
        = E (i + ii) (j + jj) (k + kk) EularFIndex
          + deltaFunction sqrt pos.v0 (((i + ii : Int) : K) * dx.v0 + dx.v0 / 2) dx.v0 type
            * deltaFunction sqrt pos.v1 (((j + jj : Int) : K) * dx.v1 + dx.v1 / 2) dx.v1 type
            * deltaFunction sqrt pos.v2 (((k + kk : Int) : K) * dx.v2 + dx.v2 / 2) dx.v2 type
            * fxP * (dx.v0 * dx.v1 * dx.v2) ∧
      ForceSpreading_cic sqrt pos fxP fyP fzP E EularFIndex plo dx type
          (i + ii) (j + jj) (k + kk) (EularFIndex + 1)
        = E (i + ii) (j + jj) (k + kk) (EularFIndex + 1)
          + deltaFunction sqrt pos.v0 (((i + ii : Int) : K) * dx.v0 + dx.v0 / 2) dx.v0 type
            * deltaFunction sqrt pos.v1 (((j + jj : Int) : K) * dx.v1 + dx.v1 / 2) dx.v1 type
            * deltaFunction sqrt pos.v2 (((k + kk : Int) : K) * dx.v2 + dx.v2 / 2) dx.v2 type
            * fyP * (dx.v0 * dx.v1 * dx.v2) ∧
      ForceSpreading_cic sqrt pos fxP fyP fzP E EularFIndex plo dx type
          (i + ii) (j + jj) (k + kk) (EularFIndex + 2)
        = E (i + ii) (j + jj) (k + kk) (EularFIndex + 2)
          + deltaFunction sqrt pos.v0 (((i + ii : Int) : K) * dx.v0 + dx.v0 / 2) dx.v0 type
            * deltaFunction sqrt pos.v1 (((j + jj : Int) : K) * dx.v1 + dx.v1 / 2) dx.v1 type
            * deltaFunction sqrt pos.v2 (((k + kk : Int) : K) * dx.v2 + dx.v2 / 2) dx.v2 type
            * fzP * (dx.v0 * dx.v1 * dx.v2)) ∧
    (∀ x y z n : Int,
      ¬ (-2 ≤ x - i ∧ x - i ≤ 2 ∧ -2 ≤ y - j ∧ y - j ≤ 2 ∧ -2 ≤ z - k ∧ z - k ≤ 2) →
      ForceSpreading_cic sqrt pos fxP fyP fzP E EularFIndex plo dx type x y z n
        = E x y z n) := by
  subst hi hj hk
  constructor
  · intro ii jj kk h1 h2 h3 h4 h5 h6
    have hs : ∀ a b : Int, -2 ≤ b → b ≤ 2 → a + b - a ∈ stencilOffsets := fun a b hb1 hb2 =>
      (mem_stencilOffsets _).2 ⟨by omega, by omega⟩
    have hin := And.intro (hs ⌊(pos.v0 - plo.v0) / dx.v0⌋ ii h1 h2)
      (And.intro (hs ⌊(pos.v1 - plo.v1) / dx.v1⌋ jj h3 h4)
        (hs ⌊(pos.v2 - plo.v2) / dx.v2⌋ kk h5 h6))
    have e1 : EularFIndex + 1 ≠ EularFIndex := by omega
    have e2 : EularFIndex + 2 ≠ EularFIndex := by omega
    have e3 : EularFIndex + 2 ≠ EularFIndex + 1 := by omega
    refine ⟨?_, ?_, ?_⟩
    · rw [ForceSpreading_cic_apply, if_pos hin, if_pos rfl]
      simp only [add_sub_cancel_left, delta_value]
    · rw [ForceSpreading_cic_apply, if_pos hin, if_neg e1, if_pos rfl]
      simp only [add_sub_cancel_left, delta_value]
    · rw [ForceSpreading_cic_apply, if_pos hin, if_neg e2, if_neg e3, if_pos rfl]
      simp only [add_sub_cancel_left, delta_value]
  · intro x y z n hout
    rw [ForceSpreading_cic_apply, if_neg, add_zero]
    simpa only [mem_stencilOffsets, and_assoc] using hout

/-- One marker at the cell centre `(1/2, 1/2, 1/2)` of a unit grid with origin `0`, force
`(1, 2, 3)`, four-point kernel, spread into the zero array: the values written at the nodes
`(0,0,0)` and `(1,0,0)`, and the untouched node `(3,0,0)`. -/
theorem ForceSpreading_cic_stencil_witness :
    ForceSpreading_cic Rat.sqrt ⟨1 / 2, 1 / 2, 1 / 2⟩ 1 2 3 (fun _ _ _ _ => 0) 0 ⟨0, 0, 0⟩
        ⟨1, 1, 1⟩ DELTA_FUNCTION_TYPE.FOUR_POINT_IB 0 0 0 0 = 1 / 8 ∧
    ForceSpreading_cic Rat.sqrt ⟨1 / 2, 1 / 2, 1 / 2⟩ 1 2 3 (fun _ _ _ _ => 0) 0 ⟨0, 0, 0⟩
        ⟨1, 1, 1⟩ DELTA_FUNCTION_TYPE.FOUR_POINT_IB 1 0 0 2 = 3 / 16 ∧
    ForceSpreading_cic Rat.sqrt ⟨1 / 2, 1 / 2, 1 / 2⟩ 1 2 3 (fun _ _ _ _ => 0) 0 ⟨0, 0, 0⟩
        ⟨1, 1, 1⟩ DELTA_FUNCTION_TYPE.FOUR_POINT_IB 3 0 0 0 = 0 := by
  have hf : (0 : Int) = ⌊((1 / 2 : ℚ) - 0) / 1⌋ := by
    symm
    rw [Int.floor_eq_iff]
    norm_num
  have h := ForceSpreading_cic_stencil Rat.sqrt ⟨1 / 2, 1 / 2, 1 / 2⟩ 1 2 3 (fun _ _ _ _ => 0) 0
    ⟨0, 0, 0⟩ ⟨1, 1, 1⟩ DELTA_FUNCTION_TYPE.FOUR_POINT_IB 0 0 0 hf hf hf
  refine ⟨?_, ?_, ?_⟩
  · have h0 := (h.1 0 0 0 (by decide) (by decide) (by decide) (by decide) (by decide)
      (by decide)).1
    simp only [add_zero] at h0
    rw [h0]
    norm_num [deltaFunction, rat_sqrt_one]
  · have h1 := (h.1 1 0 0 (by decide) (by decide) (by decide) (by decide) (by decide)
      (by decide)).2.2
    simp only [add_zero, zero_add] at h1
    rw [h1]
    norm_num [deltaFunction, rat_sqrt_one]
  · exact h.2 3 0 0 0 (by decide)

/-- C6. `VelocityInterpolation_cir` returns, for each component `c = 0, 1, 2`, the sum over
the 125 offsets of `tU * tV * tW * E(i+ii, j+jj, k+kk, EularVIndex + c) * (dx0 * dx1 * dx2)`
with `(i, j, k)` the floor of `(pos - plo) / dx`; the result does not depend on the values
`Up`, `Vp`, `Wp` hold on entry.  (The field is an input only: the function returns the three
velocities and nothing else.) -/
theorem VelocityInterpolation_cir_sum (sqrt : K → K) (pos : RealVect K) (Up0 Vp0 Wp0 : K)
    (E : Array4 K) (EularVIndex : Int) (plo dx : RealVect K) (type : DELTA_FUNCTION_TYPE)
    (i j k : Int) (hi : i = ⌊(pos.v0 - plo.v0) / dx.v0⌋) (hj : j = ⌊(pos.v1 - plo.v1) / dx.v1⌋)
    (hk : k = ⌊(pos.v2 - plo.v2) / dx.v2⌋) :
    VelocityInterpolation_cir sqrt pos Up0 Vp0 Wp0 E EularVIndex plo dx type
      = (∑ ii ∈ Finset.Icc (-2 : Int) 2, ∑ jj ∈ Finset.Icc (-2 : Int) 2,
          ∑ kk ∈ Finset.Icc (-2 : Int) 2,
            deltaFunction sqrt pos.v0 (((i + ii : Int) : K) * dx.v0 + dx.v0 / 2) dx.v0 type
            * deltaFunction sqrt pos.v1 (((j + jj : Int) : K) * dx.v1 + dx.v1 / 2) dx.v1 type
            * deltaFunction sqrt pos.v2 (((k + kk : Int) : K) * dx.v2 + dx.v2 / 2) dx.v2 type
            * E (i + ii) (j + jj) (k + kk) EularVIndex * (dx.v0 * dx.v1 * dx.v2),
         ∑ ii ∈ Finset.Icc (-2 : Int) 2, ∑ jj ∈ Finset.Icc (-2 : Int) 2,
          ∑ kk ∈ Finset.Icc (-2 : Int) 2,
            deltaFunction sqrt pos.v0 (((i + ii : Int) : K) * dx.v0 + dx.v0 / 2) dx.v0 type
            * deltaFunction sqrt pos.v1 (((j + jj : Int) : K) * dx.v1 + dx.v1 / 2) dx.v1 type
            * deltaFunction sqrt pos.v2 (((k + kk : Int) : K) * dx.v2 + dx.v2 / 2) dx.v2 type
            * E (i + ii) (j + jj) (k + kk) (EularVIndex + 1) * (dx.v0 * dx.v1 * dx.v2),
         ∑ ii ∈ Finset.Icc (-2 : Int) 2, ∑ jj ∈ Finset.Icc (-2 : Int) 2,
          ∑ kk ∈ Finset.Icc (-2 : Int) 2,
            deltaFunction sqrt pos.v0 (((i + ii : Int) : K) * dx.v0 + dx.v0 / 2) dx.v0 type
            * deltaFunction sqrt pos.v1 (((j + jj : Int) : K) * dx.v1 + dx.v1 / 2) dx.v1 type
            * deltaFunction sqrt pos.v2 (((k + kk : Int) : K) * dx.v2 + dx.v2 / 2) dx.v2 type
            * E (i + ii) (j + jj) (k + kk) (EularVIndex + 2) * (dx.v0 * dx.v1 * dx.v2)) ∧
    (∀ Up1 Vp1 Wp1 : K,
      VelocityInterpolation_cir sqrt pos Up1 Vp1 Wp1 E EularVIndex plo dx type
        = VelocityInterpolation_cir sqrt pos Up0 Vp0 Wp0 E EularVIndex plo dx type) := by
  subst hi hj hk
  constructor
  · rw [VelocityInterpolation_cir_eq]
    simp only [delta_value]
  · intro Up1 Vp1 Wp1
    rw [VelocityInterpolation_cir_eq, VelocityInterpolation_cir_eq]

/-- A marker at the cell centre `(1/2, 1/2, 1/2)` of a unit grid with origin `0`, four-point
kernel, and a field that is `8 (n + 1)` in component `n` at the node `(0,0,0)` and `0`
elsewhere: the interpolated velocity is `(1, 2, 3)` whatever the entry values (here `7`). -/
theorem VelocityInterpolation_cir_sum_witness :
    VelocityInterpolation_cir Rat.sqrt ⟨1 / 2, 1 / 2, 1 / 2⟩ 7 7 7
        (fun x y z n => if x = 0 ∧ y = 0 ∧ z = 0 then 8 * ((n : ℚ) + 1) else 0) 0 ⟨0, 0, 0⟩
        ⟨1, 1, 1⟩ DELTA_FUNCTION_TYPE.FOUR_POINT_IB = (1, 2, 3) := by
  have hf : (0 : Int) = ⌊((1 / 2 : ℚ) - 0) / 1⌋ := by
    symm
    rw [Int.floor_eq_iff]
    norm_num
  rw [(VelocityInterpolation_cir_sum Rat.sqrt ⟨1 / 2, 1 / 2, 1 / 2⟩ 7 7 7
    (fun x y z n => if x = 0 ∧ y = 0 ∧ z = 0 then 8 * ((n : ℚ) + 1) else 0) 0 ⟨0, 0, 0⟩
    ⟨1, 1, 1⟩ DELTA_FUNCTION_TYPE.FOUR_POINT_IB 0 0 0 hf hf hf).1]
  simp only [← sum_stencilOffsets]
  simp [stencilOffsets]
  norm_num [deltaFunction, rat_sqrt_one]

/-- The pairing of a spread force with a field is the force times the interpolated field:
the computation behind the adjointness of the two transfer operators. -/
theorem sum_spread_mul (w g : Int → Int → Int → K) (i j k : Int) (f d : K)
    (B : Finset (Int × Int × Int))
    (hB : ∀ ii jj kk : Int, -2 ≤ ii → ii ≤ 2 → -2 ≤ jj → jj ≤ 2 → -2 ≤ kk → kk ≤ 2 →
      (i + ii, j + jj, k + kk) ∈ B) :
    ∑ p ∈ B, (if p.1 - i ∈ stencilOffsets ∧ p.2.1 - j ∈ stencilOffsets ∧
          p.2.2 - k ∈ stencilOffsets then w (p.1 - i) (p.2.1 - j) (p.2.2 - k) * f * d else 0)
        * g p.1 p.2.1 p.2.2
      = f * ∑ ii ∈ Finset.Icc (-2 : Int) 2, ∑ jj ∈ Finset.Icc (-2 : Int) 2,
          ∑ kk ∈ Finset.Icc (-2 : Int) 2, w ii jj kk * g (i + ii) (j + jj) (k + kk) * d := by
  have hinj : Function.Injective (fun q : Int × Int × Int => (i + q.1, j + q.2.1, k + q.2.2)) := by
    intro q1 q2 h
    simp only [Prod.mk.injEq, add_right_inj] at h
    exact Prod.ext h.1 (Prod.ext h.2.1 h.2.2)
  have hsub : (Finset.Icc (-2 : Int) 2 ×ˢ Finset.Icc (-2 : Int) 2 ×ˢ Finset.Icc (-2 : Int) 2).image
      (fun q : Int × Int × Int => (i + q.1, j + q.2.1, k + q.2.2)) ⊆ B := by
    intro p hp
    simp only [Finset.mem_image, Finset.mem_product, Finset.mem_Icc] at hp
    obtain ⟨q, ⟨⟨h1, h2⟩, ⟨h3, h4⟩, ⟨h5, h6⟩⟩, rfl⟩ := hp
    exact hB q.1 q.2.1 q.2.2 h1 h2 h3 h4 h5 h6
  rw [← Finset.sum_subset hsub, Finset.sum_image (fun a _ b _ h => hinj h), Finset.sum_product,
    Finset.mul_sum]
  · refine Finset.sum_congr rfl (fun ii hii => ?_)
    rw [Finset.sum_product, Finset.mul_sum]
    refine Finset.sum_congr rfl (fun jj hjj => ?_)
    rw [Finset.mul_sum]
    refine Finset.sum_congr rfl (fun kk hkk => ?_)
    have hin : ii ∈ stencilOffsets ∧ jj ∈ stencilOffsets ∧ kk ∈ stencilOffsets := by
      simp only [mem_stencilOffsets]
      exact ⟨Finset.mem_Icc.mp hii, Finset.mem_Icc.mp hjj, Finset.mem_Icc.mp hkk⟩
    simp only [add_sub_cancel_left, if_pos hin]
    ring
  · intro p _ hp
    have hout : ¬ (p.1 - i ∈ stencilOffsets ∧ p.2.1 - j ∈ stencilOffsets ∧
        p.2.2 - k ∈ stencilOffsets) := by
      intro hin
      apply hp
      simp only [mem_stencilOffsets] at hin
      simp only [Finset.mem_image, Finset.mem_product, Finset.mem_Icc]
      refine ⟨(p.1 - i, p.2.1 - j, p.2.2 - k), ⟨hin.1, hin.2.1, hin.2.2⟩, ?_⟩
      simp
    rw [if_neg hout, zero_mul]

/-- C7. Spreading and interpolation are exact discrete adjoints: when the force
`(fxP, fyP, fzP)` of a marker is spread by `ForceSpreading_cic` into an all-zero array, the sum
over the grid nodes (any finite set `B` of nodes that contains the marker's stencil) of the
spread component times a field `u` equals the force component times the value
`VelocityInterpolation_cir` returns for `u` at the same marker, for each of the three
components. -/
theorem spreading_interpolation_adjoint (sqrt : K → K) (pos : RealVect K) (fxP fyP fzP : K)
    (u : Array4 K) (EularFIndex EularVIndex : Int) (plo dx : RealVect K)
    (type : DELTA_FUNCTION_TYPE) (Up0 Vp0 Wp0 : K) (B : Finset (Int × Int × Int))
    (hB : ∀ ii jj kk : Int, -2 ≤ ii → ii ≤ 2 → -2 ≤ jj → jj ≤ 2 → -2 ≤ kk → kk ≤ 2 →
      (⌊(pos.v0 - plo.v0) / dx.v0⌋ + ii, ⌊(pos.v1 - plo.v1) / dx.v1⌋ + jj,
        ⌊(pos.v2 - plo.v2) / dx.v2⌋ + kk) ∈ B) :
    (∑ p ∈ B, ForceSpreading_cic sqrt pos fxP fyP fzP (fun _ _ _ _ => 0) EularFIndex plo dx type
          p.1 p.2.1 p.2.2 EularFIndex * u p.1 p.2.1 p.2.2 EularVIndex
      = fxP * (VelocityInterpolation_cir sqrt pos Up0 Vp0 Wp0 u EularVIndex plo dx type).1) ∧
    (∑ p ∈ B, ForceSpreading_cic sqrt pos fxP fyP fzP (fun _ _ _ _ => 0) EularFIndex plo dx type
          p.1 p.2.1 p.2.2 (EularFIndex + 1) * u p.1 p.2.1 p.2.2 (EularVIndex + 1)
      = fyP * (VelocityInterpolation_cir sqrt pos Up0 Vp0 Wp0 u EularVIndex plo dx type).2.1) ∧
    (∑ p ∈ B, ForceSpreading_cic sqrt pos fxP fyP fzP (fun _ _ _ _ => 0) EularFIndex plo dx type
          p.1 p.2.1 p.2.2 (EularFIndex + 2) * u p.1 p.2.1 p.2.2 (EularVIndex + 2)
      = fzP * (VelocityInterpolation_cir sqrt pos Up0 Vp0 Wp0 u EularVIndex plo dx type).2.2) := by
  have e1 : EularFIndex + 1 ≠ EularFIndex := by omega
  have e2 : EularFIndex + 2 ≠ EularFIndex := by omega
  have e3 : EularFIndex + 2 ≠ EularFIndex + 1 := by omega
  rw [VelocityInterpolation_cir_eq]
  simp only [ForceSpreading_cic_apply, zero_add, if_true, if_neg e1, if_neg e2, if_neg e3]
  refine ⟨?_, ?_, ?_⟩
  · exact sum_spread_mul _ (fun x y z => u x y z EularVIndex) _ _ _ fxP _ B hB
  · exact sum_spread_mul _ (fun x y z => u x y z (EularVIndex + 1)) _ _ _ fyP _ B hB
  · exact sum_spread_mul _ (fun x y z => u x y z (EularVIndex + 2)) _ _ _ fzP _ B hB

/-- A marker at the cell centre `(1/2, 1/2, 1/2)` of a unit grid, force `(5, 0, 0)` spread
into the zero array with force block `0..2`, paired over the nodes of the stencil with a field
whose component `3` is `8` at the node `(0,0,0)` and `0` elsewhere: the pairing is `5 * 1`. -/
theorem spreading_interpolation_adjoint_witness :
    ∑ p ∈ Finset.Icc (-2 : Int) 2 ×ˢ Finset.Icc (-2 : Int) 2 ×ˢ Finset.Icc (-2 : Int) 2,
        ForceSpreading_cic Rat.sqrt ⟨1 / 2, 1 / 2, 1 / 2⟩ 5 0 0 (fun _ _ _ _ => 0) 0 ⟨0, 0, 0⟩
          ⟨1, 1, 1⟩ DELTA_FUNCTION_TYPE.FOUR_POINT_IB p.1 p.2.1 p.2.2 0
        * (fun x y z n => if x = 0 ∧ y = 0 ∧ z = 0 ∧ n = 3 then (8 : ℚ) else 0) p.1 p.2.1 p.2.2 3
      = 5 := by
  have hf : ⌊((1 / 2 : ℚ) - 0) / 1⌋ = 0 := by
    rw [Int.floor_eq_iff]
    norm_num
  refine ((spreading_interpolation_adjoint Rat.sqrt ⟨1 / 2, 1 / 2, 1 / 2⟩ 5 0 0
    (fun x y z n => if x = 0 ∧ y = 0 ∧ z = 0 ∧ n = 3 then (8 : ℚ) else 0) 0 3 ⟨0, 0, 0⟩
    ⟨1, 1, 1⟩ DELTA_FUNCTION_TYPE.FOUR_POINT_IB 0 0 0
    (Finset.Icc (-2 : Int) 2 ×ˢ Finset.Icc (-2 : Int) 2 ×ˢ Finset.Icc (-2 : Int) 2)
    (by
      intro ii jj kk h1 h2 h3 h4 h5 h6
      simp only [hf, zero_add, Finset.mem_product, Finset.mem_Icc]
      exact ⟨⟨h1, h2⟩, ⟨h3, h4⟩, ⟨h5, h6⟩⟩)).1).trans ?_
  rw [VelocityInterpolation_cir_eq]
  simp only [hf, ← sum_stencilOffsets]
  simp [stencilOffsets, delta_value]
  norm_num [deltaFunction, rat_sqrt_one]

end Transfer

/-! ## Kernel normalization -/

section Normalization

variable {K : Type} [LinearOrderedField K] [FloorRing K]

/-- The cell that contains the centre of cell `a` is `a` (grid origin `0`). -/
theorem floor_cell_centre (h : K) (hh : 0 < h) (a : Int) :
    ⌊(((a : K) + 1 / 2) * h - 0) / h⌋ = a := by
  have hne : h ≠ 0 := ne_of_gt hh
  rw [sub_zero, mul_div_assoc, div_self hne, mul_one, Int.floor_eq_iff]
  constructor <;> linarith

/-- The four-point kernel between the centre of cell `a` and the centre of cell `a + ii` is
the kernel at the integer distance `ii`. -/
theorem deltaFunction_cell_centre (sqrt : K → K) (h : K) (hh : 0 < h) (a ii : Int)
    (type : DELTA_FUNCTION_TYPE) :
    deltaFunction sqrt (((a : K) + 1 / 2) * h) (((a + ii : Int) : K) * h + h / 2) h type
      = deltaFunction sqrt (ii : K) 0 1 type / h := by
  have hne : h ≠ 0 := ne_of_gt hh
  have e : ((((a : K) + 1 / 2) * h) - (((a + ii : Int) : K) * h + h / 2)) / h = -(ii : K) := by
    push_cast
    field_simp
    ring
  unfold deltaFunction
  simp only [e, abs_neg, sub_zero, div_one]
  cases type <;> simp only [] <;> split_ifs <;> simp

/-- The four-point weights of the five stencil nodes along one axis add up to `1 / h` for a
marker on a cell centre. -/
theorem four_point_centre_sum (sqrt : K → K) (hsqrt : sqrt 1 = 1) (h : K) (hh : 0 < h)
    (a : Int) :
    ∑ ii ∈ Finset.Icc (-2 : Int) 2,
        deltaFunction sqrt (((a : K) + 1 / 2) * h) (((a + ii : Int) : K) * h + h / 2) h
          DELTA_FUNCTION_TYPE.FOUR_POINT_IB
      = 1 / h := by
  have hne : h ≠ 0 := ne_of_gt hh
  simp only [deltaFunction_cell_centre sqrt h hh, ← sum_stencilOffsets]
  simp only [stencilOffsets, List.map_cons, List.map_nil, List.sum_cons, List.sum_nil]
  have v0 : deltaFunction sqrt (((0 : Int) : K)) 0 1 DELTA_FUNCTION_TYPE.FOUR_POINT_IB = 1 / 2 := by
    norm_num [deltaFunction, hsqrt]
  have v1 : deltaFunction sqrt (((1 : Int) : K)) 0 1 DELTA_FUNCTION_TYPE.FOUR_POINT_IB = 1 / 4 := by
    norm_num [deltaFunction, hsqrt]
  have v2 : deltaFunction sqrt (((2 : Int) : K)) 0 1 DELTA_FUNCTION_TYPE.FOUR_POINT_IB = 0 := by
    norm_num [deltaFunction, hsqrt]
  have w1 : deltaFunction sqrt (((-1 : Int) : K)) 0 1 DELTA_FUNCTION_TYPE.FOUR_POINT_IB = 1 / 4 := by
    norm_num [deltaFunction, hsqrt]
  have w2 : deltaFunction sqrt (((-2 : Int) : K)) 0 1 DELTA_FUNCTION_TYPE.FOUR_POINT_IB = 0 := by
    norm_num [deltaFunction, hsqrt]
  rw [v0, v1, v2, w1, w2]
  field_simp
  ring

/-- The 125 four-point weights of a marker on the centre of cell `(a, b, c)`, times the cell
volume, add up to `1`. -/
theorem four_point_centre_sum3 (sqrt : K → K) (hsqrt : sqrt 1 = 1) (dx : RealVect K)
    (h0 : 0 < dx.v0) (h1 : 0 < dx.v1) (h2 : 0 < dx.v2) (a b c : Int) :
    ∑ ii ∈ Finset.Icc (-2 : Int) 2, ∑ jj ∈ Finset.Icc (-2 : Int) 2,
      ∑ kk ∈ Finset.Icc (-2 : Int) 2,
        deltaFunction sqrt (((a : K) + 1 / 2) * dx.v0) (((a + ii : Int) : K) * dx.v0 + dx.v0 / 2)
            dx.v0 DELTA_FUNCTION_TYPE.FOUR_POINT_IB
          * deltaFunction sqrt (((b : K) + 1 / 2) * dx.v1)
              (((b + jj : Int) : K) * dx.v1 + dx.v1 / 2) dx.v1 DELTA_FUNCTION_TYPE.FOUR_POINT_IB
          * deltaFunction sqrt (((c : K) + 1 / 2) * dx.v2)
              (((c + kk : Int) : K) * dx.v2 + dx.v2 / 2) dx.v2 DELTA_FUNCTION_TYPE.FOUR_POINT_IB
          * (dx.v0 * dx.v1 * dx.v2)
      = 1 := by
  have n0 : dx.v0 ≠ 0 := ne_of_gt h0
  have n1 : dx.v1 ≠ 0 := ne_of_gt h1
  have n2 : dx.v2 ≠ 0 := ne_of_gt h2
  simp only [← Finset.sum_mul, ← Finset.mul_sum]
  rw [four_point_centre_sum sqrt hsqrt dx.v0 h0 a, four_point_centre_sum sqrt hsqrt dx.v1 h1 b,
    four_point_centre_sum sqrt hsqrt dx.v2 h2 c]
  field_simp

/-- Interpolating a field that is uniform in each velocity component onto a marker on the
centre of cell `(a, b, c)` returns the uniform values (four-point kernel, origin `0`). -/
theorem VelocityInterpolation_cir_uniform (sqrt : K → K) (hsqrt : sqrt 1 = 1) (dx : RealVect K)
    (h0 : 0 < dx.v0) (h1 : 0 < dx.v1) (h2 : 0 < dx.v2) (a b c : Int)
    (E : Array4 K) (EularVIndex : Int) (u0 u1 u2 Up0 Vp0 Wp0 : K)
    (hE : ∀ x y z : Int, E x y z EularVIndex = u0 ∧ E x y z (EularVIndex + 1) = u1 ∧
        E x y z (EularVIndex + 2) = u2) :
    VelocityInterpolation_cir sqrt
        ⟨((a : K) + 1 / 2) * dx.v0, ((b : K) + 1 / 2) * dx.v1, ((c : K) + 1 / 2) * dx.v2⟩
        Up0 Vp0 Wp0 E EularVIndex ⟨0, 0, 0⟩ dx DELTA_FUNCTION_TYPE.FOUR_POINT_IB
      = (u0, u1, u2) := by
  have hsum := four_point_centre_sum3 sqrt hsqrt dx h0 h1 h2 a b c
  have hu : ∀ u : K,
      ∑ ii ∈ Finset.Icc (-2 : Int) 2, ∑ jj ∈ Finset.Icc (-2 : Int) 2,
        ∑ kk ∈ Finset.Icc (-2 : Int) 2,
          deltaFunction sqrt (((a : K) + 1 / 2) * dx.v0)
              (((a + ii : Int) : K) * dx.v0 + dx.v0 / 2) dx.v0 DELTA_FUNCTION_TYPE.FOUR_POINT_IB
            * deltaFunction sqrt (((b : K) + 1 / 2) * dx.v1)
                (((b + jj : Int) : K) * dx.v1 + dx.v1 / 2) dx.v1 DELTA_FUNCTION_TYPE.FOUR_POINT_IB
            * deltaFunction sqrt (((c : K) + 1 / 2) * dx.v2)
                (((c + kk : Int) : K) * dx.v2 + dx.v2 / 2) dx.v2 DELTA_FUNCTION_TYPE.FOUR_POINT_IB
            * u * (dx.v0 * dx.v1 * dx.v2)
        = u := by
    intro u
    have e : u = u * 1 := (mul_one u).symm
    conv_rhs => rw [e, ← hsum]
    simp only [Finset.mul_sum]
    refine Finset.sum_congr rfl (fun ii _ => Finset.sum_congr rfl (fun jj _ =>
      Finset.sum_congr rfl (fun kk _ => ?_)))
    ring
  rw [VelocityInterpolation_cir_eq]
  simp only [floor_cell_centre dx.v0 h0 a, floor_cell_centre dx.v1 h1 b,
    floor_cell_centre dx.v2 h2 c, (hE _ _ _).1, (hE _ _ _).2.1, (hE _ _ _).2.2, delta_value,
    hu]

end Normalization

/-! ## The direct-forcing iteration -/

section Iteration

variable {K : Type} [LinearOrderedField K] [FloorRing K]

/-- The loop does nothing when `loop_time` is not positive. -/
theorem whileLoop_nonpos {S : Type} (body : S → S) (t : Int) (ht : t ≤ 0) (s : S) (c : Nat) :
    whileLoop body t s c = (s, t, c) := by
  rw [whileLoop, dif_neg (not_lt.mpr ht)]

/-- Started with `loop_time = n ≥ 0`, the loop runs its body `n` times and leaves
`loop_time = 0`. -/
theorem whileLoop_natCast {S : Type} (body : S → S) (n : Nat) (s : S) (c : Nat) :
    whileLoop body (n : Int) s c = (body^[n] s, 0, c + n) := by
  induction n generalizing s c with
  | zero => simpa using whileLoop_nonpos body 0 le_rfl s c
  | succ n ih =>
    have hpos : ((n + 1 : Nat) : Int) > 0 := by omega
    have e : ((n + 1 : Nat) : Int) - 1 = (n : Int) := by omega
    rw [whileLoop, dif_pos hpos, e, ih, Function.iterate_succ_apply]
    simp only [Prod.mk.injEq, true_and]
    omega

/-- Once `loop_time` is `0`, every further body of the container gets no pass of the
correction loop. -/
theorem foldl_interactBody_zero (L : Libm K) (dt alpha_k : K) (type : DELTA_FUNCTION_TYPE)
    (rest : List (kernel K)) (st : InteractState K) (h0 : st.loop_time = 0) :
    (rest.foldl (interactBody L dt alpha_k type) st).passes
      = st.passes ++ List.replicate rest.length 0 := by
  induction rest generalizing st with
  | nil => simp
  | cons k rest ih =>
    rw [List.foldl_cons, ih]
    · simp only [interactBody, h0, whileLoop_nonpos _ 0 le_rfl, List.length_cons,
        List.replicate_succ, List.append_assoc, List.singleton_append]
    · simp only [interactBody, h0, whileLoop_nonpos _ 0 le_rfl]

/-- C4 (the code differs). With a first body `k1`, further bodies `rest` and `loop_time = n`,
one call of `InteractWithEuler` runs `n` correction passes for `k1` and none for any body of
`rest`: `loop_time` is counted down in the first body's `while` loop and never restored. -/
theorem InteractWithEuler_passes (L : Libm K) (self : mParticle K) (k1 : kernel K)
    (rest : List (kernel K)) (Euler : MultiFab K) (n : Nat) (dt alpha_k : K)
    (type : DELTA_FUNCTION_TYPE) :
    (InteractWithEuler L { self with particle_kernels := k1 :: rest } Euler (n : Int) dt alpha_k
        type).passes
      = n :: List.replicate rest.length 0 := by
  unfold InteractWithEuler
  simp only [List.foldl_cons]
  rw [foldl_interactBody_zero]
  · simp only [interactBody, whileLoop_natCast, List.nil_append, zero_add, List.singleton_append]
  · simp only [interactBody, whileLoop_natCast]

/-- C1. `ComputeLagrangianForce` implements the direct-forcing law: for every `dt`, body
velocity `(Ub, Vb, Wb)` and marker `i` with interpolated velocity `(U, V, W)`, after the call
marker `i` stores the force `((Ub - U)/dt, (Vb - V)/dt, (Wb - W)/dt)` and its interpolated
velocity and position are unchanged (division is that of the field `K`). -/
theorem ComputeLagrangianForce_direct_forcing (self : mParticle K) (dt : K) (kernel : kernel K)
    (i : Nat) (m : Marker K) (hm : self.markers[i]? = some m) :
    (ComputeLagrangianForce self dt kernel).markers[i]?
      = some { pos := m.pos, U_Marker := m.U_Marker, V_Marker := m.V_Marker,
               W_Marker := m.W_Marker,
               Fx_Marker := (kernel.velocity.v0 - m.U_Marker) / dt,
               Fy_Marker := (kernel.velocity.v1 - m.V_Marker) / dt,
               Fz_Marker := (kernel.velocity.v2 - m.W_Marker) / dt } := by
  simp only [ComputeLagrangianForce, List.getElem?_map, hm, Option.map_some']

/-- Body velocity `(1, 2, 3)`, `dt = 1/2` and a marker at `(1, 1, 1)` with interpolated
velocity `(3, 2, 1)`: the stored force becomes `(-4, 0, 4)`. -/
theorem ComputeLagrangianForce_direct_forcing_witness :
    (ComputeLagrangianForce
        { sampleParticles with markers := [⟨⟨1, 1, 1⟩, 3, 2, 1, 9, 9, 9⟩] } (1 / 2)
        { sampleKernel with velocity := ⟨1, 2, 3⟩ }).markers[0]?
      = some ⟨⟨1, 1, 1⟩, 3, 2, 1, -4, 0, 4⟩ := by
  rw [ComputeLagrangianForce_direct_forcing
    { sampleParticles with markers := [⟨⟨1, 1, 1⟩, 3, 2, 1, 9, 9, 9⟩] } (1 / 2)
    { sampleKernel with velocity := ⟨1, 2, 3⟩ } 0 ⟨⟨1, 1, 1⟩, 3, 2, 1, 9, 9, 9⟩ rfl]
  norm_num

/-- `Saxpy` leaves the valid box as it is. -/
theorem Saxpy_validbox (Euler : MultiFab K) (a : K) (src dst : Int) (numcomp : Nat) :
    (Saxpy Euler a src dst numcomp).validbox = Euler.validbox := by
  unfold Saxpy
  generalize List.range numcomp = l
  induction l generalizing Euler with
  | nil => rfl
  | cons n l ih => rw [List.foldl_cons, ih]

/-- `Saxpy` with three components and disjoint source and destination blocks: each
destination component of a valid node receives `a` times the source component, everything
else is unchanged. -/
theorem Saxpy_three_apply (Euler : MultiFab K) (a : K) (src dst : Int)
    (hdisj : src + 3 ≤ dst ∨ dst + 3 ≤ src) (i j k m : Int) :
    (Saxpy Euler a src dst 3).array i j k m
      = if Euler.validbox.contains i j k ∧ (m = dst ∨ m = dst + 1 ∨ m = dst + 2) then
          Euler.array i j k m + a * Euler.array i j k (m - dst + src)
        else Euler.array i j k m := by
  have hr : List.range 3 = [0, 1, 2] := rfl
  unfold Saxpy
  rw [hr]
  simp only [List.foldl_cons, List.foldl_nil, Nat.cast_zero, Nat.cast_one, Nat.cast_ofNat,
    add_zero]
  by_cases hin : Euler.validbox.contains i j k
  · by_cases h0 : m = dst
    · subst h0
      have e1 : ¬ (m = m + 1) := by omega
      have e2 : ¬ (m = m + 2) := by omega
      simp [hin, e1, e2]
    · by_cases h1 : m = dst + 1
      · subst h1
        have e0 : ¬ (dst + 1 = dst + 2) := by omega
        have e1 : ¬ (src + 1 = dst) := by omega
        simp [hin, e0, e1, add_comm]
      · by_cases h2 : m = dst + 2
        · subst h2
          have e0 : ¬ (src + 2 = dst + 1) := by omega
          have e1 : ¬ (src + 2 = dst) := by omega
          simp [hin, e0, e1, add_comm]
        · simp [hin, h0, h1, h2]
  · simp [hin]

/-- In the concrete configuration, interpolation gives the marker the fluid velocity
`(1, 0, 0)` and the direct-forcing law then stores the force `(-1, 0, 0)`. -/
theorem sample_markers_after_force :
    ComputeLagrangianForce
        (VelocityInterpolation Rat.sqrt sampleParticles (clearEulerForce sampleEuler 0)
          DELTA_FUNCTION_TYPE.FOUR_POINT_IB) 1 sampleKernel
      = { sampleParticles with markers := [⟨⟨1 / 2, 1 / 2, 1 / 2⟩, 1, 0, 0, -1, 0, 0⟩] } := by
  have hcir : VelocityInterpolation_cir Rat.sqrt ⟨1 / 2, 1 / 2, 1 / 2⟩ 0 0 0
      (clearEulerForce sampleEuler 0).array 3 ⟨0, 0, 0⟩ ⟨1, 1, 1⟩
      DELTA_FUNCTION_TYPE.FOUR_POINT_IB = (1, 0, 0) := by
    have h := VelocityInterpolation_cir_uniform Rat.sqrt rat_sqrt_one ⟨1, 1, 1⟩ (by norm_num)
      (by norm_num) (by norm_num) 0 0 0 (clearEulerForce sampleEuler 0).array 3 1 0 0 0 0 0
      (by intro x y z; simp [clearEulerForce, sampleEuler])
    have e : (⟨1 / 2, 1 / 2, 1 / 2⟩ : RealVect ℚ)
        = ⟨(((0 : Int) : ℚ) + 1 / 2) * (⟨1, 1, 1⟩ : RealVect ℚ).v0,
           (((0 : Int) : ℚ) + 1 / 2) * (⟨1, 1, 1⟩ : RealVect ℚ).v1,
           (((0 : Int) : ℚ) + 1 / 2) * (⟨1, 1, 1⟩ : RealVect ℚ).v2⟩ := by
      norm_num
    rw [e]
    exact h
  have e1 : ((0 : ℚ) - 1) / 1 = -1 := by norm_num
  have e2 : ((0 : ℚ) - 0) / 1 = 0 := by norm_num
  simp only [ComputeLagrangianForce, VelocityInterpolation, sampleParticles, sampleKernel,
    List.map_cons, List.map_nil, hcir, e1, e2]

/-- With a single marker in the container, the spreading step is one call of
`ForceSpreading_cic` with the marker's attributes `U_Marker`, `V_Marker`, `W_Marker`. -/
theorem ForceSpreading_single (sqrt : K → K) (self : mParticle K) (m : Marker K)
    (Euler : MultiFab K) (type : DELTA_FUNCTION_TYPE) (pos plo dx : RealVect K) (u v w : K)
    (F : Int) (hm : self.markers = [m]) (hpos : m.pos = pos) (hu : m.U_Marker = u)
    (hv : m.V_Marker = v) (hw : m.W_Marker = w) (hF : self.euler_force_index = F)
    (hplo : self.plo = plo) (hdx : self.dx = dx) :
    (ForceSpreading sqrt self Euler type).array
      = ForceSpreading_cic sqrt pos u v w Euler.array F plo dx type := by
  subst hpos hu hv hw hF hplo hdx
  have h1 : (ForceSpreading sqrt self Euler type).array
      = List.foldl (fun E m => ForceSpreading_cic sqrt m.pos m.U_Marker m.V_Marker m.W_Marker E
          self.euler_force_index self.plo self.dx type) Euler.array self.markers := rfl
  rw [h1, hm, List.foldl_cons, List.foldl_nil]

/-- In the concrete configuration, the array after the spreading step: the force block at
the node `(0,0,0)` holds `1/8` in its first component and the velocity block is as before. -/
theorem sample_spread_apply :
    (ForceSpreading Rat.sqrt
        { sampleParticles with markers := [⟨⟨1 / 2, 1 / 2, 1 / 2⟩, 1, 0, 0, -1, 0, 0⟩] }
        (clearEulerForce sampleEuler 0) DELTA_FUNCTION_TYPE.FOUR_POINT_IB).array 0 0 0 0 = 1 / 8 ∧
    (ForceSpreading Rat.sqrt
        { sampleParticles with markers := [⟨⟨1 / 2, 1 / 2, 1 / 2⟩, 1, 0, 0, -1, 0, 0⟩] }
        (clearEulerForce sampleEuler 0) DELTA_FUNCTION_TYPE.FOUR_POINT_IB).array 0 0 0 3 = 1 := by
  have hf : ⌊((1 / 2 : ℚ) - 0) / 1⌋ = 0 := by
    rw [Int.floor_eq_iff]
    norm_num
  rw [ForceSpreading_single Rat.sqrt _ ⟨⟨1 / 2, 1 / 2, 1 / 2⟩, 1, 0, 0, -1, 0, 0⟩ _ _
    ⟨1 / 2, 1 / 2, 1 / 2⟩ ⟨0, 0, 0⟩ ⟨1, 1, 1⟩ 1 0 0 0 rfl rfl rfl rfl rfl rfl rfl rfl]
  constructor
  · rw [ForceSpreading_cic_apply]
    simp only [hf]
    norm_num [stencilOffsets, delta_value, deltaFunction, rat_sqrt_one, clearEulerForce,
      sampleEuler, Box.contains]
  · rw [ForceSpreading_cic_apply]
    simp only [hf]
    norm_num [stencilOffsets, clearEulerForce, sampleEuler, Box.contains]

/-- C3. The velocity-correction step of a sub-iteration performs, at every valid grid node and
for the three components `c = 0, 1, 2`,
`velocity[velocity_index + c] := velocity[velocity_index + c] + dt * force[force_index + c]`,
where the values on the right are those of the field `spread` after the spreading step of
the same sub-iteration; the force block and the velocity block are disjoint component
ranges. -/
theorem correctionStep_velocity_correction (sqrt : K → K) (kernel : kernel K) (dt : K)
    (type : DELTA_FUNCTION_TYPE) (s : mParticle K × MultiFab K) (spread : MultiFab K)
    (hspread : spread
      = ForceSpreading sqrt
          (ComputeLagrangianForce
            (VelocityInterpolation sqrt s.1 (clearEulerForce s.2 s.1.euler_force_index) type)
            dt kernel)
          (clearEulerForce s.2 s.1.euler_force_index) type)
    (hdisj : s.1.euler_force_index + 3 ≤ s.1.euler_velocity_index ∨
      s.1.euler_velocity_index + 3 ≤ s.1.euler_force_index)
    (i j k : Int) (hin : s.2.validbox.contains i j k) :
    (correctionStep sqrt kernel dt type s).2.array i j k s.1.euler_velocity_index
      = spread.array i j k s.1.euler_velocity_index
        + dt * spread.array i j k s.1.euler_force_index ∧
    (correctionStep sqrt kernel dt type s).2.array i j k (s.1.euler_velocity_index + 1)
      = spread.array i j k (s.1.euler_velocity_index + 1)
        + dt * spread.array i j k (s.1.euler_force_index + 1) ∧
    (correctionStep sqrt kernel dt type s).2.array i j k (s.1.euler_velocity_index + 2)
      = spread.array i j k (s.1.euler_velocity_index + 2)
        + dt * spread.array i j k (s.1.euler_force_index + 2) := by
  have hbox : spread.validbox = s.2.validbox := by rw [hspread]; rfl
  have hstep : (correctionStep sqrt kernel dt type s).2
      = Saxpy spread dt s.1.euler_force_index s.1.euler_velocity_index 3 := by
    rw [hspread]; rfl
  have hin1 : spread.validbox.contains i j k := by rw [hbox]; exact hin
  rw [hstep]
  refine ⟨?_, ?_, ?_⟩
  · rw [Saxpy_three_apply spread dt _ _ hdisj, if_pos ⟨hin1, Or.inl rfl⟩]
    simp
  · rw [Saxpy_three_apply spread dt _ _ hdisj, if_pos ⟨hin1, Or.inr (Or.inl rfl)⟩]
    simp [add_comm]
  · rw [Saxpy_three_apply spread dt _ _ hdisj, if_pos ⟨hin1, Or.inr (Or.inr rfl)⟩]
    simp [add_comm]

/-- In the concrete configuration with `dt = 1`, the first velocity component at the node
`(0,0,0)` becomes `1 + 1 * (1/8)`. -/
theorem correctionStep_velocity_correction_witness :
    (correctionStep Rat.sqrt sampleKernel 1 DELTA_FUNCTION_TYPE.FOUR_POINT_IB
        (sampleParticles, sampleEuler)).2.array 0 0 0 3 = 9 / 8 := by
  have h := (correctionStep_velocity_correction Rat.sqrt sampleKernel 1
    DELTA_FUNCTION_TYPE.FOUR_POINT_IB (sampleParticles, sampleEuler) _ rfl
    (Or.inl (by norm_num [sampleParticles]))
    0 0 0 (by norm_num [Box.contains, sampleEuler])).1
  have e0 : sampleParticles.euler_force_index = 0 := rfl
  have e3 : sampleParticles.euler_velocity_index = 3 := rfl
  simp only [e0, e3] at h
  rw [h, sample_markers_after_force, sample_spread_apply.1, sample_spread_apply.2]
  norm_num

/-- C2 (the code differs). In the concrete configuration one correction sub-iteration stores
the corrective force `(-1, 0, 0)` on the marker, whose interpolated velocity is `(1, 0, 0)`;
the value the spreading step adds to the force block at the node `(0,0,0)`, where the
weight times the cell volume is `1/8`, is `+1/8`, the share of the interpolated velocity,
and not `-1/8`, the share of the corrective force. -/
theorem ForceSpreading_spreads_interpolated_velocity :
    (correctionStep Rat.sqrt sampleKernel 1 DELTA_FUNCTION_TYPE.FOUR_POINT_IB
        (sampleParticles, sampleEuler)).1.markers
      = [⟨⟨1 / 2, 1 / 2, 1 / 2⟩, 1, 0, 0, -1, 0, 0⟩] ∧
    (correctionStep Rat.sqrt sampleKernel 1 DELTA_FUNCTION_TYPE.FOUR_POINT_IB
        (sampleParticles, sampleEuler)).2.array 0 0 0 0 = 1 / 8 ∧
    ForceSpreading_cic Rat.sqrt ⟨1 / 2, 1 / 2, 1 / 2⟩ (-1) 0 0
        (clearEulerForce sampleEuler 0).array 0 ⟨0, 0, 0⟩ ⟨1, 1, 1⟩
        DELTA_FUNCTION_TYPE.FOUR_POINT_IB 0 0 0 0 = -1 / 8 := by
  have hstep : correctionStep Rat.sqrt sampleKernel 1 DELTA_FUNCTION_TYPE.FOUR_POINT_IB
      (sampleParticles, sampleEuler)
      = ({ sampleParticles with markers := [⟨⟨1 / 2, 1 / 2, 1 / 2⟩, 1, 0, 0, -1, 0, 0⟩] },
         Saxpy (ForceSpreading Rat.sqrt
            { sampleParticles with markers := [⟨⟨1 / 2, 1 / 2, 1 / 2⟩, 1, 0, 0, -1, 0, 0⟩] }
            (clearEulerForce sampleEuler 0) DELTA_FUNCTION_TYPE.FOUR_POINT_IB) 1 0 3 3) := by
    have e0 : sampleParticles.euler_force_index = 0 := rfl
    simp only [correctionStep, e0, sample_markers_after_force]
    rfl
  have hf : ⌊((1 / 2 : ℚ) - 0) / 1⌋ = 0 := by
    rw [Int.floor_eq_iff]
    norm_num
  refine ⟨?_, ?_, ?_⟩
  · rw [hstep]
  · rw [hstep, Saxpy_three_apply _ _ _ _ (Or.inl (by norm_num))]
    simp only [sample_spread_apply.1]
    norm_num
  · rw [ForceSpreading_cic_apply]
    simp only [hf]
    norm_num [stencilOffsets, delta_value, deltaFunction, rat_sqrt_one, clearEulerForce,
      sampleEuler, Box.contains]

end Iteration

/-! ## The rigid-body integrator -/

section Integrator

variable {K : Type} [LinearOrderedField K] [FloorRing K]

/-- A loop that adds a vector in every pass adds the three sums of the entries. -/
theorem foldl_RealVect_add {α : Type} (g : α → RealVect K) (l : List α) (acc : RealVect K) :
    l.foldl (fun (acc : RealVect K) a => acc.add (g a)) acc
      = ⟨acc.v0 + (l.map (fun a => (g a).v0)).sum, acc.v1 + (l.map (fun a => (g a).v1)).sum,
         acc.v2 + (l.map (fun a => (g a).v2)).sum⟩ := by
  induction l generalizing acc with
  | nil => simp
  | cons a l ih =>
    simp only [List.foldl_cons, List.map_cons, List.sum_cons]
    rw [ih]
    simp only [RealVect.add, add_assoc]

/-- The net force `ForceDv` accumulated by the first loop of `UpdateParticles`. -/
theorem UpdateParticles_ForceDv (markers : List (Marker K)) (Dv : K) :
    markers.foldl (fun (acc : RealVect K) m =>
        acc.add (RealVect.scale Dv ⟨m.Fx_Marker, m.Fy_Marker, m.Fz_Marker⟩)) RealVect.zero
      = ⟨(markers.map (fun m => m.Fx_Marker * Dv)).sum,
         (markers.map (fun m => m.Fy_Marker * Dv)).sum,
         (markers.map (fun m => m.Fz_Marker * Dv)).sum⟩ := by
  rw [foldl_RealVect_add (fun m : Marker K =>
    RealVect.scale Dv ⟨m.Fx_Marker, m.Fy_Marker, m.Fz_Marker⟩)]
  simp only [RealVect.zero, RealVect.scale, zero_add, mul_comm Dv]

/-- The net torque `Moment` accumulated by the first loop of `UpdateParticles`. -/
theorem UpdateParticles_Moment (markers : List (Marker K)) (Dv : K) (c : RealVect K) :
    markers.foldl (fun (acc : RealVect K) m =>
        acc.add (RealVect.scale Dv
          ((m.pos.sub c).crossProduct ⟨m.Fx_Marker, m.Fy_Marker, m.Fz_Marker⟩))) RealVect.zero
      = ⟨(markers.map (fun m =>
            ((m.pos.v1 - c.v1) * m.Fz_Marker - (m.pos.v2 - c.v2) * m.Fy_Marker) * Dv)).sum,
         (markers.map (fun m =>
            ((m.pos.v2 - c.v2) * m.Fx_Marker - (m.pos.v0 - c.v0) * m.Fz_Marker) * Dv)).sum,
         (markers.map (fun m =>
            ((m.pos.v0 - c.v0) * m.Fy_Marker - (m.pos.v1 - c.v1) * m.Fx_Marker) * Dv)).sum⟩ := by
  rw [foldl_RealVect_add (fun m : Marker K => RealVect.scale Dv
    ((m.pos.sub c).crossProduct ⟨m.Fx_Marker, m.Fy_Marker, m.Fz_Marker⟩))]
  simp only [RealVect.zero, RealVect.scale, RealVect.crossProduct, RealVect.sub, zero_add,
    mul_comm Dv]

/-- The body record `UpdateParticles` returns, with the two sums written out. -/
theorem UpdateParticles_kernel (L : Libm K) (self : mParticle K) (k : kernel K)
    (dt alpha_k : K) :
    (UpdateParticles L self k dt alpha_k).1.velocity
      = k.velocity.sub (RealVect.scale
          (2 * alpha_k * dt / (L.pi * 4 * k.radious ^ 3 / 3) / (k.rho - self.euler_fluid_rho))
          ⟨(self.markers.map (fun m => m.Fx_Marker * k.dv)).sum,
           (self.markers.map (fun m => m.Fy_Marker * k.dv)).sum,
           (self.markers.map (fun m => m.Fz_Marker * k.dv)).sum⟩) ∧
    (UpdateParticles L self k dt alpha_k).1.omega
      = k.omega.sub (RealVect.scale
          (2 * alpha_k * dt * k.rho / cal_momentum L k.rho k.radious
            / (k.rho - self.euler_fluid_rho))
          ⟨(self.markers.map (fun m =>
              ((m.pos.v1 - k.location.v1) * m.Fz_Marker
                - (m.pos.v2 - k.location.v2) * m.Fy_Marker) * k.dv)).sum,
           (self.markers.map (fun m =>
              ((m.pos.v2 - k.location.v2) * m.Fx_Marker
                - (m.pos.v0 - k.location.v0) * m.Fz_Marker) * k.dv)).sum,
           (self.markers.map (fun m =>
              ((m.pos.v0 - k.location.v0) * m.Fy_Marker
                - (m.pos.v1 - k.location.v1) * m.Fx_Marker) * k.dv)).sum⟩) ∧
    (UpdateParticles L self k dt alpha_k).1.location
      = k.location.add (RealVect.scale (alpha_k * dt)
          ((UpdateParticles L self k dt alpha_k).1.velocity.add k.velocity)) ∧
    (UpdateParticles L self k dt alpha_k).1.varphi
      = k.varphi.add (RealVect.scale (alpha_k * dt)
          ((UpdateParticles L self k dt alpha_k).1.omega.add k.omega)) ∧
    (UpdateParticles L self k dt alpha_k).1.radious = k.radious ∧
    (UpdateParticles L self k dt alpha_k).1.ml = k.ml ∧
    (UpdateParticles L self k dt alpha_k).1.dv = k.dv ∧
    (UpdateParticles L self k dt alpha_k).1.rho = k.rho := by
  refine ⟨?_, ?_, rfl, rfl, rfl, rfl, rfl, rfl⟩
  · rw [← UpdateParticles_ForceDv]
    rfl
  · rw [← UpdateParticles_Moment]
    rfl

/-- With zero net force and zero net torque the integrator keeps the velocity and the
angular velocity and moves the centre by `alpha_k * dt * (v + v)`. -/
theorem UpdateParticles_zero_net (L : Libm K) (self : mParticle K) (k : kernel K)
    (dt alpha_k : K)
    (hFx : (self.markers.map (fun m => m.Fx_Marker * k.dv)).sum = 0)
    (hFy : (self.markers.map (fun m => m.Fy_Marker * k.dv)).sum = 0)
    (hFz : (self.markers.map (fun m => m.Fz_Marker * k.dv)).sum = 0)
    (hTx : (self.markers.map (fun m =>
        ((m.pos.v1 - k.location.v1) * m.Fz_Marker
          - (m.pos.v2 - k.location.v2) * m.Fy_Marker) * k.dv)).sum = 0)
    (hTy : (self.markers.map (fun m =>
        ((m.pos.v2 - k.location.v2) * m.Fx_Marker
          - (m.pos.v0 - k.location.v0) * m.Fz_Marker) * k.dv)).sum = 0)
    (hTz : (self.markers.map (fun m =>
        ((m.pos.v0 - k.location.v0) * m.Fy_Marker
          - (m.pos.v1 - k.location.v1) * m.Fx_Marker) * k.dv)).sum = 0) :
    (UpdateParticles L self k dt alpha_k).1.velocity = k.velocity ∧
    (UpdateParticles L self k dt alpha_k).1.omega = k.omega ∧
    (UpdateParticles L self k dt alpha_k).1.location
      = ⟨k.location.v0 + alpha_k * dt * (k.velocity.v0 + k.velocity.v0),
         k.location.v1 + alpha_k * dt * (k.velocity.v1 + k.velocity.v1),
         k.location.v2 + alpha_k * dt * (k.velocity.v2 + k.velocity.v2)⟩ := by
  have h := UpdateParticles_kernel L self k dt alpha_k
  have hv : (UpdateParticles L self k dt alpha_k).1.velocity = k.velocity := by
    rw [h.1, hFx, hFy, hFz]
    simp only [RealVect.sub, RealVect.scale, mul_zero, sub_zero]
  have hw : (UpdateParticles L self k dt alpha_k).1.omega = k.omega := by
    rw [h.2.1, hTx, hTy, hTz]
    simp only [RealVect.sub, RealVect.scale, mul_zero, sub_zero]
  refine ⟨hv, hw, ?_⟩
  rw [h.2.2.1, hv]
  simp only [RealVect.add, RealVect.scale]

/-- C13. `UpdateParticles` updates the translational velocity as
`v_new = v_old - 2 alpha dt / ((4/3) pi radius³) / (rho_body - rho_fluid) * Σ F_i dv`, the sum
running over the markers of the container with their stored forces on entry (division is
that of the field `K`). -/
theorem UpdateParticles_velocity (L : Libm K) (self : mParticle K) (k : kernel K)
    (dt alpha_k : K) :
    (UpdateParticles L self k dt alpha_k).1.velocity
      = ⟨k.velocity.v0 - 2 * alpha_k * dt / (4 / 3 * L.pi * k.radious ^ 3)
            / (k.rho - self.euler_fluid_rho)
            * (self.markers.map (fun m => m.Fx_Marker * k.dv)).sum,
         k.velocity.v1 - 2 * alpha_k * dt / (4 / 3 * L.pi * k.radious ^ 3)
            / (k.rho - self.euler_fluid_rho)
            * (self.markers.map (fun m => m.Fy_Marker * k.dv)).sum,
         k.velocity.v2 - 2 * alpha_k * dt / (4 / 3 * L.pi * k.radious ^ 3)
            / (k.rho - self.euler_fluid_rho)
            * (self.markers.map (fun m => m.Fz_Marker * k.dv)).sum⟩ := by
  have e : L.pi * 4 * k.radious ^ 3 / 3 = 4 / 3 * L.pi * k.radious ^ 3 := by ring
  rw [(UpdateParticles_kernel L self k dt alpha_k).1, e]
  simp only [RealVect.sub, RealVect.scale]

/-- C14. `UpdateParticles` updates the angular velocity as
`omega_new = omega_old - 2 alpha dt rho_body / I(rho_body, radius) / (rho_body - rho_fluid) * T`
with `I(rho, a) = (8/15) pi rho a⁵` the value of `cal_momentum` and the torque
`T = Σ (pos_i - center_old) × F_i * dv` over the markers of the container on entry. -/
theorem UpdateParticles_omega (L : Libm K) (self : mParticle K) (k : kernel K)
    (dt alpha_k : K) :
    cal_momentum L k.rho k.radious = 8 / 15 * L.pi * k.rho * k.radious ^ 5 ∧
    (UpdateParticles L self k dt alpha_k).1.omega
      = ⟨k.omega.v0 - 2 * alpha_k * dt * k.rho / (8 / 15 * L.pi * k.rho * k.radious ^ 5)
            / (k.rho - self.euler_fluid_rho)
            * (self.markers.map (fun m =>
                ((m.pos.v1 - k.location.v1) * m.Fz_Marker
                  - (m.pos.v2 - k.location.v2) * m.Fy_Marker) * k.dv)).sum,
         k.omega.v1 - 2 * alpha_k * dt * k.rho / (8 / 15 * L.pi * k.rho * k.radious ^ 5)
            / (k.rho - self.euler_fluid_rho)
            * (self.markers.map (fun m =>
                ((m.pos.v2 - k.location.v2) * m.Fx_Marker
                  - (m.pos.v0 - k.location.v0) * m.Fz_Marker) * k.dv)).sum,
         k.omega.v2 - 2 * alpha_k * dt * k.rho / (8 / 15 * L.pi * k.rho * k.radious ^ 5)
            / (k.rho - self.euler_fluid_rho)
            * (self.markers.map (fun m =>
                ((m.pos.v0 - k.location.v0) * m.Fy_Marker
                  - (m.pos.v1 - k.location.v1) * m.Fx_Marker) * k.dv)).sum⟩ := by
  have e : cal_momentum L k.rho k.radious = 8 / 15 * L.pi * k.rho * k.radious ^ 5 := by
    unfold cal_momentum
    ring
  refine ⟨e, ?_⟩
  rw [(UpdateParticles_kernel L self k dt alpha_k).2.1, e]
  simp only [RealVect.sub, RealVect.scale]

/-- C15. `UpdateParticles` advances the pose with the old and the new velocities:
`center_new = center_old + alpha dt (v_new + v_old)` and
`varphi_new = varphi_old + alpha dt (omega_new + omega_old)`, where `v_new` and `omega_new`
are the velocities of the record returned by the same call. -/
theorem UpdateParticles_pose (L : Libm K) (self : mParticle K) (k : kernel K)
    (dt alpha_k : K) :
    (UpdateParticles L self k dt alpha_k).1.location
      = ⟨k.location.v0
            + alpha_k * dt * ((UpdateParticles L self k dt alpha_k).1.velocity.v0 + k.velocity.v0),
         k.location.v1
            + alpha_k * dt * ((UpdateParticles L self k dt alpha_k).1.velocity.v1 + k.velocity.v1),
         k.location.v2
            + alpha_k * dt
              * ((UpdateParticles L self k dt alpha_k).1.velocity.v2 + k.velocity.v2)⟩ ∧
    (UpdateParticles L self k dt alpha_k).1.varphi
      = ⟨k.varphi.v0
            + alpha_k * dt * ((UpdateParticles L self k dt alpha_k).1.omega.v0 + k.omega.v0),
         k.varphi.v1
            + alpha_k * dt * ((UpdateParticles L self k dt alpha_k).1.omega.v1 + k.omega.v1),
         k.varphi.v2
            + alpha_k * dt * ((UpdateParticles L self k dt alpha_k).1.omega.v2 + k.omega.v2)⟩ := by
  constructor
  · rw [(UpdateParticles_kernel L self k dt alpha_k).2.2.1]
    simp only [RealVect.add, RealVect.scale]
  · rw [(UpdateParticles_kernel L self k dt alpha_k).2.2.2.1]
    simp only [RealVect.add, RealVect.scale]

end Integrator

/-! ## Three-point normalization and the scatter/gather round trip -/

section RoundTrip

variable {K : Type} [LinearOrderedField K] [FloorRing K]

/-- `Rat.sqrt` of the negative number `-2` is `0`. -/
theorem rat_sqrt_neg_two : Rat.sqrt (-2) = 0 := by
  have h : Int.sqrt (-2) = 0 := by decide
  simp [Rat.sqrt, h]

/-- The three-point weights of the five stencil nodes along one axis, for a marker on a cell
centre: both the branch of distance `0` and the branch of distance `1` take the square root
of `-2`. -/
theorem three_point_centre_sum (sqrt : K → K) (h : K) (hh : 0 < h) (a : Int) :
    ∑ ii ∈ Finset.Icc (-2 : Int) 2,
        deltaFunction sqrt (((a : K) + 1 / 2) * h) (((a + ii : Int) : K) * h + h / 2) h
          DELTA_FUNCTION_TYPE.THREE_POINT_IB
      = (9 + 5 * sqrt (-2)) / 6 / h := by
  have hne : h ≠ 0 := ne_of_gt hh
  simp only [deltaFunction_cell_centre sqrt h hh, ← sum_stencilOffsets]
  simp only [stencilOffsets, List.map_cons, List.map_nil, List.sum_cons, List.sum_nil]
  have v0 : deltaFunction sqrt (((0 : Int) : K)) 0 1 DELTA_FUNCTION_TYPE.THREE_POINT_IB
      = (5 + sqrt (-2)) / 6 := by
    norm_num [deltaFunction]
    ring
  have v1 : deltaFunction sqrt (((1 : Int) : K)) 0 1 DELTA_FUNCTION_TYPE.THREE_POINT_IB
      = (1 + sqrt (-2)) / 3 := by
    norm_num [deltaFunction]
    ring
  have v2 : deltaFunction sqrt (((2 : Int) : K)) 0 1 DELTA_FUNCTION_TYPE.THREE_POINT_IB = 0 := by
    norm_num [deltaFunction]
  have w1 : deltaFunction sqrt (((-1 : Int) : K)) 0 1 DELTA_FUNCTION_TYPE.THREE_POINT_IB
      = (1 + sqrt (-2)) / 3 := by
    norm_num [deltaFunction]
    ring
  have w2 : deltaFunction sqrt (((-2 : Int) : K)) 0 1 DELTA_FUNCTION_TYPE.THREE_POINT_IB = 0 := by
    norm_num [deltaFunction]
  rw [v0, v1, v2, w1, w2]
  field_simp
  ring

/-- The 125 three-point weights of a marker on the centre of cell `(a, b, c)`, times the
cell volume. -/
theorem three_point_centre_sum3 (sqrt : K → K) (dx : RealVect K)
    (h0 : 0 < dx.v0) (h1 : 0 < dx.v1) (h2 : 0 < dx.v2) (a b c : Int) :
    ∑ ii ∈ Finset.Icc (-2 : Int) 2, ∑ jj ∈ Finset.Icc (-2 : Int) 2,
      ∑ kk ∈ Finset.Icc (-2 : Int) 2,
        deltaFunction sqrt (((a : K) + 1 / 2) * dx.v0) (((a + ii : Int) : K) * dx.v0 + dx.v0 / 2)
            dx.v0 DELTA_FUNCTION_TYPE.THREE_POINT_IB
          * deltaFunction sqrt (((b : K) + 1 / 2) * dx.v1)
              (((b + jj : Int) : K) * dx.v1 + dx.v1 / 2) dx.v1 DELTA_FUNCTION_TYPE.THREE_POINT_IB
          * deltaFunction sqrt (((c : K) + 1 / 2) * dx.v2)
              (((c + kk : Int) : K) * dx.v2 + dx.v2 / 2) dx.v2 DELTA_FUNCTION_TYPE.THREE_POINT_IB
          * (dx.v0 * dx.v1 * dx.v2)
      = ((9 + 5 * sqrt (-2)) / 6) ^ 3 := by
  have n0 : dx.v0 ≠ 0 := ne_of_gt h0
  have n1 : dx.v1 ≠ 0 := ne_of_gt h1
  have n2 : dx.v2 ≠ 0 := ne_of_gt h2
  simp only [← Finset.sum_mul, ← Finset.mul_sum]
  rw [three_point_centre_sum sqrt dx.v0 h0 a, three_point_centre_sum sqrt dx.v1 h1 b,
    three_point_centre_sum sqrt dx.v2 h2 c]
  field_simp
  ring

/-- C11 (the code differs). Three-point variant, marker on the centre of a cell `(a, b, c)` of
a grid with origin `0` and cell size `dx > 0`: the sum over the 125 stencil nodes of
`tU * tV * tW` times the cell volume is `((9 + 5 sqrt(-2)) / 6)³`, because the kernel takes
the square root of `-2` at the distances `0` and `1`; with a square root that is
non-negative there, the sum exceeds `1`. -/
theorem three_point_not_normalized (sqrt : K → K) (dx : RealVect K)
    (h0 : 0 < dx.v0) (h1 : 0 < dx.v1) (h2 : 0 < dx.v2) (a b c : Int) :
    (∑ ii ∈ Finset.Icc (-2 : Int) 2, ∑ jj ∈ Finset.Icc (-2 : Int) 2,
      ∑ kk ∈ Finset.Icc (-2 : Int) 2,
        deltaFunction sqrt (((a : K) + 1 / 2) * dx.v0) (((a + ii : Int) : K) * dx.v0 + dx.v0 / 2)
            dx.v0 DELTA_FUNCTION_TYPE.THREE_POINT_IB
          * deltaFunction sqrt (((b : K) + 1 / 2) * dx.v1)
              (((b + jj : Int) : K) * dx.v1 + dx.v1 / 2) dx.v1 DELTA_FUNCTION_TYPE.THREE_POINT_IB
          * deltaFunction sqrt (((c : K) + 1 / 2) * dx.v2)
              (((c + kk : Int) : K) * dx.v2 + dx.v2 / 2) dx.v2 DELTA_FUNCTION_TYPE.THREE_POINT_IB
          * (dx.v0 * dx.v1 * dx.v2)
      = ((9 + 5 * sqrt (-2)) / 6) ^ 3) ∧
    (0 ≤ sqrt (-2) →
      1 < ∑ ii ∈ Finset.Icc (-2 : Int) 2, ∑ jj ∈ Finset.Icc (-2 : Int) 2,
        ∑ kk ∈ Finset.Icc (-2 : Int) 2,
          deltaFunction sqrt (((a : K) + 1 / 2) * dx.v0)
              (((a + ii : Int) : K) * dx.v0 + dx.v0 / 2) dx.v0 DELTA_FUNCTION_TYPE.THREE_POINT_IB
            * deltaFunction sqrt (((b : K) + 1 / 2) * dx.v1)
                (((b + jj : Int) : K) * dx.v1 + dx.v1 / 2) dx.v1
                DELTA_FUNCTION_TYPE.THREE_POINT_IB
            * deltaFunction sqrt (((c : K) + 1 / 2) * dx.v2)
                (((c + kk : Int) : K) * dx.v2 + dx.v2 / 2) dx.v2
                DELTA_FUNCTION_TYPE.THREE_POINT_IB
            * (dx.v0 * dx.v1 * dx.v2)) := by
  have hsum := three_point_centre_sum3 sqrt dx h0 h1 h2 a b c
  refine ⟨hsum, fun hs => ?_⟩
  rw [hsum]
  have hb : (1 : K) < (9 + 5 * sqrt (-2)) / 6 := by
    rw [lt_div_iff₀ (by norm_num : (0 : K) < 6)]
    linarith
  exact one_lt_pow₀ hb (by norm_num)

/-- Unit cells, marker on the centre of cell `(0, 0, 0)`, and `Rat.sqrt` (which is `0` at
`-2`): the three-point weights times the cell volume add up to `27/8`. -/
theorem three_point_not_normalized_witness :
    ∑ ii ∈ Finset.Icc (-2 : Int) 2, ∑ jj ∈ Finset.Icc (-2 : Int) 2,
      ∑ kk ∈ Finset.Icc (-2 : Int) 2,
        deltaFunction Rat.sqrt ((((0 : Int) : ℚ) + 1 / 2) * (⟨1, 1, 1⟩ : RealVect ℚ).v0)
            (((0 + ii : Int) : ℚ) * (⟨1, 1, 1⟩ : RealVect ℚ).v0 + (⟨1, 1, 1⟩ : RealVect ℚ).v0 / 2)
            (⟨1, 1, 1⟩ : RealVect ℚ).v0 DELTA_FUNCTION_TYPE.THREE_POINT_IB
          * deltaFunction Rat.sqrt ((((0 : Int) : ℚ) + 1 / 2) * (⟨1, 1, 1⟩ : RealVect ℚ).v1)
              (((0 + jj : Int) : ℚ) * (⟨1, 1, 1⟩ : RealVect ℚ).v1
                + (⟨1, 1, 1⟩ : RealVect ℚ).v1 / 2)
              (⟨1, 1, 1⟩ : RealVect ℚ).v1 DELTA_FUNCTION_TYPE.THREE_POINT_IB
          * deltaFunction Rat.sqrt ((((0 : Int) : ℚ) + 1 / 2) * (⟨1, 1, 1⟩ : RealVect ℚ).v2)
              (((0 + kk : Int) : ℚ) * (⟨1, 1, 1⟩ : RealVect ℚ).v2
                + (⟨1, 1, 1⟩ : RealVect ℚ).v2 / 2)
              (⟨1, 1, 1⟩ : RealVect ℚ).v2 DELTA_FUNCTION_TYPE.THREE_POINT_IB
          * ((⟨1, 1, 1⟩ : RealVect ℚ).v0 * (⟨1, 1, 1⟩ : RealVect ℚ).v1
              * (⟨1, 1, 1⟩ : RealVect ℚ).v2)
      = 27 / 8 := by
  rw [(three_point_not_normalized Rat.sqrt ⟨1, 1, 1⟩ (by norm_num) (by norm_num) (by norm_num)
    0 0 0).1, rat_sqrt_neg_two]
  norm_num

/-- One component of the round trip: interpolating an array that holds `w * f * d` at the
nodes of the stencil gives `f` times the sum of the squares of `w * d`. -/
theorem roundtrip_component (w S : Int → Int → Int → K) (i j k : Int) (f d : K)
    (hS : ∀ ii jj kk : Int, -2 ≤ ii → ii ≤ 2 → -2 ≤ jj → jj ≤ 2 → -2 ≤ kk → kk ≤ 2 →
      S (i + ii) (j + jj) (k + kk) = w ii jj kk * f * d) :
    ∑ ii ∈ Finset.Icc (-2 : Int) 2, ∑ jj ∈ Finset.Icc (-2 : Int) 2,
        ∑ kk ∈ Finset.Icc (-2 : Int) 2, w ii jj kk * S (i + ii) (j + jj) (k + kk) * d
      = f * ∑ ii ∈ Finset.Icc (-2 : Int) 2, ∑ jj ∈ Finset.Icc (-2 : Int) 2,
          ∑ kk ∈ Finset.Icc (-2 : Int) 2, (w ii jj kk * d) ^ 2 := by
  simp only [Finset.mul_sum]
  refine Finset.sum_congr rfl (fun ii hii => Finset.sum_congr rfl (fun jj hjj =>
    Finset.sum_congr rfl (fun kk hkk => ?_)))
  rw [hS ii jj kk (Finset.mem_Icc.mp hii).1 (Finset.mem_Icc.mp hii).2 (Finset.mem_Icc.mp hjj).1
    (Finset.mem_Icc.mp hjj).2 (Finset.mem_Icc.mp hkk).1 (Finset.mem_Icc.mp hkk).2]
  ring

/-- The value of the array `ForceSpreading_cic` writes into a zero array, at a node of the
stencil. -/
theorem ForceSpreading_cic_zero_stencil (sqrt : K → K) (pos : RealVect K) (fxP fyP fzP : K)
    (F : Int) (plo dx : RealVect K) (type : DELTA_FUNCTION_TYPE) (ii jj kk : Int)
    (h1 : -2 ≤ ii) (h2 : ii ≤ 2) (h3 : -2 ≤ jj) (h4 : jj ≤ 2) (h5 : -2 ≤ kk) (h6 : kk ≤ 2) :
    ForceSpreading_cic sqrt pos fxP fyP fzP (fun _ _ _ _ => 0) F plo dx type
        (⌊(pos.v0 - plo.v0) / dx.v0⌋ + ii) (⌊(pos.v1 - plo.v1) / dx.v1⌋ + jj)
        (⌊(pos.v2 - plo.v2) / dx.v2⌋ + kk) F
      = delta_value sqrt pos dx type ⌊(pos.v0 - plo.v0) / dx.v0⌋ ⌊(pos.v1 - plo.v1) / dx.v1⌋
          ⌊(pos.v2 - plo.v2) / dx.v2⌋ ii jj kk * fxP * (dx.v0 * dx.v1 * dx.v2) ∧
    ForceSpreading_cic sqrt pos fxP fyP fzP (fun _ _ _ _ => 0) F plo dx type
        (⌊(pos.v0 - plo.v0) / dx.v0⌋ + ii) (⌊(pos.v1 - plo.v1) / dx.v1⌋ + jj)
        (⌊(pos.v2 - plo.v2) / dx.v2⌋ + kk) (F + 1)
      = delta_value sqrt pos dx type ⌊(pos.v0 - plo.v0) / dx.v0⌋ ⌊(pos.v1 - plo.v1) / dx.v1⌋
          ⌊(pos.v2 - plo.v2) / dx.v2⌋ ii jj kk * fyP * (dx.v0 * dx.v1 * dx.v2) ∧
    ForceSpreading_cic sqrt pos fxP fyP fzP (fun _ _ _ _ => 0) F plo dx type
        (⌊(pos.v0 - plo.v0) / dx.v0⌋ + ii) (⌊(pos.v1 - plo.v1) / dx.v1⌋ + jj)
        (⌊(pos.v2 - plo.v2) / dx.v2⌋ + kk) (F + 2)
      = delta_value sqrt pos dx type ⌊(pos.v0 - plo.v0) / dx.v0⌋ ⌊(pos.v1 - plo.v1) / dx.v1⌋
          ⌊(pos.v2 - plo.v2) / dx.v2⌋ ii jj kk * fzP * (dx.v0 * dx.v1 * dx.v2) := by
  have hs : ∀ a b : Int, -2 ≤ b → b ≤ 2 → a + b - a ∈ stencilOffsets := fun a b hb1 hb2 =>
    (mem_stencilOffsets _).2 ⟨by omega, by omega⟩
  have hin := And.intro (hs ⌊(pos.v0 - plo.v0) / dx.v0⌋ ii h1 h2)
    (And.intro (hs ⌊(pos.v1 - plo.v1) / dx.v1⌋ jj h3 h4)
      (hs ⌊(pos.v2 - plo.v2) / dx.v2⌋ kk h5 h6))
  have e1 : F + 1 ≠ F := by omega
  have e2 : F + 2 ≠ F := by omega
  have e3 : F + 2 ≠ F + 1 := by omega
  refine ⟨?_, ?_, ?_⟩
  · rw [ForceSpreading_cic_apply, if_pos hin, if_pos rfl]
    simp only [add_sub_cancel_left, zero_add]
  · rw [ForceSpreading_cic_apply, if_pos hin, if_neg e1, if_pos rfl]
    simp only [add_sub_cancel_left, zero_add]
  · rw [ForceSpreading_cic_apply, if_pos hin, if_neg e2, if_neg e3, if_pos rfl]
    simp only [add_sub_cancel_left, zero_add]

/-- Spreading a force into a zero block and interpolating the block back onto the same
marker multiplies each force component by the sum of the squares of weight times volume. -/
theorem roundtrip_eq (sqrt : K → K) (pos : RealVect K) (fxP fyP fzP Up0 Vp0 Wp0 : K)
    (F : Int) (plo dx : RealVect K) (type : DELTA_FUNCTION_TYPE) :
    VelocityInterpolation_cir sqrt pos Up0 Vp0 Wp0
        (ForceSpreading_cic sqrt pos fxP fyP fzP (fun _ _ _ _ => 0) F plo dx type) F plo dx type
      = (fxP * ∑ ii ∈ Finset.Icc (-2 : Int) 2, ∑ jj ∈ Finset.Icc (-2 : Int) 2,
            ∑ kk ∈ Finset.Icc (-2 : Int) 2,
              (delta_value sqrt pos dx type ⌊(pos.v0 - plo.v0) / dx.v0⌋
                ⌊(pos.v1 - plo.v1) / dx.v1⌋ ⌊(pos.v2 - plo.v2) / dx.v2⌋ ii jj kk
                * (dx.v0 * dx.v1 * dx.v2)) ^ 2,
         fyP * ∑ ii ∈ Finset.Icc (-2 : Int) 2, ∑ jj ∈ Finset.Icc (-2 : Int) 2,
            ∑ kk ∈ Finset.Icc (-2 : Int) 2,
              (delta_value sqrt pos dx type ⌊(pos.v0 - plo.v0) / dx.v0⌋
                ⌊(pos.v1 - plo.v1) / dx.v1⌋ ⌊(pos.v2 - plo.v2) / dx.v2⌋ ii jj kk
                * (dx.v0 * dx.v1 * dx.v2)) ^ 2,
         fzP * ∑ ii ∈ Finset.Icc (-2 : Int) 2, ∑ jj ∈ Finset.Icc (-2 : Int) 2,
            ∑ kk ∈ Finset.Icc (-2 : Int) 2,
              (delta_value sqrt pos dx type ⌊(pos.v0 - plo.v0) / dx.v0⌋
                ⌊(pos.v1 - plo.v1) / dx.v1⌋ ⌊(pos.v2 - plo.v2) / dx.v2⌋ ii jj kk
                * (dx.v0 * dx.v1 * dx.v2)) ^ 2) := by
  rw [VelocityInterpolation_cir_eq]
  refine Prod.ext ?_ (Prod.ext ?_ ?_)
  · exact roundtrip_component _ (fun x y z => ForceSpreading_cic sqrt pos fxP fyP fzP
      (fun _ _ _ _ => 0) F plo dx type x y z F) _ _ _ fxP _
      (fun ii jj kk h1 h2 h3 h4 h5 h6 => (ForceSpreading_cic_zero_stencil sqrt pos fxP fyP fzP F
        plo dx type ii jj kk h1 h2 h3 h4 h5 h6).1)
  · exact roundtrip_component _ (fun x y z => ForceSpreading_cic sqrt pos fxP fyP fzP
      (fun _ _ _ _ => 0) F plo dx type x y z (F + 1)) _ _ _ fyP _
      (fun ii jj kk h1 h2 h3 h4 h5 h6 => (ForceSpreading_cic_zero_stencil sqrt pos fxP fyP fzP F
        plo dx type ii jj kk h1 h2 h3 h4 h5 h6).2.1)
  · exact roundtrip_component _ (fun x y z => ForceSpreading_cic sqrt pos fxP fyP fzP
      (fun _ _ _ _ => 0) F plo dx type x y z (F + 2)) _ _ _ fzP _
      (fun ii jj kk h1 h2 h3 h4 h5 h6 => (ForceSpreading_cic_zero_stencil sqrt pos fxP fyP fzP F
        plo dx type ii jj kk h1 h2 h3 h4 h5 h6).2.2)

/-- C12 (counterexample). Marker on the cell centre `(1/2, 1/2, 1/2)` of a unit grid with
origin `0`, four-point kernel: spreading the unit force `(1, 0, 0)` into a zero block and
interpolating that block back onto the marker returns `27/512` in the first component, which
is farther than `9/10` from `1`. -/
theorem roundtrip_cell_centre :
    VelocityInterpolation_cir Rat.sqrt ⟨1 / 2, 1 / 2, 1 / 2⟩ 0 0 0
        (ForceSpreading_cic Rat.sqrt ⟨1 / 2, 1 / 2, 1 / 2⟩ 1 0 0 (fun _ _ _ _ => 0) 0 ⟨0, 0, 0⟩
          ⟨1, 1, 1⟩ DELTA_FUNCTION_TYPE.FOUR_POINT_IB)
        0 ⟨0, 0, 0⟩ ⟨1, 1, 1⟩ DELTA_FUNCTION_TYPE.FOUR_POINT_IB
      = (27 / 512, 0, 0) ∧
    (9 : ℚ) / 10 < abs (27 / 512 - 1) := by
  have hf : ⌊((1 / 2 : ℚ) - 0) / 1⌋ = 0 := by
    rw [Int.floor_eq_iff]
    norm_num
  constructor
  · rw [roundtrip_eq]
    simp only [hf, ← sum_stencilOffsets]
    simp [stencilOffsets, delta_value]
    norm_num [deltaFunction, rat_sqrt_one]
  · rw [abs_of_neg (by norm_num)]
    norm_num

/-- C12 (amended). For every marker position, geometry and kernel variant, spreading a force
with `ForceSpreading_cic` into an all-zero block and interpolating that block back onto the
same marker with `VelocityInterpolation_cir` returns each force component multiplied by the
sum over the stencil of the squares of weight times cell volume. -/
theorem scatter_gather_roundtrip (sqrt : K → K) (pos : RealVect K)
    (fxP fyP fzP Up0 Vp0 Wp0 : K) (F : Int) (plo dx : RealVect K)
    (type : DELTA_FUNCTION_TYPE) :
    VelocityInterpolation_cir sqrt pos Up0 Vp0 Wp0
        (ForceSpreading_cic sqrt pos fxP fyP fzP (fun _ _ _ _ => 0) F plo dx type) F plo dx type
      = (fxP * ∑ ii ∈ Finset.Icc (-2 : Int) 2, ∑ jj ∈ Finset.Icc (-2 : Int) 2,
            ∑ kk ∈ Finset.Icc (-2 : Int) 2,
              (delta_value sqrt pos dx type ⌊(pos.v0 - plo.v0) / dx.v0⌋
                ⌊(pos.v1 - plo.v1) / dx.v1⌋ ⌊(pos.v2 - plo.v2) / dx.v2⌋ ii jj kk
                * (dx.v0 * dx.v1 * dx.v2)) ^ 2,
         fyP * ∑ ii ∈ Finset.Icc (-2 : Int) 2, ∑ jj ∈ Finset.Icc (-2 : Int) 2,
            ∑ kk ∈ Finset.Icc (-2 : Int) 2,
              (delta_value sqrt pos dx type ⌊(pos.v0 - plo.v0) / dx.v0⌋
                ⌊(pos.v1 - plo.v1) / dx.v1⌋ ⌊(pos.v2 - plo.v2) / dx.v2⌋ ii jj kk
                * (dx.v0 * dx.v1 * dx.v2)) ^ 2,
         fzP * ∑ ii ∈ Finset.Icc (-2 : Int) 2, ∑ jj ∈ Finset.Icc (-2 : Int) 2,
            ∑ kk ∈ Finset.Icc (-2 : Int) 2,
              (delta_value sqrt pos dx type ⌊(pos.v0 - plo.v0) / dx.v0⌋
                ⌊(pos.v1 - plo.v1) / dx.v1⌋ ⌊(pos.v2 - plo.v2) / dx.v2⌋ ii jj kk
                * (dx.v0 * dx.v1 * dx.v2)) ^ 2) :=
  roundtrip_eq sqrt pos fxP fyP fzP Up0 Vp0 Wp0 F plo dx type

end RoundTrip

/-! ## Direct-forcing convergence -/

section Convergence

/-- In the concrete configuration with the body moving at the fluid velocity `(1, 0, 0)`,
interpolation gives the marker the velocity `(1, 0, 0)` and the direct-forcing law stores
the force `(0, 0, 0)`. -/
theorem sample_markers_after_force_moving :
    ComputeLagrangianForce
        (VelocityInterpolation Rat.sqrt sampleParticles (clearEulerForce sampleEuler 0)
          DELTA_FUNCTION_TYPE.FOUR_POINT_IB) 1 { sampleKernel with velocity := ⟨1, 0, 0⟩ }
      = { sampleParticles with markers := [⟨⟨1 / 2, 1 / 2, 1 / 2⟩, 1, 0, 0, 0, 0, 0⟩] } := by
  have hcir : VelocityInterpolation_cir Rat.sqrt ⟨1 / 2, 1 / 2, 1 / 2⟩ 0 0 0
      (clearEulerForce sampleEuler 0).array 3 ⟨0, 0, 0⟩ ⟨1, 1, 1⟩
      DELTA_FUNCTION_TYPE.FOUR_POINT_IB = (1, 0, 0) := by
    have h := VelocityInterpolation_cir_uniform Rat.sqrt rat_sqrt_one ⟨1, 1, 1⟩ (by norm_num)
      (by norm_num) (by norm_num) 0 0 0 (clearEulerForce sampleEuler 0).array 3 1 0 0 0 0 0
      (by intro x y z; simp [clearEulerForce, sampleEuler])
    have e : (⟨1 / 2, 1 / 2, 1 / 2⟩ : RealVect ℚ)
        = ⟨(((0 : Int) : ℚ) + 1 / 2) * (⟨1, 1, 1⟩ : RealVect ℚ).v0,
           (((0 : Int) : ℚ) + 1 / 2) * (⟨1, 1, 1⟩ : RealVect ℚ).v1,
           (((0 : Int) : ℚ) + 1 / 2) * (⟨1, 1, 1⟩ : RealVect ℚ).v2⟩ := by
      norm_num
    rw [e]
    exact h
  have e1 : ((1 : ℚ) - 1) / 1 = 0 := by norm_num
  have e2 : ((0 : ℚ) - 0) / 1 = 0 := by norm_num
  simp only [ComputeLagrangianForce, VelocityInterpolation, sampleParticles, sampleKernel,
    List.map_cons, List.map_nil, hcir, e1, e2]

/-- In the concrete configuration with the marker force `(0, 0, 0)`, the array after the
spreading step still holds `1/8` in the first force component at the node `(0,0,0)`; the
velocity block is as before. -/
theorem sample_spread_apply_moving :
    (ForceSpreading Rat.sqrt
        { sampleParticles with markers := [⟨⟨1 / 2, 1 / 2, 1 / 2⟩, 1, 0, 0, 0, 0, 0⟩] }
        (clearEulerForce sampleEuler 0) DELTA_FUNCTION_TYPE.FOUR_POINT_IB).array 0 0 0 0 = 1 / 8 ∧
    (ForceSpreading Rat.sqrt
        { sampleParticles with markers := [⟨⟨1 / 2, 1 / 2, 1 / 2⟩, 1, 0, 0, 0, 0, 0⟩] }
        (clearEulerForce sampleEuler 0) DELTA_FUNCTION_TYPE.FOUR_POINT_IB).array 0 0 0 3 = 1 := by
  have hf : ⌊((1 / 2 : ℚ) - 0) / 1⌋ = 0 := by
    rw [Int.floor_eq_iff]
    norm_num
  rw [ForceSpreading_single Rat.sqrt _ ⟨⟨1 / 2, 1 / 2, 1 / 2⟩, 1, 0, 0, 0, 0, 0⟩ _ _
    ⟨1 / 2, 1 / 2, 1 / 2⟩ ⟨0, 0, 0⟩ ⟨1, 1, 1⟩ 1 0 0 0 rfl rfl rfl rfl rfl rfl rfl rfl]
  constructor
  · rw [ForceSpreading_cic_apply]
    simp only [hf]
    norm_num [stencilOffsets, delta_value, deltaFunction, rat_sqrt_one, clearEulerForce,
      sampleEuler, Box.contains]
  · rw [ForceSpreading_cic_apply]
    simp only [hf]
    norm_num [stencilOffsets, clearEulerForce, sampleEuler, Box.contains]

/-- C18 (the code differs). Body velocity `(1, 0, 0)`, fluid velocity block `(1, 0, 0)` at
every node, marker on a cell centre, four-point kernel, `dt = 1`: after one correction
sub-iteration the marker holds the interpolated velocity `(1, 0, 0)` and the corrective force
`(0, 0, 0)`, but the first velocity component at the node `(0,0,0)` has changed from `1` to
`9/8`: the spreading step scattered the interpolated velocity, not the zero force. -/
theorem correctionStep_uniform_flow :
    (correctionStep Rat.sqrt { sampleKernel with velocity := ⟨1, 0, 0⟩ } 1
        DELTA_FUNCTION_TYPE.FOUR_POINT_IB (sampleParticles, sampleEuler)).1.markers
      = [⟨⟨1 / 2, 1 / 2, 1 / 2⟩, 1, 0, 0, 0, 0, 0⟩] ∧
    sampleEuler.array 0 0 0 3 = 1 ∧
    (correctionStep Rat.sqrt { sampleKernel with velocity := ⟨1, 0, 0⟩ } 1
        DELTA_FUNCTION_TYPE.FOUR_POINT_IB (sampleParticles, sampleEuler)).2.array 0 0 0 3
      = 9 / 8 := by
  have hstep : correctionStep Rat.sqrt { sampleKernel with velocity := ⟨1, 0, 0⟩ } 1
      DELTA_FUNCTION_TYPE.FOUR_POINT_IB (sampleParticles, sampleEuler)
      = ({ sampleParticles with markers := [⟨⟨1 / 2, 1 / 2, 1 / 2⟩, 1, 0, 0, 0, 0, 0⟩] },
         Saxpy (ForceSpreading Rat.sqrt
            { sampleParticles with markers := [⟨⟨1 / 2, 1 / 2, 1 / 2⟩, 1, 0, 0, 0, 0, 0⟩] }
            (clearEulerForce sampleEuler 0) DELTA_FUNCTION_TYPE.FOUR_POINT_IB) 1 0 3 3) := by
    have e0 : sampleParticles.euler_force_index = 0 := rfl
    simp only [correctionStep, e0, sample_markers_after_force_moving]
    rfl
  refine ⟨?_, rfl, ?_⟩
  · rw [hstep]
  · have hbox : (ForceSpreading Rat.sqrt
        { sampleParticles with markers := [⟨⟨1 / 2, 1 / 2, 1 / 2⟩, 1, 0, 0, 0, 0, 0⟩] }
        (clearEulerForce sampleEuler 0) DELTA_FUNCTION_TYPE.FOUR_POINT_IB).validbox.contains
        0 0 0 := by
      show sampleEuler.validbox.contains 0 0 0
      norm_num [Box.contains, sampleEuler]
    have e : (3 : Int) - 3 + 0 = 0 := by norm_num
    rw [hstep, Saxpy_three_apply _ _ _ _ (Or.inl (by norm_num)), if_pos ⟨hbox, Or.inl rfl⟩, e,
      sample_spread_apply_moving.1, sample_spread_apply_moving.2]
    norm_num

end Convergence

/-! ## The marker sampler -/

section Sampler

variable {K : Type} [LinearOrderedField K] [FloorRing K]

/-- `InitialWithLargrangianPoints` is its `for` loop over `index = 0, ..., ml - 1`. -/
theorem InitialWithLargrangianPoints_eq_fold (L : Libm K) (self : mParticle K)
    (k : kernel K) :
    InitialWithLargrangianPoints L self k
      = { self with
          markers := ((List.range k.ml.toNat).foldl (lagrangianPointStep L k)
            (0, self.markers)).2 } := rfl

/-- The loop body reads the body record only through its centre, radius and marker count. -/
theorem lagrangianPointStep_congr (L : Libm K) (k1 k2 : kernel K)
    (hl : k1.location = k2.location) (hr : k1.radious = k2.radious) (hm : k1.ml = k2.ml) :
    lagrangianPointStep L k1 = lagrangianPointStep L k2 := by
  funext st index
  unfold lagrangianPointStep
  rw [hl, hr, hm]

/-- Two runs of the sampling loop on marker lists of the same length: the variable `phiK`
agrees, the lengths are kept, and the positions of the markers visited so far agree. -/
theorem lagrangianPoints_fold_pos (L : Libm K) (k : kernel K) (ms1 ms2 : List (Marker K))
    (hlen : ms1.length = ms2.length) (n : Nat) :
    ((List.range n).foldl (lagrangianPointStep L k) (0, ms1)).1
      = ((List.range n).foldl (lagrangianPointStep L k) (0, ms2)).1 ∧
    ((List.range n).foldl (lagrangianPointStep L k) (0, ms1)).2.length = ms1.length ∧
    ((List.range n).foldl (lagrangianPointStep L k) (0, ms2)).2.length = ms2.length ∧
    ∀ i, i < n →
      (((List.range n).foldl (lagrangianPointStep L k) (0, ms1)).2[i]?).map Marker.pos
        = (((List.range n).foldl (lagrangianPointStep L k) (0, ms2)).2[i]?).map Marker.pos := by
  induction n with
  | zero =>
    refine ⟨rfl, rfl, rfl, ?_⟩
    intro i hi
    omega
  | succ n ih =>
    rw [List.range_succ, List.foldl_append, List.foldl_append, List.foldl_cons, List.foldl_nil,
      List.foldl_cons, List.foldl_nil]
    obtain ⟨h1, h2, h3, h4⟩ := ih
    generalize (List.range n).foldl (lagrangianPointStep L k) (0, ms1) = r1 at h1 h2 h3 h4 ⊢
    generalize (List.range n).foldl (lagrangianPointStep L k) (0, ms2) = r2 at h1 h2 h3 h4 ⊢
    obtain ⟨p1, l1⟩ := r1
    obtain ⟨p2, l2⟩ := r2
    simp only at h1 h2 h3 h4
    subst h1
    unfold lagrangianPointStep
    simp only [List.length_modify]
    refine ⟨trivial, h2, h3, ?_⟩
    intro i hi
    by_cases hin : i = n
    · subst hin
      rw [List.getElem?_modify_eq, List.getElem?_modify_eq]
      have hl : l1.length = l2.length := by rw [h2, h3, hlen]
      by_cases hlt : i < l1.length
      · have hlt2 : i < l2.length := hl ▸ hlt
        rw [List.getElem?_eq_getElem hlt, List.getElem?_eq_getElem hlt2]
        rfl
      · have hge2 : ¬ i < l2.length := hl ▸ hlt
        rw [List.getElem?_eq_none (not_lt.mp hlt), List.getElem?_eq_none (not_lt.mp hge2)]
    · rw [List.getElem?_modify_ne _ _ (Ne.symm hin), List.getElem?_modify_ne _ _ (Ne.symm hin)]
      exact h4 i (by omega)

/-- C19. Marker regeneration is deterministic and stateless: for two containers with the
same number of markers (whatever the markers' previous positions and attributes) and two
body records with the same centre, radius and marker count `M`, the position
`InitialWithLargrangianPoints` writes to the marker of index `i < M` is the same; in
particular regenerating twice for the same pose yields the same positions index by
index. -/
theorem marker_regeneration_deterministic (L : Libm K) (self1 self2 : mParticle K)
    (k1 k2 : kernel K) (hl : k1.location = k2.location) (hr : k1.radious = k2.radious)
    (hm : k1.ml = k2.ml) (hlen : self1.markers.length = self2.markers.length)
    (i : Nat) (hi : i < k1.ml.toNat) :
    ((InitialWithLargrangianPoints L self1 k1).markers[i]?).map Marker.pos
      = ((InitialWithLargrangianPoints L self2 k2).markers[i]?).map Marker.pos ∧
    ((InitialWithLargrangianPoints L (InitialWithLargrangianPoints L self1 k1) k1).markers[i]?).map
        Marker.pos
      = ((InitialWithLargrangianPoints L self1 k1).markers[i]?).map Marker.pos := by
  constructor
  · rw [InitialWithLargrangianPoints_eq_fold, InitialWithLargrangianPoints_eq_fold,
      ← lagrangianPointStep_congr L k1 k2 hl hr hm, ← hm]
    exact (lagrangianPoints_fold_pos L k1 self1.markers self2.markers hlen k1.ml.toNat).2.2.2 i hi
  · have hlen2 : (InitialWithLargrangianPoints L self1 k1).markers.length
        = self1.markers.length := by
      rw [InitialWithLargrangianPoints_eq_fold]
      exact (lagrangianPoints_fold_pos L k1 self1.markers self1.markers rfl k1.ml.toNat).2.1
    rw [InitialWithLargrangianPoints_eq_fold L (InitialWithLargrangianPoints L self1 k1),
      InitialWithLargrangianPoints_eq_fold L self1]
    exact (lagrangianPoints_fold_pos L k1 _ self1.markers hlen2 k1.ml.toNat).2.2.2 i hi

/-- The sampling loop of a body with the centre `(8, 8, 8)`, the radius `4` and four markers,
run with the stand-ins `affineLibm` on a container with four markers: the position written to
the marker `2`, which depends on the variable `phiK` carried from the marker `1`. -/
theorem quad_third_marker (self : mParticle ℚ) (k : kernel ℚ)
    (hl : k.location = ⟨8, 8, 8⟩) (hr : k.radious = 4) (hm : k.ml = 4)
    (hlen : self.markers.length = 4) :
    ((InitialWithLargrangianPoints affineLibm self k).markers[2]?).map Marker.pos
      = some ⟨8 + 4 * (1 / 3) * (34281 / 42500 + 1), 8 + 4 * (1 / 3) * (34281 / 42500),
          8 + 4 * (1 / 3 + 1)⟩ := by
  have e : k.ml.toNat = 4 := by rw [hm]; rfl
  have hr4 : List.range 4 = [0, 1, 2, 3] := rfl
  rw [InitialWithLargrangianPoints_eq_fold]
  show Option.map Marker.pos ((List.foldl (lagrangianPointStep affineLibm k) (0, self.markers)
    (List.range k.ml.toNat)).2[2]?) = _
  rw [e, hr4]
  generalize self.markers = ms at hlen ⊢
  match ms, hlen with
  | [a, b, c, d], _ =>
    simp only [List.foldl_cons, List.foldl_nil, lagrangianPointStep, hl, hr, hm, affineLibm,
      List.modify]
    norm_num

/-- Two body records with the centre `(8, 8, 8)`, the radius `4` and `M = 4` that differ in
every other field, and two containers with four markers, fresh in the one and carrying
positions and attributes of earlier use in the other: the position written to the interior
marker `2` is the same, `(8 + 4/3 * (phi + 1), 8 + 4/3 * phi, 8 + 16/3)` with the carried
azimuth `phi = 34281/42500` of the stand-ins `affineLibm`, and it is the same after a second
regeneration. -/
theorem marker_regeneration_deterministic_witness :
    quadKernel.location = quadKernelMoving.location ∧
    quadKernel.radious = quadKernelMoving.radious ∧
    quadKernel.ml = quadKernelMoving.ml ∧
    quadParticles.markers.length = quadParticlesUsed.markers.length ∧
    2 < quadKernel.ml.toNat ∧
    (((InitialWithLargrangianPoints affineLibm quadParticles quadKernel).markers[2]?).map
        Marker.pos
      = ((InitialWithLargrangianPoints affineLibm quadParticlesUsed
          quadKernelMoving).markers[2]?).map Marker.pos ∧
    ((InitialWithLargrangianPoints affineLibm
        (InitialWithLargrangianPoints affineLibm quadParticles quadKernel)
        quadKernel).markers[2]?).map Marker.pos
      = ((InitialWithLargrangianPoints affineLibm quadParticles quadKernel).markers[2]?).map
        Marker.pos) ∧
    ((InitialWithLargrangianPoints affineLibm quadParticlesUsed quadKernelMoving).markers[2]?).map
        Marker.pos
      = some ⟨8 + 4 * (1 / 3) * (34281 / 42500 + 1), 8 + 4 * (1 / 3) * (34281 / 42500),
          8 + 4 * (1 / 3 + 1)⟩ :=
  ⟨rfl, rfl, rfl, rfl, by decide,
   marker_regeneration_deterministic affineLibm quadParticles quadParticlesUsed quadKernel
     quadKernelMoving rfl rfl rfl rfl 2 (by decide),
   quad_third_marker quadParticlesUsed quadKernelMoving rfl rfl rfl rfl⟩

end Sampler

/-! ## Initialization -/

section Initialization

variable {K : Type} [LinearOrderedField K] [FloorRing K]

/-- With position arrays of equal length `InitParticles` prints nothing, stores the offsets
and the fluid density, appends one body per position and `Ml` markers, whatever the
densities, the radius and the marker count are. -/
theorem InitParticles_of_length_eq (L : Libm K) (self : mParticle K) (x y z : List K)
    (rho_s : K) (radious : Int) (rho_f : K) (force_index velocity_index : Int)
    (hxy : x.length = y.length) (hxz : x.length = z.length) :
    InitParticles L self x y z rho_s radious rho_f force_index velocity_index
      = ({ particle_kernels := self.particle_kernels ++ (List.zip x (List.zip y z)).map (fun c =>
              { location := ⟨c.1, c.2.1, c.2.2⟩
                velocity := ⟨0, 0, 0⟩
                omega := ⟨0, 0, 0⟩
                varphi := ⟨0, 0, 0⟩
                radious := (radious : K)
                ml := truncToInt (L.pi / 3 * (12 * ((radious : K) / self.dx.v0) ^ 2))
                dv := L.pi * self.dx.v0 / 3
                  / ((truncToInt (L.pi / 3 * (12 * ((radious : K) / self.dx.v0) ^ 2)) : Int) : K)
                  * (((wrapInt32 (wrapInt32 (12 * radious) * radious) : Int) : K)
                    + self.dx.v0 * self.dx.v0)
                rho := rho_s })
           markers := self.markers ++ List.replicate
              (truncToInt (L.pi / 3 * (12 * ((radious : K) / self.dx.v0) ^ 2))).toNat
              ⟨⟨0, 0, 0⟩, 0, 0, 0, 0, 0, 0⟩
           euler_force_index := force_index
           euler_velocity_index := velocity_index
           euler_fluid_rho := rho_f
           plo := self.plo
           dx := self.dx }, false) := by
  unfold InitParticles
  rw [if_neg (not_not.mpr ⟨hxy, hxz⟩)]

/-- C20 (amended). `InitParticles` does not compare the densities: called with a body
density equal to the fluid density `rho` and position arrays of equal length, it prints
nothing, stores `rho` as the fluid density and appends one body of density `rho` for every
position, so that `rho_body - rho_fluid` is `0` for each of them. -/
theorem InitParticles_equal_density (L : Libm K) (self : mParticle K) (x y z : List K)
    (rho : K) (radious : Int) (force_index velocity_index : Int)
    (hxy : x.length = y.length) (hxz : x.length = z.length) :
    (InitParticles L self x y z rho radious rho force_index velocity_index).2 = false ∧
    (InitParticles L self x y z rho radious rho force_index velocity_index).1.particle_kernels.length
      = self.particle_kernels.length + x.length ∧
    (InitParticles L self x y z rho radious rho force_index velocity_index).1.euler_fluid_rho
      = rho ∧
    ∀ k ∈ ((InitParticles L self x y z rho radious rho force_index
        velocity_index).1.particle_kernels.drop self.particle_kernels.length),
      k.rho - (InitParticles L self x y z rho radious rho force_index
        velocity_index).1.euler_fluid_rho = 0 := by
  rw [InitParticles_of_length_eq L self x y z rho radious rho force_index velocity_index hxy hxz]
  refine ⟨rfl, ?_, rfl, ?_⟩
  · simp only [List.length_append, List.length_map, List.length_zip]
    omega
  · intro k hk
    simp only [List.drop_left] at hk
    obtain ⟨c, _, rfl⟩ := List.mem_map.mp hk
    simp only [sub_self]

/-- An empty container, one position `(8, 8, 8)`, radius `4` and both densities equal to
`1`: nothing is printed and the list of bodies has one element. -/
theorem InitParticles_equal_density_witness :
    (InitParticles sampleLibm { sampleParticles with particle_kernels := [], markers := [] }
        [8] [8] [8] 1 4 1 0 3).2 = false ∧
    (InitParticles sampleLibm { sampleParticles with particle_kernels := [], markers := [] }
        [8] [8] [8] 1 4 1 0 3).1.particle_kernels.length = 0 + 1 :=
  ⟨(InitParticles_equal_density sampleLibm
      { sampleParticles with particle_kernels := [], markers := [] } [8] [8] [8] 1 4 0 3
      rfl rfl).1,
   (InitParticles_equal_density sampleLibm
      { sampleParticles with particle_kernels := [], markers := [] } [8] [8] [8] 1 4 0 3
      rfl rfl).2.1⟩

/-- C20 (counterexample). An empty container, one position `(8, 8, 8)`, radius `4`, body
density `1` and fluid density `1`: `InitParticles` prints nothing and creates a body, whose
density equals the stored fluid density. -/
theorem InitParticles_accepts_equal_density :
    (InitParticles sampleLibm { sampleParticles with particle_kernels := [], markers := [] }
        [8] [8] [8] 1 4 1 0 3).2 = false ∧
    (InitParticles sampleLibm { sampleParticles with particle_kernels := [], markers := [] }
        [8] [8] [8] 1 4 1 0 3).1.particle_kernels.map (fun k => (k.location, k.rho))
      = [(⟨8, 8, 8⟩, 1)] ∧
    (InitParticles sampleLibm { sampleParticles with particle_kernels := [], markers := [] }
        [8] [8] [8] 1 4 1 0 3).1.euler_fluid_rho = 1 := by
  rw [InitParticles_of_length_eq sampleLibm
    { sampleParticles with particle_kernels := [], markers := [] } [8] [8] [8] 1 4 1 0 3 rfl rfl]
  exact ⟨rfl, rfl, rfl⟩

end Initialization

/-! ## A body at rest in still fluid -/

section AtRest

variable {K : Type} [LinearOrderedField K] [FloorRing K]

/-- The sampling loop changes positions only: a property of markers that does not depend on
the position is kept. -/
theorem lagrangianPoints_fold_attr (L : Libm K) (k : kernel K) (P : Marker K → Prop)
    (hP : ∀ (m : Marker K) (p : RealVect K), P m → P { m with pos := p })
    (ms : List (Marker K)) (hms : ∀ m ∈ ms, P m) (n : Nat) :
    ∀ m ∈ ((List.range n).foldl (lagrangianPointStep L k) (0, ms)).2, P m := by
  induction n with
  | zero => exact hms
  | succ n ih =>
    rw [List.range_succ, List.foldl_append, List.foldl_cons, List.foldl_nil]
    generalize (List.range n).foldl (lagrangianPointStep L k) (0, ms) = r at ih ⊢
    unfold lagrangianPointStep
    intro m hm
    obtain ⟨i, hi⟩ := List.mem_iff_getElem?.mp hm
    rw [List.getElem?_modify] at hi
    cases hri : r.2[i]? with
    | none => rw [hri] at hi; simp at hi
    | some a =>
      rw [hri] at hi
      have ha : P a := ih a (List.getElem?_mem hri)
      simp only [Option.map_eq_map, Option.map_some', Option.some.injEq] at hi
      by_cases hni : n = i
      · rw [if_pos hni] at hi
        rw [← hi]
        exact hP a _ ha
      · rw [if_neg hni] at hi
        rw [← hi]
        exact ha

/-- `InitialWithLargrangianPoints` keeps every property of the markers that does not depend
on the position. -/
theorem InitialWithLargrangianPoints_attr (L : Libm K) (self : mParticle K) (k : kernel K)
    (P : Marker K → Prop)
    (hP : ∀ (m : Marker K) (p : RealVect K), P m → P { m with pos := p })
    (hms : ∀ m ∈ self.markers, P m) :
    ∀ m ∈ (InitialWithLargrangianPoints L self k).markers, P m := by
  rw [InitialWithLargrangianPoints_eq_fold]
  exact lagrangianPoints_fold_attr L k P hP self.markers hms k.ml.toNat

/-- A sum of terms that are all zero. -/
theorem sum_map_eq_zero {α : Type} (l : List α) (g : α → K) (hg : ∀ a ∈ l, g a = 0) :
    (l.map g).sum = 0 := by
  induction l with
  | nil => rfl
  | cons a l ih =>
    rw [List.map_cons, List.sum_cons, hg a (List.mem_cons_self a l),
      ih (fun b hb => hg b (List.mem_cons_of_mem a hb)), add_zero]

/-- A body at rest whose markers store no force stays at rest and in place. -/
theorem UpdateParticles_at_rest (L : Libm K) (self : mParticle K) (k : kernel K)
    (dt alpha_k : K) (hv : k.velocity = ⟨0, 0, 0⟩) (hw : k.omega = ⟨0, 0, 0⟩)
    (hF : ∀ m ∈ self.markers, m.Fx_Marker = 0 ∧ m.Fy_Marker = 0 ∧ m.Fz_Marker = 0) :
    (UpdateParticles L self k dt alpha_k).1.velocity = ⟨0, 0, 0⟩ ∧
    (UpdateParticles L self k dt alpha_k).1.omega = ⟨0, 0, 0⟩ ∧
    (UpdateParticles L self k dt alpha_k).1.location = k.location := by
  obtain ⟨h1, h2, h3⟩ := UpdateParticles_zero_net L self k dt alpha_k
    (sum_map_eq_zero _ _ (fun m hm => by rw [(hF m hm).1, zero_mul]))
    (sum_map_eq_zero _ _ (fun m hm => by rw [(hF m hm).2.1, zero_mul]))
    (sum_map_eq_zero _ _ (fun m hm => by rw [(hF m hm).2.2, zero_mul]))
    (sum_map_eq_zero _ _ (fun m hm => by
      rw [(hF m hm).2.1, (hF m hm).2.2, mul_zero, mul_zero, sub_zero, zero_mul]))
    (sum_map_eq_zero _ _ (fun m hm => by
      rw [(hF m hm).1, (hF m hm).2.2, mul_zero, mul_zero, sub_zero, zero_mul]))
    (sum_map_eq_zero _ _ (fun m hm => by
      rw [(hF m hm).1, (hF m hm).2.1, mul_zero, mul_zero, sub_zero, zero_mul]))
  refine ⟨h1.trans hv, h2.trans hw, ?_⟩
  rw [h3, hv]
  simp only [add_zero, mul_zero]

/-- Interpolating a velocity block that is zero at every node gives `(0, 0, 0)`. -/
theorem VelocityInterpolation_cir_zero (sqrt : K → K) (pos : RealVect K) (Up0 Vp0 Wp0 : K)
    (E : Array4 K) (V : Int) (plo dx : RealVect K) (type : DELTA_FUNCTION_TYPE)
    (hE : ∀ x y z n, (n = V ∨ n = V + 1 ∨ n = V + 2) → E x y z n = 0) :
    VelocityInterpolation_cir sqrt pos Up0 Vp0 Wp0 E V plo dx type = (0, 0, 0) := by
  rw [VelocityInterpolation_cir_eq]
  simp only [hE _ _ _ V (Or.inl rfl), hE _ _ _ (V + 1) (Or.inr (Or.inl rfl)),
    hE _ _ _ (V + 2) (Or.inr (Or.inr rfl)), mul_zero, zero_mul, Finset.sum_const_zero]

/-- Spreading the quantity `(0, 0, 0)` changes nothing. -/
theorem ForceSpreading_cic_zero (sqrt : K → K) (pos : RealVect K) (E : Array4 K) (F : Int)
    (plo dx : RealVect K) (type : DELTA_FUNCTION_TYPE) :
    ForceSpreading_cic sqrt pos 0 0 0 E F plo dx type = E := by
  funext x y z n
  rw [ForceSpreading_cic_apply]
  simp only [mul_zero, zero_mul, ite_self, add_zero]

/-- The spreading step changes nothing when every marker holds the interpolated velocity
`(0, 0, 0)`. -/
theorem ForceSpreading_zero (sqrt : K → K) (self : mParticle K) (Euler : MultiFab K)
    (type : DELTA_FUNCTION_TYPE)
    (hU : ∀ m ∈ self.markers, m.U_Marker = 0 ∧ m.V_Marker = 0 ∧ m.W_Marker = 0) :
    ForceSpreading sqrt self Euler type = Euler := by
  have hfold : ∀ (l : List (Marker K)) (E : Array4 K),
      (∀ m ∈ l, m.U_Marker = 0 ∧ m.V_Marker = 0 ∧ m.W_Marker = 0) →
      l.foldl (fun E m => ForceSpreading_cic sqrt m.pos m.U_Marker m.V_Marker m.W_Marker E
        self.euler_force_index self.plo self.dx type) E = E := by
    intro l
    induction l with
    | nil => intro E _; rfl
    | cons a l ih =>
      intro E hl
      have ha := hl a (List.mem_cons_self a l)
      rw [List.foldl_cons, ha.1, ha.2.1, ha.2.2, ForceSpreading_cic_zero]
      exact ih E (fun m hm => hl m (List.mem_cons_of_mem a hm))
  have h1 : ForceSpreading sqrt self Euler type
      = { Euler with array := self.markers.foldl (fun E m =>
          ForceSpreading_cic sqrt m.pos m.U_Marker m.V_Marker m.W_Marker E
            self.euler_force_index self.plo self.dx type) Euler.array } := rfl
  rw [h1, hfold self.markers Euler.array hU]

/-- `Saxpy` on a field whose force block vanishes on the valid box and whose velocity block
vanishes everywhere leaves the velocity block zero (the two blocks may overlap). -/
theorem Saxpy_still (Euler : MultiFab K) (a : K) (F V : Int)
    (hF : ∀ x y z n, Euler.validbox.contains x y z → (n = F ∨ n = F + 1 ∨ n = F + 2) →
      Euler.array x y z n = 0)
    (hV : ∀ x y z n, (n = V ∨ n = V + 1 ∨ n = V + 2) → Euler.array x y z n = 0) :
    ∀ x y z n, (n = V ∨ n = V + 1 ∨ n = V + 2) → (Saxpy Euler a F V 3).array x y z n = 0 := by
  have hfold : ∀ (l : List Nat) (mf : MultiFab K), (∀ c ∈ l, c < 3) →
      ((∀ x y z n, mf.validbox.contains x y z → (n = F ∨ n = F + 1 ∨ n = F + 2) →
          mf.array x y z n = 0) ∧
        (∀ x y z n, (n = V ∨ n = V + 1 ∨ n = V + 2) → mf.array x y z n = 0)) →
      (∀ x y z n, (n = V ∨ n = V + 1 ∨ n = V + 2) →
        (l.foldl (fun (mf : MultiFab K) (n : Nat) =>
          { mf with
            array := fun i j k m =>
              if mf.validbox.contains i j k ∧ m = V + n then
                mf.array i j k m + a * mf.array i j k (F + n)
              else mf.array i j k m }) mf).array x y z n = 0) := by
    intro l
    induction l with
    | nil => intro mf _ hQ; exact hQ.2
    | cons c l ih =>
      intro mf hl hQ
      rw [List.foldl_cons]
      have hc : c < 3 := hl c (List.mem_cons_self c l)
      have hFc : (F + (c : Int) = F ∨ F + (c : Int) = F + 1 ∨ F + (c : Int) = F + 2) := by
        omega
      refine ih _ (fun d hd => hl d (List.mem_cons_of_mem c hd)) ⟨?_, ?_⟩
      · intro x y z n hbox hn
        show (if mf.validbox.contains x y z ∧ n = V + c then
          mf.array x y z n + a * mf.array x y z (F + c) else mf.array x y z n) = 0
        rw [hQ.1 x y z n hbox hn, hQ.1 x y z (F + c) hbox hFc, mul_zero, add_zero, ite_self]
      · intro x y z n hn
        show (if mf.validbox.contains x y z ∧ n = V + c then
          mf.array x y z n + a * mf.array x y z (F + c) else mf.array x y z n) = 0
        by_cases hcond : mf.validbox.contains x y z ∧ n = V + c
        · rw [if_pos hcond, hQ.2 x y z n hn, hQ.1 x y z (F + c) hcond.1 hFc, mul_zero, add_zero]
        · rw [if_neg hcond, hQ.2 x y z n hn]
  exact hfold (List.range 3) Euler (fun c hc => List.mem_range.mp hc) ⟨hF, hV⟩

/-- One correction sub-iteration keeps a zero velocity block zero: the markers receive the
interpolated velocity `(0, 0, 0)`, which is what the spreading step scatters. -/
theorem correctionStep_still (sqrt : K → K) (kernel : kernel K) (dt : K)
    (type : DELTA_FUNCTION_TYPE) (s : mParticle K × MultiFab K)
    (hV : ∀ x y z n, (n = s.1.euler_velocity_index ∨ n = s.1.euler_velocity_index + 1 ∨
      n = s.1.euler_velocity_index + 2) → s.2.array x y z n = 0) :
    (correctionStep sqrt kernel dt type s).1.euler_velocity_index = s.1.euler_velocity_index ∧
    ∀ x y z n, (n = s.1.euler_velocity_index ∨ n = s.1.euler_velocity_index + 1 ∨
      n = s.1.euler_velocity_index + 2) →
      (correctionStep sqrt kernel dt type s).2.array x y z n = 0 := by
  have hE1V : ∀ x y z n, (n = s.1.euler_velocity_index ∨ n = s.1.euler_velocity_index + 1 ∨
      n = s.1.euler_velocity_index + 2) →
      (clearEulerForce s.2 s.1.euler_force_index).array x y z n = 0 := by
    intro x y z n hn
    show (if s.2.validbox.contains x y z ∧ (n = s.1.euler_force_index ∨
      n = s.1.euler_force_index + 1 ∨ n = s.1.euler_force_index + 2) then 0
      else s.2.array x y z n) = 0
    rw [hV x y z n hn, ite_self]
  have hE1F : ∀ x y z n, (clearEulerForce s.2 s.1.euler_force_index).validbox.contains x y z →
      (n = s.1.euler_force_index ∨ n = s.1.euler_force_index + 1 ∨
        n = s.1.euler_force_index + 2) →
      (clearEulerForce s.2 s.1.euler_force_index).array x y z n = 0 := by
    intro x y z n hbox hn
    have hbox' : s.2.validbox.contains x y z := hbox
    show (if s.2.validbox.contains x y z ∧ (n = s.1.euler_force_index ∨
      n = s.1.euler_force_index + 1 ∨ n = s.1.euler_force_index + 2) then 0
      else s.2.array x y z n) = 0
    rw [if_pos ⟨hbox', hn⟩]
  have hU : ∀ m ∈ (ComputeLagrangianForce (VelocityInterpolation sqrt s.1
      (clearEulerForce s.2 s.1.euler_force_index) type) dt kernel).markers,
      m.U_Marker = 0 ∧ m.V_Marker = 0 ∧ m.W_Marker = 0 := by
    intro m hm
    simp only [ComputeLagrangianForce, VelocityInterpolation, List.map_map,
      List.mem_map, Function.comp] at hm
    obtain ⟨m0, _, rfl⟩ := hm
    simp only [VelocityInterpolation_cir_zero sqrt m0.pos _ _ _ _ _ _ _ type hE1V, and_self]
  have hspread := ForceSpreading_zero sqrt (ComputeLagrangianForce (VelocityInterpolation sqrt s.1
      (clearEulerForce s.2 s.1.euler_force_index) type) dt kernel)
      (clearEulerForce s.2 s.1.euler_force_index) type hU
  have hstep : (correctionStep sqrt kernel dt type s).2
      = Saxpy (ForceSpreading sqrt (ComputeLagrangianForce (VelocityInterpolation sqrt s.1
          (clearEulerForce s.2 s.1.euler_force_index) type) dt kernel)
          (clearEulerForce s.2 s.1.euler_force_index) type) dt s.1.euler_force_index
          s.1.euler_velocity_index 3 := rfl
  refine ⟨rfl, ?_⟩
  rw [hstep, hspread]
  exact Saxpy_still _ dt _ _ hE1F hE1V

/-- Any number of correction sub-iterations keeps a zero velocity block zero. -/
theorem correctionStep_iterate_still (sqrt : K → K) (kernel : kernel K) (dt : K)
    (type : DELTA_FUNCTION_TYPE) (n : Nat) (s : mParticle K × MultiFab K)
    (hV : ∀ x y z n, (n = s.1.euler_velocity_index ∨ n = s.1.euler_velocity_index + 1 ∨
      n = s.1.euler_velocity_index + 2) → s.2.array x y z n = 0) :
    ((correctionStep sqrt kernel dt type)^[n] s).1.euler_velocity_index
      = s.1.euler_velocity_index ∧
    ∀ x y z m, (m = s.1.euler_velocity_index ∨ m = s.1.euler_velocity_index + 1 ∨
      m = s.1.euler_velocity_index + 2) →
      ((correctionStep sqrt kernel dt type)^[n] s).2.array x y z m = 0 := by
  induction n with
  | zero => exact ⟨rfl, hV⟩
  | succ n ih =>
    rw [Function.iterate_succ_apply']
    obtain ⟨h1, h2⟩ := ih
    have h := correctionStep_still sqrt kernel dt type
      ((correctionStep sqrt kernel dt type)^[n] s) (by rw [h1]; exact h2)
    rw [h1] at h
    exact h

/-- The state the loop `while(loop_time > 0)` returns is the body iterated `loop_time` times
(no time for `loop_time ≤ 0`). -/
theorem whileLoop_fst {S : Type} (body : S → S) (t : Int) (s : S) (c : Nat) :
    (whileLoop body t s c).1 = body^[t.toNat] s := by
  by_cases ht : t ≤ 0
  · rw [whileLoop_nonpos body t ht, Int.toNat_of_nonpos ht]
    rfl
  · have h0 : 0 ≤ t := by omega
    have e : t = ((t.toNat : Nat) : Int) := (Int.toNat_of_nonneg h0).symm
    rw [e, whileLoop_natCast, Int.toNat_natCast]

/-- Body at rest in still fluid with the four-point kernel: for a container with one body
that has zero velocity and zero angular velocity and whose markers all store zero force, a
velocity block that is zero at every node, `dt > 0`, a nonzero density contrast and any
sub-iteration count, after `InteractWithEuler` the body's velocity is `(0, 0, 0)`, its centre
is unchanged, and the velocity block is unchanged at every node. -/
theorem InteractWithEuler_at_rest_four_point (L : Libm K) (self : mParticle K) (k : kernel K)
    (Euler : MultiFab K) (loop_time : Int) (dt alpha_k : K)
    (hk : self.particle_kernels = [k]) (hv : k.velocity = ⟨0, 0, 0⟩)
    (hw : k.omega = ⟨0, 0, 0⟩)
    (hF : ∀ m ∈ self.markers, m.Fx_Marker = 0 ∧ m.Fy_Marker = 0 ∧ m.Fz_Marker = 0)
    (hE : ∀ x y z, Euler.array x y z self.euler_velocity_index = 0 ∧
      Euler.array x y z (self.euler_velocity_index + 1) = 0 ∧
      Euler.array x y z (self.euler_velocity_index + 2) = 0)
    (hdt : 0 < dt) (hrho : k.rho ≠ self.euler_fluid_rho) :
    (∃ k', (InteractWithEuler L self Euler loop_time dt alpha_k
        DELTA_FUNCTION_TYPE.FOUR_POINT_IB).self.particle_kernels = [k']
      ∧ k'.velocity = ⟨0, 0, 0⟩ ∧ k'.location = k.location) ∧
    ∀ x y z,
      (InteractWithEuler L self Euler loop_time dt alpha_k
        DELTA_FUNCTION_TYPE.FOUR_POINT_IB).Euler.array x y z
          self.euler_velocity_index
        = Euler.array x y z self.euler_velocity_index ∧
      (InteractWithEuler L self Euler loop_time dt alpha_k
        DELTA_FUNCTION_TYPE.FOUR_POINT_IB).Euler.array x y z
          (self.euler_velocity_index + 1)
        = Euler.array x y z (self.euler_velocity_index + 1) ∧
      (InteractWithEuler L self Euler loop_time dt alpha_k
        DELTA_FUNCTION_TYPE.FOUR_POINT_IB).Euler.array x y z
          (self.euler_velocity_index + 2)
        = Euler.array x y z (self.euler_velocity_index + 2) := by
  have hF1 : ∀ m ∈ (InitialWithLargrangianPoints L self k).markers,
      m.Fx_Marker = 0 ∧ m.Fy_Marker = 0 ∧ m.Fz_Marker = 0 :=
    InitialWithLargrangianPoints_attr L self k
      (fun m => m.Fx_Marker = 0 ∧ m.Fy_Marker = 0 ∧ m.Fz_Marker = 0) (fun m p h => h) hF
  obtain ⟨hv1, _, hl1⟩ := UpdateParticles_at_rest L (InitialWithLargrangianPoints L self k) k dt
    alpha_k hv hw hF1
  have hV0 : ∀ x y z n, (n = self.euler_velocity_index ∨ n = self.euler_velocity_index + 1 ∨
      n = self.euler_velocity_index + 2) → Euler.array x y z n = 0 := by
    intro x y z n hn
    rcases hn with h | h | h
    · rw [h]; exact (hE x y z).1
    · rw [h]; exact (hE x y z).2.1
    · rw [h]; exact (hE x y z).2.2
  have hkern : (InteractWithEuler L self Euler loop_time dt alpha_k
        DELTA_FUNCTION_TYPE.FOUR_POINT_IB).self.particle_kernels
      = [(UpdateParticles L (InitialWithLargrangianPoints L self k) k dt alpha_k).1] := by
    unfold InteractWithEuler
    rw [hk]
    rfl
  have hwhile : (InteractWithEuler L self Euler loop_time dt alpha_k
        DELTA_FUNCTION_TYPE.FOUR_POINT_IB).Euler
      = (whileLoop (correctionStep L.sqrt
            (UpdateParticles L (InitialWithLargrangianPoints L self k) k dt alpha_k).1 dt
          DELTA_FUNCTION_TYPE.FOUR_POINT_IB)
          loop_time
          ((UpdateParticles L (InitialWithLargrangianPoints L self k) k dt alpha_k).2, Euler)
          0).1.2 := by
    unfold InteractWithEuler
    rw [hk]
    rfl
  have hEuler : (InteractWithEuler L self Euler loop_time dt alpha_k
        DELTA_FUNCTION_TYPE.FOUR_POINT_IB).Euler
      = ((correctionStep L.sqrt (UpdateParticles L (InitialWithLargrangianPoints L self k) k dt
            alpha_k).1 dt
          DELTA_FUNCTION_TYPE.FOUR_POINT_IB)^[loop_time.toNat]
          ((UpdateParticles L (InitialWithLargrangianPoints L self k) k dt alpha_k).2, Euler)).2 := by
    rw [hwhile, whileLoop_fst]
  have hstill := (correctionStep_iterate_still L.sqrt
    (UpdateParticles L (InitialWithLargrangianPoints L self k) k dt alpha_k).1 dt DELTA_FUNCTION_TYPE.FOUR_POINT_IB
    loop_time.toNat
    ((UpdateParticles L (InitialWithLargrangianPoints L self k) k dt alpha_k).2, Euler) hV0).2
  refine ⟨⟨(UpdateParticles L (InitialWithLargrangianPoints L self k) k dt alpha_k).1, ?_, hv1,
    hl1⟩, ?_⟩
  · exact hkern
  · intro x y z
    rw [hEuler]
    refine ⟨?_, ?_, ?_⟩
    · rw [(hE x y z).1]
      exact hstill x y z _ (Or.inl rfl)
    · rw [(hE x y z).2.1]
      exact hstill x y z _ (Or.inr (Or.inl rfl))
    · rw [(hE x y z).2.2]
      exact hstill x y z _ (Or.inr (Or.inr rfl))

/-- One body of radius four cells at rest with its 201 fresh markers, a field that is zero
everywhere, three sub-iterations, `dt = 1/10`, `alpha_k = 1/2`, four-point kernel: after
`InteractWithEuler` the body has velocity `(0, 0, 0)` and centre `(8, 8, 8)`, and the
velocity block at the node `(8, 8, 8)` is zero as before. -/
theorem InteractWithEuler_at_rest_four_point_example :
    (InteractWithEuler sampleLibm restingParticles stillEuler 3 (1 / 10) (1 / 2)
        DELTA_FUNCTION_TYPE.FOUR_POINT_IB).self.particle_kernels.map
        (fun k => (k.velocity, k.location))
      = [(⟨0, 0, 0⟩, ⟨8, 8, 8⟩)] ∧
    (InteractWithEuler sampleLibm restingParticles stillEuler 3 (1 / 10) (1 / 2)
        DELTA_FUNCTION_TYPE.FOUR_POINT_IB).Euler.array 8 8 8 3 = 0 := by
  have hF : ∀ m ∈ restingParticles.markers,
      m.Fx_Marker = 0 ∧ m.Fy_Marker = 0 ∧ m.Fz_Marker = 0 := by
    intro m hm
    have hm' : m ∈ List.replicate 201 (⟨⟨0, 0, 0⟩, 0, 0, 0, 0, 0, 0⟩ : Marker ℚ) := hm
    rw [List.eq_of_mem_replicate hm']
    exact ⟨rfl, rfl, rfl⟩
  have hrho : restingKernel.rho ≠ restingParticles.euler_fluid_rho := by
    show (2 : ℚ) ≠ 1
    norm_num
  obtain ⟨⟨k', hk', hv', hl'⟩, hE'⟩ := InteractWithEuler_at_rest_four_point sampleLibm
    restingParticles restingKernel stillEuler 3 (1 / 10) (1 / 2) rfl rfl rfl hF
    (fun _ _ _ => ⟨rfl, rfl, rfl⟩) (by norm_num) hrho
  constructor
  · rw [hk', List.map_cons, List.map_nil, hv', hl']
    rfl
  · exact (hE' 8 8 8).1

end AtRest

/-! ## Volume coordinates of the grid-metrics helper -/

section VolCoord

variable {K : Type} [LinearOrderedField K] [FloorRing K]

/-- The entries of `GetEdgeLoc`: `hi - lo + 2` edge locations. -/
theorem GetEdgeLoc_eq (c : CoordSys K) (region : BOX) (dir : Nat) (hok : c.ok = true) :
    c.GetEdgeLoc region dir
      = some ((List.range (region.hiVect dir - region.loVect dir + 2).toNat).map (fun (i : Nat) =>
          c.offset dir + c.dx dir * ((region.loVect dir : K) + (i : K)))) := by
  unfold CoordSys.GetEdgeLoc
  rw [if_neg (by rw [hok]; decide)]
  simp only [Option.some.injEq]
  refine List.map_congr_left (fun i _ => ?_)
  ring

/-- The entries of `GetCellLoc`: `hi - lo + 1` cell-centre locations. -/
theorem GetCellLoc_eq (c : CoordSys K) (region : BOX) (dir : Nat) (hok : c.ok = true) :
    c.GetCellLoc region dir
      = some ((List.range (region.hiVect dir - region.loVect dir + 1).toNat).map (fun (i : Nat) =>
          c.offset dir + c.dx dir * ((region.loVect dir : K) + (i : K) + 1 / 2))) := by
  unfold CoordSys.GetCellLoc
  rw [if_neg (by rw [hok]; decide)]
  simp only [Option.some.injEq]
  refine List.map_congr_left (fun i _ => ?_)
  ring

/-- C29. With the flag `ok` set and a box with `lo[dir] ≤ hi[dir]`, `GetEdgeVolCoord`
returns `hi[dir] - lo[dir] + 2` entries and `GetCellVolCoord` returns
`hi[dir] - lo[dir] + 1` entries.  Entry `i` is the edge location
`offset[dir] + dx[dir] * (lo[dir] + i)`, respectively the cell centre
`offset[dir] + dx[dir] * (lo[dir] + i + 1/2)`, and it is replaced by half its square exactly
for the direction `0` of `RZ` coordinates (which exist in the two-dimensional build). -/
theorem GetVolCoord_entries (c : CoordSys K) (region : BOX) (dir : Nat)
    (hok : c.ok = true) (hbox : region.loVect dir ≤ region.hiVect dir) :
    (∃ vc : List K, c.GetEdgeVolCoord region dir = some vc ∧
      (vc.length : Int) = region.hiVect dir - region.loVect dir + 2 ∧
      ∀ i : Nat, i < vc.length → vc[i]? = some
        (if c.BL_SPACEDIM = 2 ∧ dir = 0 ∧ c.c_sys = CoordType.RZ then
          1 / 2 * (c.offset dir + c.dx dir * ((region.loVect dir : K) + (i : K))) ^ 2
        else c.offset dir + c.dx dir * ((region.loVect dir : K) + (i : K)))) ∧
    (∃ vc : List K, c.GetCellVolCoord region dir = some vc ∧
      (vc.length : Int) = region.hiVect dir - region.loVect dir + 1 ∧
      ∀ i : Nat, i < vc.length → vc[i]? = some
        (if c.BL_SPACEDIM = 2 ∧ dir = 0 ∧ c.c_sys = CoordType.RZ then
          1 / 2 * (c.offset dir + c.dx dir * ((region.loVect dir : K) + (i : K) + 1 / 2)) ^ 2
        else c.offset dir + c.dx dir * ((region.loVect dir : K) + (i : K) + 1 / 2))) := by
  constructor
  · unfold CoordSys.GetEdgeVolCoord
    rw [GetEdgeLoc_eq c region dir hok]
    by_cases hrz : c.BL_SPACEDIM = 2 ∧ dir = 0 ∧ c.c_sys = CoordType.RZ
    · simp only [if_pos hrz]
      refine ⟨_, rfl, ?_, ?_⟩
      · simp only [List.length_map, List.length_range]
        omega
      · intro i hi
        simp only [List.length_map, List.length_range] at hi
        simp only [List.getElem?_map, List.getElem?_range hi, Option.map_some', Option.some.injEq]
        ring
    · simp only [if_neg hrz]
      refine ⟨_, rfl, ?_, ?_⟩
      · simp only [List.length_map, List.length_range]
        omega
      · intro i hi
        simp only [List.length_map, List.length_range] at hi
        simp only [List.getElem?_map, List.getElem?_range hi, Option.map_some']
  · unfold CoordSys.GetCellVolCoord
    rw [GetCellLoc_eq c region dir hok]
    by_cases hrz : c.BL_SPACEDIM = 2 ∧ dir = 0 ∧ c.c_sys = CoordType.RZ
    · simp only [if_pos hrz]
      refine ⟨_, rfl, ?_, ?_⟩
      · simp only [List.length_map, List.length_range]
        omega
      · intro i hi
        simp only [List.length_map, List.length_range] at hi
        simp only [List.getElem?_map, List.getElem?_range hi, Option.map_some', Option.some.injEq]
        ring
    · simp only [if_neg hrz]
      refine ⟨_, rfl, ?_, ?_⟩
      · simp only [List.length_map, List.length_range]
        omega
      · intro i hi
        simp only [List.length_map, List.length_range] at hi
        simp only [List.getElem?_map, List.getElem?_range hi, Option.map_some']

/-- The `RZ` system with offset `1` and cell size `1/2` in the direction `0`, on the box
`[2, 3]`: three edges `2`, `5/2`, `3` give `2`, `25/8`, `9/2`, and two cell centres `9/4`,
`11/4` give `81/32`, `121/32`. -/
theorem GetVolCoord_entries_witness :
    sampleCoordSys.GetEdgeVolCoord sampleBOX 0 = some [2, 25 / 8, 9 / 2] ∧
    sampleCoordSys.GetCellVolCoord sampleBOX 0 = some [81 / 32, 121 / 32] := by
  obtain ⟨⟨ve, he, hle, hie⟩, ⟨vc, hc, hlc, hic⟩⟩ :=
    GetVolCoord_entries sampleCoordSys sampleBOX 0 rfl (by decide)
  have hle3 : ve.length = 3 := by
    have : (ve.length : Int) = 3 := by rw [hle]; decide
    exact_mod_cast this
  have hlc2 : vc.length = 2 := by
    have : (vc.length : Int) = 2 := by rw [hlc]; decide
    exact_mod_cast this
  have e0 := hie 0 (by omega)
  have e1 := hie 1 (by omega)
  have e2 := hie 2 (by omega)
  have c0 := hic 0 (by omega)
  have c1 := hic 1 (by omega)
  rw [he, hc]
  constructor
  · congr 1
    match ve, hle3, e0, e1, e2 with
    | [a, b, c], _, e0, e1, e2 =>
      simp only [List.getElem?_cons_zero, List.getElem?_cons_succ, Option.some.injEq] at e0 e1 e2
      rw [e0, e1, e2]
      norm_num [sampleCoordSys, sampleBOX]
  · congr 1
    match vc, hlc2, c0, c1 with
    | [a, b], _, c0, c1 =>
      simp only [List.getElem?_cons_zero, List.getElem?_cons_succ, Option.some.injEq] at c0 c1
      rw [c0, c1]
      norm_num [sampleCoordSys, sampleBOX]

end VolCoord

/-! ## The contract of `InitParticles` -/

section InitContract

variable {K : Type} [LinearOrderedField K] [FloorRing K]

/-- The conversion to `int` of a non-negative real between `n` and `n + 1`. -/
theorem truncToInt_eq (x : K) (n : Int) (h0 : (n : K) ≤ x) (h1 : x < (n : K) + 1)
    (hn : 0 ≤ n) : truncToInt x = n := by
  unfold truncToInt
  have hx : (0 : K) ≤ x := le_trans (by exact_mod_cast hn) h0
  rw [if_pos hx]
  exact Int.floor_eq_iff.mpr ⟨h0, h1⟩

/-- Radius `4` and cell size `1` with `pi = 22/7` give `201` markers. -/
theorem sample_marker_count_201 :
    truncToInt (sampleLibm.pi / 3 * (12 * (((4 : Int) : ℚ) / 1) ^ 2)) = 201 := by
  apply truncToInt_eq <;> norm_num [sampleLibm]

/-- Radius `1` and cell size `3` with `pi = 22/7` give one marker. -/
theorem sample_marker_count_one :
    truncToInt (sampleLibm.pi / 3 * (12 * (((1 : Int) : ℚ) / 3) ^ 2)) = 1 := by
  apply truncToInt_eq <;> norm_num [sampleLibm]

/-- Radius `0` gives no marker. -/
theorem marker_count_radius_zero (p h : K) :
    truncToInt (p / 3 * (12 * (((0 : Int) : K) / h) ^ 2)) = 0 := by
  apply truncToInt_eq <;> norm_num

/-- When the three arrays do not have the same length, `InitParticles` stores the three
arguments `force_index`, `rho_f`, `velocity_index`, prints its message and returns. -/
theorem InitParticles_of_length_ne (L : Libm K) (self : mParticle K) (x y z : List K)
    (rho_s : K) (radious : Int) (rho_f : K) (force_index velocity_index : Int)
    (h : ¬ (x.length = y.length ∧ x.length = z.length)) :
    InitParticles L self x y z rho_s radious rho_f force_index velocity_index
      = ({ particle_kernels := self.particle_kernels
           markers := self.markers
           euler_force_index := force_index
           euler_velocity_index := velocity_index
           euler_fluid_rho := rho_f
           plo := self.plo
           dx := self.dx }, true) := by
  unfold InitParticles
  rw [if_pos h]

/-- C21 (amended). Called with position arrays that do not all have the same length,
`InitParticles` prints its message and returns normally: the list of bodies, the marker
container, the origin and the cell size are those before the call, while the force index,
the velocity index and the fluid density are already overwritten with the arguments. -/
theorem InitParticles_length_mismatch (L : Libm K) (self : mParticle K) (x y z : List K)
    (rho_s : K) (radious : Int) (rho_f : K) (force_index velocity_index : Int)
    (h : ¬ (x.length = y.length ∧ x.length = z.length)) :
    (InitParticles L self x y z rho_s radious rho_f force_index velocity_index).2 = true ∧
    (InitParticles L self x y z rho_s radious rho_f force_index velocity_index).1
      = { self with
          euler_force_index := force_index
          euler_fluid_rho := rho_f
          euler_velocity_index := velocity_index } := by
  rw [InitParticles_of_length_ne L self x y z rho_s radious rho_f force_index velocity_index h]
  exact ⟨rfl, rfl⟩

/-- One `x`, no `y`, no `z`: the message is printed and the container keeps its body and its
marker. -/
theorem InitParticles_length_mismatch_witness :
    ¬ (([8] : List ℚ).length = ([] : List ℚ).length ∧
        ([8] : List ℚ).length = ([] : List ℚ).length) ∧
    (InitParticles sampleLibm sampleParticles [8] [] [] 2 4 5 7 9).2 = true ∧
    (InitParticles sampleLibm sampleParticles [8] [] [] 2 4 5 7 9).1
      = { sampleParticles with
          euler_force_index := 7
          euler_fluid_rho := 5
          euler_velocity_index := 9 } :=
  ⟨by decide,
   InitParticles_length_mismatch sampleLibm sampleParticles [8] [] [] 2 4 5 7 9 (by decide)⟩

/-- C21 (counterexample). One `x`, no `y`, no `z`, radius `0`, force index `7`, velocity
index `9`, fluid density `5`: the call returns a container, in which the three members are
overwritten (the force index was `0`), and this container is the one that the accepted call
with three empty arrays returns; the only difference between the two calls is the printed
message. -/
theorem InitParticles_mismatch_returns :
    (InitParticles sampleLibm sampleParticles [8] [] [] 2 0 5 7 9).2 = true ∧
    (InitParticles sampleLibm sampleParticles [8] [] [] 2 0 5 7 9).1.euler_force_index = 7 ∧
    (InitParticles sampleLibm sampleParticles [8] [] [] 2 0 5 7 9).1.euler_velocity_index = 9 ∧
    (InitParticles sampleLibm sampleParticles [8] [] [] 2 0 5 7 9).1.euler_fluid_rho = 5 ∧
    sampleParticles.euler_force_index = 0 ∧
    (InitParticles sampleLibm sampleParticles [] [] [] 2 0 5 7 9).2 = false ∧
    (InitParticles sampleLibm sampleParticles [8] [] [] 2 0 5 7 9).1
      = (InitParticles sampleLibm sampleParticles [] [] [] 2 0 5 7 9).1 := by
  rw [InitParticles_of_length_ne sampleLibm sampleParticles [8] [] [] 2 0 5 7 9 (by decide),
    InitParticles_of_length_eq sampleLibm sampleParticles [] [] [] 2 0 5 7 9 rfl rfl,
    marker_count_radius_zero]
  refine ⟨rfl, rfl, rfl, rfl, rfl, rfl, ?_⟩
  simp only [List.zip_nil_left, List.map_nil, List.append_nil, Int.toNat_zero,
    List.replicate_zero]

/-- C22 (amended). `InitParticles` does not examine the marker count: when the radius and
the cell size give `M ≤ 1` and the three arrays have the same length, it prints nothing and
appends one body for every position, each with the marker count `M`, and `M` markers. -/
theorem InitParticles_degenerate_marker_count (L : Libm K) (self : mParticle K)
    (x y z : List K) (rho_s : K) (radious : Int) (rho_f : K) (force_index velocity_index : Int)
    (hxy : x.length = y.length) (hxz : x.length = z.length)
    (hM : truncToInt (L.pi / 3 * (12 * ((radious : K) / self.dx.v0) ^ 2)) ≤ 1) :
    (InitParticles L self x y z rho_s radious rho_f force_index velocity_index).2 = false ∧
    (InitParticles L self x y z rho_s radious rho_f force_index
        velocity_index).1.particle_kernels.length = self.particle_kernels.length + x.length ∧
    (∀ k ∈ ((InitParticles L self x y z rho_s radious rho_f force_index
        velocity_index).1.particle_kernels.drop self.particle_kernels.length),
      k.ml = truncToInt (L.pi / 3 * (12 * ((radious : K) / self.dx.v0) ^ 2)) ∧ k.ml ≤ 1) ∧
    (InitParticles L self x y z rho_s radious rho_f force_index velocity_index).1.markers.length
      = self.markers.length
        + (truncToInt (L.pi / 3 * (12 * ((radious : K) / self.dx.v0) ^ 2))).toNat := by
  rw [InitParticles_of_length_eq L self x y z rho_s radious rho_f force_index velocity_index
    hxy hxz]
  refine ⟨rfl, ?_, ?_, ?_⟩
  · simp only [List.length_append, List.length_map, List.length_zip]
    omega
  · intro k hk
    simp only [List.drop_left] at hk
    obtain ⟨c, _, rfl⟩ := List.mem_map.mp hk
    exact ⟨rfl, hM⟩
  · simp only [List.length_append, List.length_replicate]

/-- An empty container with cell size `3`, one position and radius `1`, for which `M = 1`:
nothing is printed and the list of bodies has one element. -/
theorem InitParticles_degenerate_marker_count_witness :
    truncToInt (sampleLibm.pi / 3 * (12 * (((1 : Int) : ℚ) / 3) ^ 2)) ≤ 1 ∧
    (InitParticles sampleLibm
        { sampleParticles with particle_kernels := [], markers := [], dx := ⟨3, 3, 3⟩ }
        [8] [8] [8] 2 1 1 0 3).2 = false ∧
    (InitParticles sampleLibm
        { sampleParticles with particle_kernels := [], markers := [], dx := ⟨3, 3, 3⟩ }
        [8] [8] [8] 2 1 1 0 3).1.particle_kernels.length = 0 + 1 :=
  ⟨le_of_eq sample_marker_count_one,
   (InitParticles_degenerate_marker_count sampleLibm
      { sampleParticles with particle_kernels := [], markers := [], dx := ⟨3, 3, 3⟩ }
      [8] [8] [8] 2 1 1 0 3 rfl rfl (le_of_eq sample_marker_count_one)).1,
   (InitParticles_degenerate_marker_count sampleLibm
      { sampleParticles with particle_kernels := [], markers := [], dx := ⟨3, 3, 3⟩ }
      [8] [8] [8] 2 1 1 0 3 rfl rfl (le_of_eq sample_marker_count_one)).2.1⟩

/-- C22 (counterexample). An empty container with cell size `3`, one position `(8, 8, 8)`
and radius `1`, so that `M = 1`: `InitParticles` prints nothing and stores a body with the
marker count `1`, together with one marker.  With radius `0`, so that `M = 0`, it prints
nothing and stores a body with the marker count `0`. -/
theorem InitParticles_accepts_one_marker :
    (InitParticles sampleLibm
        { sampleParticles with particle_kernels := [], markers := [], dx := ⟨3, 3, 3⟩ }
        [8] [8] [8] 2 1 1 0 3).2 = false ∧
    (InitParticles sampleLibm
        { sampleParticles with particle_kernels := [], markers := [], dx := ⟨3, 3, 3⟩ }
        [8] [8] [8] 2 1 1 0 3).1.particle_kernels.map (fun k => (k.location, k.ml))
      = [(⟨8, 8, 8⟩, 1)] ∧
    (InitParticles sampleLibm
        { sampleParticles with particle_kernels := [], markers := [], dx := ⟨3, 3, 3⟩ }
        [8] [8] [8] 2 1 1 0 3).1.markers.length = 1 ∧
    (InitParticles sampleLibm
        { sampleParticles with particle_kernels := [], markers := [], dx := ⟨3, 3, 3⟩ }
        [8] [8] [8] 2 0 1 0 3).2 = false ∧
    (InitParticles sampleLibm
        { sampleParticles with particle_kernels := [], markers := [], dx := ⟨3, 3, 3⟩ }
        [8] [8] [8] 2 0 1 0 3).1.particle_kernels.map (fun k => (k.location, k.ml))
      = [(⟨8, 8, 8⟩, 0)] := by
  rw [InitParticles_of_length_eq sampleLibm
      { sampleParticles with particle_kernels := [], markers := [], dx := ⟨3, 3, 3⟩ }
      [8] [8] [8] 2 1 1 0 3 rfl rfl,
    InitParticles_of_length_eq sampleLibm
      { sampleParticles with particle_kernels := [], markers := [], dx := ⟨3, 3, 3⟩ }
      [8] [8] [8] 2 0 1 0 3 rfl rfl]
  have h1 : truncToInt (sampleLibm.pi / 3 * (12 * (((1 : Int) : ℚ) / 3) ^ 2)) = 1 :=
    sample_marker_count_one
  have h0 : truncToInt (sampleLibm.pi / 3 * (12 * (((0 : Int) : ℚ) / 3) ^ 2)) = 0 :=
    marker_count_radius_zero _ _
  simp only [h1, h0]
  exact ⟨trivial, rfl, rfl, trivial, rfl⟩

/-- C23. For position arrays of equal length `n`, `InitParticles` prints nothing and appends
exactly `n` body records in input order: the bodies already in the list keep their places
and values, and the body at place `old length + i` has the centre `(x[i], y[i], z[i])`, zero
velocity, zero angular velocity, zero orientation increment, the given radius and density
`rho_s`, and the marker count `M` and the volume `dv` that are computed once from the radius
and the cell size, hence the same for all `n` bodies. -/
theorem InitParticles_appends_bodies (L : Libm K) (self : mParticle K) (x y z : List K)
    (rho_s : K) (radious : Int) (rho_f : K) (force_index velocity_index : Int)
    (hxy : x.length = y.length) (hxz : x.length = z.length) :
    (InitParticles L self x y z rho_s radious rho_f force_index velocity_index).2 = false ∧
    (InitParticles L self x y z rho_s radious rho_f force_index
        velocity_index).1.particle_kernels.length = self.particle_kernels.length + x.length ∧
    (∀ i : Nat, i < self.particle_kernels.length →
      (InitParticles L self x y z rho_s radious rho_f force_index
        velocity_index).1.particle_kernels[i]? = self.particle_kernels[i]?) ∧
    (∀ (i : Nat) (a b c : K), x[i]? = some a → y[i]? = some b → z[i]? = some c →
      (InitParticles L self x y z rho_s radious rho_f force_index
        velocity_index).1.particle_kernels[self.particle_kernels.length + i]?
        = some
          { location := ⟨a, b, c⟩
            velocity := ⟨0, 0, 0⟩
            omega := ⟨0, 0, 0⟩
            varphi := ⟨0, 0, 0⟩
            radious := (radious : K)
            ml := truncToInt (L.pi / 3 * (12 * ((radious : K) / self.dx.v0) ^ 2))
            dv := L.pi * self.dx.v0 / 3
              / ((truncToInt (L.pi / 3 * (12 * ((radious : K) / self.dx.v0) ^ 2)) : Int) : K)
              * (((wrapInt32 (wrapInt32 (12 * radious) * radious) : Int) : K)
                + self.dx.v0 * self.dx.v0)
            rho := rho_s }) := by
  rw [InitParticles_of_length_eq L self x y z rho_s radious rho_f force_index velocity_index
    hxy hxz]
  refine ⟨rfl, ?_, ?_, ?_⟩
  · simp only [List.length_append, List.length_map, List.length_zip]
    omega
  · intro i hi
    exact List.getElem?_append_left hi
  · intro i a b c ha hb hc
    have hz : (List.zip x (List.zip y z))[i]? = some (a, b, c) := by
      rw [List.getElem?_zip_eq_some]
      refine ⟨ha, ?_⟩
      rw [List.getElem?_zip_eq_some]
      exact ⟨hb, hc⟩
    show (self.particle_kernels ++ _)[self.particle_kernels.length + i]? = _
    rw [List.getElem?_append_right (Nat.le_add_right _ _), Nat.add_sub_cancel_left,
      List.getElem?_map, hz]
    rfl

/-- An empty container, two positions `(8, 8, 8)` and `(24, 9, 10)`, radius `4`: two bodies,
the second one centred at `(24, 9, 10)` with radius `4` and density `2`. -/
theorem InitParticles_appends_bodies_witness :
    ([8, 24] : List ℚ).length = ([8, 9] : List ℚ).length ∧
    ([8, 24] : List ℚ).length = ([8, 10] : List ℚ).length ∧
    (InitParticles sampleLibm { sampleParticles with particle_kernels := [], markers := [] }
        [8, 24] [8, 9] [8, 10] 2 4 1 0 3).1.particle_kernels.length = 0 + 2 ∧
    ((InitParticles sampleLibm { sampleParticles with particle_kernels := [], markers := [] }
        [8, 24] [8, 9] [8, 10] 2 4 1 0 3).1.particle_kernels[0 + 1]?).map
          (fun k => (k.location, k.velocity, k.omega, k.varphi, k.radious, k.rho))
      = some (⟨24, 9, 10⟩, ⟨0, 0, 0⟩, ⟨0, 0, 0⟩, ⟨0, 0, 0⟩, 4, 2) :=
  ⟨rfl, rfl,
   (InitParticles_appends_bodies sampleLibm
      { sampleParticles with particle_kernels := [], markers := [] }
      [8, 24] [8, 9] [8, 10] 2 4 1 0 3 rfl rfl).2.1,
   (congrArg (Option.map (fun k => (k.location, k.velocity, k.omega, k.varphi, k.radious, k.rho)))
      ((InitParticles_appends_bodies sampleLibm
        { sampleParticles with particle_kernels := [], markers := [] }
        [8, 24] [8, 9] [8, 10] 2 4 1 0 3 rfl rfl).2.2.2 1 24 9 10 rfl rfl rfl)).trans
      (by simp only [Option.map_some', Int.cast_ofNat])⟩

/-- After the sampling loop has run for at least one index, the first marker carries the
first point of the sphere of the body; its attributes are kept. -/
theorem lagrangianPoints_fold_first (L : Libm K) (k : kernel K) (ms : List (Marker K))
    (n : Nat) :
    ((List.range (n + 1)).foldl (lagrangianPointStep L k) (0, ms)).2[0]?
      = (ms[0]?).map (fun m =>
          { m with
            pos := ⟨k.location.v0 + k.radious * L.sin (L.acos (-1)) * L.cos 0,
                    k.location.v1 + k.radious * L.sin (L.acos (-1)) * L.sin 0,
                    k.location.v2 + k.radious * L.cos (L.acos (-1))⟩ }) := by
  induction n with
  | zero =>
    have h : (List.range (0 + 1)).foldl (lagrangianPointStep L k) (0, ms)
        = lagrangianPointStep L k (0, ms) 0 := rfl
    rw [h]
    unfold lagrangianPointStep
    simp only [true_or, if_true, Nat.cast_zero, mul_zero, zero_div, add_zero,
      List.getElem?_modify_eq]
    rfl
  | succ n ih =>
    rw [List.range_succ, List.foldl_append, List.foldl_cons, List.foldl_nil]
    generalize (List.range (n + 1)).foldl (lagrangianPointStep L k) (0, ms) = r at ih ⊢
    obtain ⟨p, l⟩ := r
    unfold lagrangianPointStep
    simp only at ih ⊢
    rw [List.getElem?_modify_ne _ _ (Nat.succ_ne_zero n)]
    exact ih

/-- C24 (amended). The markers are shared by all bodies.  For position arrays of equal
length `n`, `InitParticles` appends `M` markers in total, whatever `n` is.  The sampling
run for a body rewrites the markers `0, ..., ml - 1` of the container: run for a body `k2`
after the sampling for another body `k1`, it leaves in these markers the same positions as
without the sampling for `k1`; and the first marker receives the first point of the sphere
of whichever body was sampled last. -/
theorem InitParticles_shared_markers (L : Libm K) (self : mParticle K) (x y z : List K)
    (rho_s : K) (radious : Int) (rho_f : K) (force_index velocity_index : Int)
    (hxy : x.length = y.length) (hxz : x.length = z.length) :
    (InitParticles L self x y z rho_s radious rho_f force_index velocity_index).1.markers.length
      = self.markers.length
        + (truncToInt (L.pi / 3 * (12 * ((radious : K) / self.dx.v0) ^ 2))).toNat ∧
    (∀ (s : mParticle K) (k1 k2 : kernel K) (i : Nat), i < k2.ml.toNat →
      ((InitialWithLargrangianPoints L (InitialWithLargrangianPoints L s k1) k2).markers[i]?).map
          Marker.pos
        = ((InitialWithLargrangianPoints L s k2).markers[i]?).map Marker.pos) ∧
    (∀ (s : mParticle K) (k : kernel K), 1 < k.ml →
      ((InitialWithLargrangianPoints L s k).markers[0]?).map Marker.pos
        = (s.markers[0]?).map (fun _ =>
            (⟨k.location.v0 + k.radious * L.sin (L.acos (-1)) * L.cos 0,
              k.location.v1 + k.radious * L.sin (L.acos (-1)) * L.sin 0,
              k.location.v2 + k.radious * L.cos (L.acos (-1))⟩ : RealVect K))) := by
  refine ⟨?_, ?_, ?_⟩
  · rw [InitParticles_of_length_eq L self x y z rho_s radious rho_f force_index velocity_index
      hxy hxz]
    simp only [List.length_append, List.length_replicate]
  · intro s k1 k2 i hi
    rw [InitialWithLargrangianPoints_eq_fold L (InitialWithLargrangianPoints L s k1) k2,
      InitialWithLargrangianPoints_eq_fold L s k2]
    have hlen : (InitialWithLargrangianPoints L s k1).markers.length = s.markers.length := by
      rw [InitialWithLargrangianPoints_eq_fold L s k1]
      exact (lagrangianPoints_fold_pos L k1 s.markers s.markers rfl k1.ml.toNat).2.1
    exact (lagrangianPoints_fold_pos L k2 _ _ hlen k2.ml.toNat).2.2.2 i hi
  · intro s k hk
    rw [InitialWithLargrangianPoints_eq_fold L s k]
    obtain ⟨n, hn⟩ : ∃ n : Nat, k.ml.toNat = n + 1 := ⟨k.ml.toNat - 1, by omega⟩
    show Option.map Marker.pos
      (((List.range k.ml.toNat).foldl (lagrangianPointStep L k) (0, s.markers)).2[0]?) = _
    rw [hn, lagrangianPoints_fold_first L k s.markers n, Option.map_map]
    rfl

/-- An empty container, two positions and radius `4` on cells of size `1`: `201` markers,
and not twice as many, are appended. -/
theorem InitParticles_shared_markers_witness :
    ([8, 24] : List ℚ).length = ([8, 8] : List ℚ).length ∧
    (InitParticles sampleLibm { sampleParticles with particle_kernels := [], markers := [] }
        [8, 24] [8, 8] [8, 8] 2 4 1 0 3).1.markers.length = 0 + 201 :=
  ⟨rfl,
   ((InitParticles_shared_markers sampleLibm
      { sampleParticles with particle_kernels := [], markers := [] }
      [8, 24] [8, 8] [8, 8] 2 4 1 0 3 rfl rfl).1).trans
     (congrArg (fun m : Int => 0 + m.toNat) sample_marker_count_201)⟩

/-- C24 (counterexample). An empty container, the two positions `(8, 8, 8)` and
`(24, 8, 8)`, radius `4` and cell size `1`: two bodies with `M = 201` markers each are
stored, and the marker container holds `201` markers, not `2 * 201`. -/
theorem InitParticles_two_bodies_one_marker_set :
    (InitParticles sampleLibm { sampleParticles with particle_kernels := [], markers := [] }
        [8, 24] [8, 8] [8, 8] 2 4 1 0 3).1.particle_kernels.map (fun k => k.ml) = [201, 201] ∧
    (InitParticles sampleLibm { sampleParticles with particle_kernels := [], markers := [] }
        [8, 24] [8, 8] [8, 8] 2 4 1 0 3).1.markers.length = 201 ∧
    (201 : Nat) ≠ 2 * 201 := by
  rw [InitParticles_of_length_eq sampleLibm
      { sampleParticles with particle_kernels := [], markers := [] }
      [8, 24] [8, 8] [8, 8] 2 4 1 0 3 rfl rfl]
  have h1 : truncToInt (sampleLibm.pi / 3 * (12 * (((4 : Int) : ℚ) / sampleParticles.dx.v0) ^ 2))
      = 201 := sample_marker_count_201
  simp only [h1]
  refine ⟨rfl, ?_, by decide⟩
  simp only [List.nil_append, List.length_replicate]
  rfl

end InitContract

/-! ## What `InteractWithEuler` leaves alone -/

section Frame

variable {K : Type} [LinearOrderedField K] [FloorRing K]

/-- The `for` loop of `InteractWithEuler` appends to `visited` one record for every body, with
the marker count, the marker volume, the radius and the density of that body. -/
theorem foldl_interactBody_constants (L : Libm K) (dt alpha_k : K) (type : DELTA_FUNCTION_TYPE)
    (ks : List (kernel K)) (st : InteractState K) :
    (ks.foldl (interactBody L dt alpha_k type) st).visited.map
        (fun k => (k.ml, k.dv, k.radious, k.rho))
      = st.visited.map (fun k => (k.ml, k.dv, k.radious, k.rho))
        ++ ks.map (fun k => (k.ml, k.dv, k.radious, k.rho)) := by
  induction ks generalizing st with
  | nil => simp
  | cons k ks ih =>
    rw [List.foldl_cons, ih]
    simp only [interactBody, List.map_append, List.map_cons, List.map_nil, List.append_assoc,
      List.singleton_append]
    rfl

/-- C25. For every call of `InteractWithEuler` (any `dt`, `alpha_k`, sub-iteration count and
kernel variant) the bodies of the container after the call are as many as before, and each
body has the marker count `ml`, the marker volume `dv`, the radius and the density that it
had before the call. -/
theorem InteractWithEuler_keeps_body_constants (L : Libm K) (self : mParticle K)
    (Euler : MultiFab K) (loop_time : Int) (dt alpha_k : K) (type : DELTA_FUNCTION_TYPE) :
    (InteractWithEuler L self Euler loop_time dt alpha_k type).self.particle_kernels.map
        (fun k => (k.ml, k.dv, k.radious, k.rho))
      = self.particle_kernels.map (fun k => (k.ml, k.dv, k.radious, k.rho)) := by
  have h := foldl_interactBody_constants L dt alpha_k type self.particle_kernels
    { self := self, Euler := Euler, loop_time := loop_time, visited := [], passes := [] }
  simp only [List.map_nil, List.nil_append] at h
  exact h

/-- Clearing the force block does not write outside it. -/
theorem clearEulerForce_frame (Euler : MultiFab K) (F : Int) (i j k n : Int)
    (hF : n < F ∨ F + 2 < n) : (clearEulerForce Euler F).array i j k n = Euler.array i j k n := by
  unfold clearEulerForce
  have h : ¬ (Euler.validbox.contains i j k ∧ (n = F ∨ n = F + 1 ∨ n = F + 2)) := by
    rintro ⟨_, h⟩
    omega
  simp only [if_neg h]

/-- Spreading one marker does not write outside the force block. -/
theorem ForceSpreading_cic_frame (sqrt : K → K) (pos : RealVect K) (fxP fyP fzP : K)
    (E : Array4 K) (F : Int) (plo dx : RealVect K) (type : DELTA_FUNCTION_TYPE)
    (x y z n : Int) (hF : n < F ∨ F + 2 < n) :
    ForceSpreading_cic sqrt pos fxP fyP fzP E F plo dx type x y z n = E x y z n := by
  rw [ForceSpreading_cic_apply]
  have h0 : n ≠ F := by omega
  have h1 : n ≠ F + 1 := by omega
  have h2 : n ≠ F + 2 := by omega
  simp only [if_neg h0, if_neg h1, if_neg h2, ite_self, add_zero]

/-- Spreading all markers does not write outside the force block. -/
theorem ForceSpreading_frame (sqrt : K → K) (self : mParticle K) (Euler : MultiFab K)
    (type : DELTA_FUNCTION_TYPE) (x y z n : Int)
    (hF : n < self.euler_force_index ∨ self.euler_force_index + 2 < n) :
    (ForceSpreading sqrt self Euler type).array x y z n = Euler.array x y z n := by
  have h : ∀ (ms : List (Marker K)) (E : Array4 K),
      ms.foldl (fun E m => ForceSpreading_cic sqrt m.pos m.U_Marker m.V_Marker m.W_Marker E
        self.euler_force_index self.plo self.dx type) E x y z n = E x y z n := by
    intro ms
    induction ms with
    | nil => intro E; rfl
    | cons m ms ih =>
      intro E
      rw [List.foldl_cons, ih]
      exact ForceSpreading_cic_frame sqrt _ _ _ _ E _ _ _ type x y z n hF
  exact h self.markers Euler.array

/-- `Saxpy` does not write outside the destination block. -/
theorem Saxpy_frame (Euler : MultiFab K) (a : K) (src dst : Int) (numcomp : Nat)
    (i j k m : Int) (hm : m < dst ∨ dst + (numcomp : Int) - 1 < m) :
    (Saxpy Euler a src dst numcomp).array i j k m = Euler.array i j k m := by
  unfold Saxpy
  induction numcomp with
  | zero => rfl
  | succ n ih =>
    rw [List.range_succ, List.foldl_append, List.foldl_cons, List.foldl_nil]
    have hne : ¬ ((List.foldl (fun (mf : MultiFab K) (n : Nat) =>
        ({ mf with
          array := fun i j k m =>
            if mf.validbox.contains i j k ∧ m = dst + n then
              mf.array i j k m + a * mf.array i j k (src + n)
            else mf.array i j k m } : MultiFab K)) Euler (List.range n)).validbox.contains i j k
        ∧ m = dst + (n : Int)) := by
      rintro ⟨_, h⟩
      push_cast at hm
      omega
    simp only [if_neg hne]
    apply ih
    push_cast at hm
    omega

/-- One pass of the correction loop keeps the two indices of the container and does not
write outside the force block and the velocity block. -/
theorem correctionStep_frame (sqrt : K → K) (kernel : kernel K) (dt : K)
    (type : DELTA_FUNCTION_TYPE) (s : mParticle K × MultiFab K) :
    (correctionStep sqrt kernel dt type s).1.euler_force_index = s.1.euler_force_index ∧
    (correctionStep sqrt kernel dt type s).1.euler_velocity_index = s.1.euler_velocity_index ∧
    ∀ i j k n : Int, (n < s.1.euler_force_index ∨ s.1.euler_force_index + 2 < n) →
      (n < s.1.euler_velocity_index ∨ s.1.euler_velocity_index + 2 < n) →
      (correctionStep sqrt kernel dt type s).2.array i j k n = s.2.array i j k n := by
  refine ⟨rfl, rfl, ?_⟩
  intro i j k n hF hV
  show (Saxpy (ForceSpreading sqrt (ComputeLagrangianForce (VelocityInterpolation sqrt s.1
      (clearEulerForce s.2 s.1.euler_force_index) type) dt kernel)
      (clearEulerForce s.2 s.1.euler_force_index) type) dt s.1.euler_force_index
      s.1.euler_velocity_index 3).array i j k n = _
  rw [Saxpy_frame _ _ _ _ 3 i j k n (by push_cast; omega),
    ForceSpreading_frame sqrt (ComputeLagrangianForce (VelocityInterpolation sqrt s.1
      (clearEulerForce s.2 s.1.euler_force_index) type) dt kernel) _ type i j k n hF,
    clearEulerForce_frame _ _ i j k n hF]

/-- Any number of passes of the correction loop keeps the two indices and does not write
outside the two blocks. -/
theorem correctionStep_iterate_frame (sqrt : K → K) (kernel : kernel K) (dt : K)
    (type : DELTA_FUNCTION_TYPE) (t : Nat) (s : mParticle K × MultiFab K) :
    ((correctionStep sqrt kernel dt type)^[t] s).1.euler_force_index = s.1.euler_force_index ∧
    ((correctionStep sqrt kernel dt type)^[t] s).1.euler_velocity_index
      = s.1.euler_velocity_index ∧
    ∀ i j k n : Int, (n < s.1.euler_force_index ∨ s.1.euler_force_index + 2 < n) →
      (n < s.1.euler_velocity_index ∨ s.1.euler_velocity_index + 2 < n) →
      ((correctionStep sqrt kernel dt type)^[t] s).2.array i j k n = s.2.array i j k n := by
  induction t with
  | zero => exact ⟨rfl, rfl, fun _ _ _ _ _ _ => rfl⟩
  | succ t ih =>
    rw [Function.iterate_succ_apply']
    obtain ⟨h1, h2, h3⟩ := ih
    obtain ⟨g1, g2, g3⟩ := correctionStep_frame sqrt kernel dt type
      ((correctionStep sqrt kernel dt type)^[t] s)
    refine ⟨g1.trans h1, g2.trans h2, ?_⟩
    intro i j k n hF hV
    rw [g3 i j k n (by rw [h1]; exact hF) (by rw [h2]; exact hV)]
    exact h3 i j k n hF hV

/-- The work for one body keeps the two indices and does not write outside the two
blocks. -/
theorem interactBody_frame (L : Libm K) (dt alpha_k : K) (type : DELTA_FUNCTION_TYPE)
    (st : InteractState K) (kernel : kernel K) :
    (interactBody L dt alpha_k type st kernel).self.euler_force_index
      = st.self.euler_force_index ∧
    (interactBody L dt alpha_k type st kernel).self.euler_velocity_index
      = st.self.euler_velocity_index ∧
    ∀ i j k n : Int, (n < st.self.euler_force_index ∨ st.self.euler_force_index + 2 < n) →
      (n < st.self.euler_velocity_index ∨ st.self.euler_velocity_index + 2 < n) →
      (interactBody L dt alpha_k type st kernel).Euler.array i j k n
        = st.Euler.array i j k n := by
  unfold interactBody
  simp only [whileLoop_fst]
  exact correctionStep_iterate_frame L.sqrt _ dt type _ _

/-- The `for` loop over the bodies keeps the two indices and does not write outside the two
blocks. -/
theorem foldl_interactBody_frame (L : Libm K) (dt alpha_k : K) (type : DELTA_FUNCTION_TYPE)
    (ks : List (kernel K)) (st : InteractState K) :
    (ks.foldl (interactBody L dt alpha_k type) st).self.euler_force_index
      = st.self.euler_force_index ∧
    (ks.foldl (interactBody L dt alpha_k type) st).self.euler_velocity_index
      = st.self.euler_velocity_index ∧
    ∀ i j k n : Int, (n < st.self.euler_force_index ∨ st.self.euler_force_index + 2 < n) →
      (n < st.self.euler_velocity_index ∨ st.self.euler_velocity_index + 2 < n) →
      (ks.foldl (interactBody L dt alpha_k type) st).Euler.array i j k n
        = st.Euler.array i j k n := by
  induction ks generalizing st with
  | nil => exact ⟨rfl, rfl, fun _ _ _ _ _ _ => rfl⟩
  | cons kn ks ih =>
    rw [List.foldl_cons]
    obtain ⟨h1, h2, h3⟩ := ih (interactBody L dt alpha_k type st kn)
    obtain ⟨g1, g2, g3⟩ := interactBody_frame L dt alpha_k type st kn
    refine ⟨h1.trans g1, h2.trans g2, ?_⟩
    intro i j k n hF hV
    rw [h3 i j k n (by rw [g1]; exact hF) (by rw [g2]; exact hV)]
    exact g3 i j k n hF hV

/-- C26. `InteractWithEuler` writes only the force block and the velocity block: at every
grid node, a component `n` outside `[force_index, force_index + 2]` and outside
`[velocity_index, velocity_index + 2]` has after the call the value it had before. -/
theorem InteractWithEuler_frame (L : Libm K) (self : mParticle K) (Euler : MultiFab K)
    (loop_time : Int) (dt alpha_k : K) (type : DELTA_FUNCTION_TYPE) (i j k n : Int)
    (hF : n < self.euler_force_index ∨ self.euler_force_index + 2 < n)
    (hV : n < self.euler_velocity_index ∨ self.euler_velocity_index + 2 < n) :
    (InteractWithEuler L self Euler loop_time dt alpha_k type).Euler.array i j k n
      = Euler.array i j k n :=
  (foldl_interactBody_frame L dt alpha_k type self.particle_kernels
    { self := self, Euler := Euler, loop_time := loop_time, visited := [],
      passes := [] }).2.2 i j k n hF hV

/-- The sample container (force block `0..2`, velocity block `3..5`) and two passes: the
component `6` at the node `(0, 0, 0)`, next to the marker, is unchanged. -/
theorem InteractWithEuler_frame_witness :
    ((6 : Int) < sampleParticles.euler_force_index ∨ sampleParticles.euler_force_index + 2 < 6) ∧
    ((6 : Int) < sampleParticles.euler_velocity_index ∨
      sampleParticles.euler_velocity_index + 2 < 6) ∧
    (InteractWithEuler sampleLibm sampleParticles sampleEuler 2 1 (1 / 2)
        DELTA_FUNCTION_TYPE.FOUR_POINT_IB).Euler.array 0 0 0 6 = sampleEuler.array 0 0 0 6 :=
  ⟨Or.inr (by decide), Or.inr (by decide),
   InteractWithEuler_frame sampleLibm sampleParticles sampleEuler 2 1 (1 / 2)
     DELTA_FUNCTION_TYPE.FOUR_POINT_IB 0 0 0 6 (Or.inr (by decide)) (Or.inr (by decide))⟩

end Frame

/-! ## Order independence of spreading -/

section SpreadOrder

variable {K : Type} [LinearOrderedField K] [FloorRing K]

/-- Spreading one marker onto a field adds to every entry what spreading the same marker onto
the zero field produces. -/
theorem ForceSpreading_cic_add (sqrt : K → K) (pos : RealVect K) (fxP fyP fzP : K)
    (E : Array4 K) (F : Int) (plo dx : RealVect K) (type : DELTA_FUNCTION_TYPE)
    (x y z n : Int) :
    ForceSpreading_cic sqrt pos fxP fyP fzP E F plo dx type x y z n
      = E x y z n
        + ForceSpreading_cic sqrt pos fxP fyP fzP (fun _ _ _ _ => 0) F plo dx type x y z n := by
  rw [ForceSpreading_cic_apply sqrt pos fxP fyP fzP E,
    ForceSpreading_cic_apply sqrt pos fxP fyP fzP (fun _ _ _ _ => 0), zero_add]

/-- Spreading a list of markers onto a field adds to every entry the sum of what each marker
spreads onto the zero field. -/
theorem foldl_ForceSpreading_cic_sum (sqrt : K → K) (F : Int) (plo dx : RealVect K)
    (type : DELTA_FUNCTION_TYPE) (ms : List (Marker K)) (E : Array4 K) (x y z n : Int) :
    ms.foldl (fun E m => ForceSpreading_cic sqrt m.pos m.U_Marker m.V_Marker m.W_Marker E
        F plo dx type) E x y z n
      = E x y z n + (ms.map (fun m => ForceSpreading_cic sqrt m.pos m.U_Marker m.V_Marker
          m.W_Marker (fun _ _ _ _ => 0) F plo dx type x y z n)).sum := by
  induction ms generalizing E with
  | nil => simp
  | cons m ms ih =>
    rw [List.foldl_cons, ih, ForceSpreading_cic_add, List.map_cons, List.sum_cons, add_assoc]

/-- C27. Spreading is order-independent.  For two markers `A` and `B` and any field,
`ForceSpreading_cic` for `A` and then for `B` gives the same field as for `B` and then for
`A`.  For a container, every entry of the field after `ForceSpreading` is the entry before
plus the sum over the markers of what each marker alone spreads onto the zero field, and two
containers whose marker lists are permutations of each other (same force index, origin and
cell size) produce the same field. -/
theorem ForceSpreading_order_independent (sqrt : K → K) (type : DELTA_FUNCTION_TYPE) :
    (∀ (posA posB : RealVect K) (fxA fyA fzA fxB fyB fzB : K) (E : Array4 K) (F : Int)
        (plo dx : RealVect K),
      ForceSpreading_cic sqrt posB fxB fyB fzB
          (ForceSpreading_cic sqrt posA fxA fyA fzA E F plo dx type) F plo dx type
        = ForceSpreading_cic sqrt posA fxA fyA fzA
          (ForceSpreading_cic sqrt posB fxB fyB fzB E F plo dx type) F plo dx type) ∧
    (∀ (self : mParticle K) (Euler : MultiFab K) (x y z n : Int),
      (ForceSpreading sqrt self Euler type).array x y z n
        = Euler.array x y z n
          + (self.markers.map (fun m => ForceSpreading_cic sqrt m.pos m.U_Marker m.V_Marker
              m.W_Marker (fun _ _ _ _ => 0) self.euler_force_index self.plo self.dx type
              x y z n)).sum) ∧
    (∀ (self1 self2 : mParticle K) (Euler : MultiFab K),
      self1.markers.Perm self2.markers →
      self1.euler_force_index = self2.euler_force_index →
      self1.plo = self2.plo → self1.dx = self2.dx →
      ForceSpreading sqrt self1 Euler type = ForceSpreading sqrt self2 Euler type) := by
  refine ⟨?_, ?_, ?_⟩
  · intro posA posB fxA fyA fzA fxB fyB fzB E F plo dx
    funext x y z n
    rw [ForceSpreading_cic_add sqrt posB, ForceSpreading_cic_add sqrt posA fxA fyA fzA E,
      ForceSpreading_cic_add sqrt posA fxA fyA fzA (ForceSpreading_cic sqrt posB fxB fyB fzB E
        F plo dx type), ForceSpreading_cic_add sqrt posB fxB fyB fzB E]
    exact add_right_comm _ _ _
  · intro self Euler x y z n
    exact foldl_ForceSpreading_cic_sum sqrt self.euler_force_index self.plo self.dx type
      self.markers Euler.array x y z n
  · intro self1 self2 Euler hperm hF hplo hdx
    have harr : (ForceSpreading sqrt self1 Euler type).array
        = (ForceSpreading sqrt self2 Euler type).array := by
      funext x y z n
      have h1 := foldl_ForceSpreading_cic_sum sqrt self1.euler_force_index self1.plo self1.dx
        type self1.markers Euler.array x y z n
      have h2 := foldl_ForceSpreading_cic_sum sqrt self2.euler_force_index self2.plo self2.dx
        type self2.markers Euler.array x y z n
      refine h1.trans (Eq.trans ?_ h2.symm)
      rw [hF, hplo, hdx]
      exact congrArg _ ((hperm.map _).sum_eq)
    unfold ForceSpreading at harr ⊢
    simp only at harr
    rw [harr]

end SpreadOrder

/-! ## The node coordinate and the domain origin -/

section Origin

variable {K : Type} [LinearOrderedField K] [FloorRing K]

/-- Both kernels vanish at a distance of two cell widths or more. -/
theorem deltaFunction_far (sqrt : K → K) (xf xp h : K) (type : DELTA_FUNCTION_TYPE)
    (hfar : 2 ≤ abs ((xf - xp) / h)) : deltaFunction sqrt xf xp h type = 0 := by
  unfold deltaFunction
  cases type
  · have h1 : ¬ (abs ((xf - xp) / h) ≥ 0 ∧ abs ((xf - xp) / h) < 1 / 2) := by
      rintro ⟨_, h⟩
      linarith
    have h2 : ¬ (abs ((xf - xp) / h) ≥ 1 ∧ abs ((xf - xp) / h) < 2) := by
      rintro ⟨_, h⟩
      linarith
    simp only [if_neg h1, if_neg h2]
  · have h1 : ¬ (abs ((xf - xp) / h) ≥ 0 ∧ abs ((xf - xp) / h) < 1) := by
      rintro ⟨_, h⟩
      linarith
    have h2 : ¬ (abs ((xf - xp) / h) ≥ 1 ∧ abs ((xf - xp) / h) < 2) := by
      rintro ⟨_, h⟩
      linarith
    simp only [if_neg h1, if_neg h2]

/-- The weight of a node is `0` when the coordinate computed for it is two cell widths or
more away from the marker along the first axis. -/
theorem delta_value_far (sqrt : K → K) (pos dx : RealVect K) (type : DELTA_FUNCTION_TYPE)
    (i j k ii jj kk : Int)
    (hfar : 2 ≤ abs ((pos.v0 - (((i + ii : Int) : K) * dx.v0 + dx.v0 / 2)) / dx.v0)) :
    delta_value sqrt pos dx type i j k ii jj kk = 0 := by
  unfold delta_value
  simp only [deltaFunction_far sqrt pos.v0 _ dx.v0 type hfar, zero_mul]

/-- For the origin `10`, cell size `1` and the marker coordinate `21/2`, every coordinate
`(0 + ii) * 1 + 1/2` of the stencil is at least eight cells away from the marker. -/
theorem sample_origin_far (ii : Int) (hii : ii ∈ stencilOffsets) :
    (2 : ℚ) ≤ abs ((21 / 2 - (((0 + ii : Int) : ℚ) * 1 + 1 / 2)) / 1) := by
  have h := (mem_stencilOffsets ii).mp hii
  have h2 : (ii : ℚ) ≤ 2 := by exact_mod_cast h.2
  refine le_trans ?_ (le_abs_self _)
  push_cast
  linarith

/-- C30 (the code differs). Domain origin `plo = (10, 0, 0)`, cell size `1`, a marker at
`(21/2, 1/2, 1/2)`, the centre of the cell with index `(0, 0, 0)`.  The index is computed
relative to `plo`, but the node coordinate `(i + ii) * dx + dx / 2` is not: every node of the
stencil gets the weight `0`, so that interpolating a field equal to `1` everywhere returns
`(0, 0, 0)` and spreading changes no entry.  With the physical centre `plo + (i + 1/2) * dx`
the marker is at distance `0` from the node of its cell, where the four-point kernel is
`1/2`; the same configuration shifted to the origin `0` interpolates `(1, 1, 1)`. -/
theorem node_coordinate_omits_origin :
    ⌊((21 / 2 : ℚ) - 10) / 1⌋ = 0 ∧
    (∀ ii jj kk : Int, ii ∈ stencilOffsets →
      delta_value Rat.sqrt ⟨21 / 2, 1 / 2, 1 / 2⟩ ⟨1, 1, 1⟩ DELTA_FUNCTION_TYPE.FOUR_POINT_IB
        0 0 0 ii jj kk = 0) ∧
    VelocityInterpolation_cir Rat.sqrt ⟨21 / 2, 1 / 2, 1 / 2⟩ 0 0 0 (fun _ _ _ _ => 1) 3
        ⟨10, 0, 0⟩ ⟨1, 1, 1⟩ DELTA_FUNCTION_TYPE.FOUR_POINT_IB = (0, 0, 0) ∧
    (∀ E : Array4 ℚ, ForceSpreading_cic Rat.sqrt ⟨21 / 2, 1 / 2, 1 / 2⟩ 1 1 1 E 0
        ⟨10, 0, 0⟩ ⟨1, 1, 1⟩ DELTA_FUNCTION_TYPE.FOUR_POINT_IB = E) ∧
    deltaFunction Rat.sqrt (21 / 2) (10 + (((0 + 0 : Int) : ℚ) * 1 + 1 / 2)) 1
        DELTA_FUNCTION_TYPE.FOUR_POINT_IB = 1 / 2 ∧
    VelocityInterpolation_cir Rat.sqrt ⟨1 / 2, 1 / 2, 1 / 2⟩ 0 0 0 (fun _ _ _ _ => 1) 3
        ⟨0, 0, 0⟩ ⟨1, 1, 1⟩ DELTA_FUNCTION_TYPE.FOUR_POINT_IB = (1, 1, 1) := by
  have hx : ⌊((21 / 2 : ℚ) - 10) / 1⌋ = 0 := by
    rw [Int.floor_eq_iff]
    norm_num
  have hdv : ∀ ii jj kk : Int, ii ∈ stencilOffsets →
      delta_value Rat.sqrt ⟨21 / 2, 1 / 2, 1 / 2⟩ ⟨1, 1, 1⟩ DELTA_FUNCTION_TYPE.FOUR_POINT_IB
        0 0 0 ii jj kk = 0 := by
    intro ii jj kk hii
    exact delta_value_far Rat.sqrt _ _ _ 0 0 0 ii jj kk (sample_origin_far ii hii)
  refine ⟨hx, hdv, ?_, ?_, ?_, ?_⟩
  · rw [VelocityInterpolation_cir_eq]
    simp only [hx]
    have hz : ∀ (j k : Int) (c : ℚ), ∑ ii ∈ Finset.Icc (-2 : Int) 2,
        ∑ jj ∈ Finset.Icc (-2 : Int) 2, ∑ kk ∈ Finset.Icc (-2 : Int) 2,
          delta_value Rat.sqrt ⟨21 / 2, 1 / 2, 1 / 2⟩ ⟨1, 1, 1⟩
            DELTA_FUNCTION_TYPE.FOUR_POINT_IB 0 j k ii jj kk * 1 * c = 0 := by
      intro j k c
      refine Finset.sum_eq_zero (fun ii hii => Finset.sum_eq_zero (fun jj _ =>
        Finset.sum_eq_zero (fun kk _ => ?_)))
      have hmem : ii ∈ stencilOffsets :=
        (mem_stencilOffsets ii).mpr (Finset.mem_Icc.mp hii)
      rw [delta_value_far Rat.sqrt ⟨21 / 2, 1 / 2, 1 / 2⟩ ⟨1, 1, 1⟩
        DELTA_FUNCTION_TYPE.FOUR_POINT_IB 0 j k ii jj kk (sample_origin_far ii hmem)]
      simp only [zero_mul]
    simp only [hz]
  · intro E
    funext x y z n
    rw [ForceSpreading_cic_apply]
    simp only [hx]
    by_cases hs : x - 0 ∈ stencilOffsets ∧
        y - ⌊((1 / 2 : ℚ) - 0) / 1⌋ ∈ stencilOffsets ∧
        z - ⌊((1 / 2 : ℚ) - 0) / 1⌋ ∈ stencilOffsets
    · rw [if_pos hs, delta_value_far Rat.sqrt ⟨21 / 2, 1 / 2, 1 / 2⟩ ⟨1, 1, 1⟩
        DELTA_FUNCTION_TYPE.FOUR_POINT_IB 0 _ _ (x - 0) _ _ (sample_origin_far (x - 0) hs.1)]
      simp only [zero_mul, ite_self, add_zero]
    · rw [if_neg hs, add_zero]
  · norm_num [deltaFunction, rat_sqrt_one]
  · have h := VelocityInterpolation_cir_uniform Rat.sqrt rat_sqrt_one ⟨1, 1, 1⟩ one_pos one_pos
      one_pos 0 0 0 (fun _ _ _ _ => (1 : ℚ)) 3 1 1 1 0 0 0 (fun _ _ _ => ⟨rfl, rfl, rfl⟩)
    norm_num at h
    exact h

end Origin

/-! ## Cell indices, volumes and areas of the grid-metrics helper -/

section CellGeometry

variable {K : Type} [LinearOrderedField K] [FloorRing K]

/-- The conversion to `int` of a negative real is its ceiling. -/
theorem truncToInt_of_neg (x : K) (hx : x < 0) : truncToInt x = ⌈x⌉ := by
  unfold truncToInt
  rw [if_neg (not_le.mpr hx)]

/-- The conversion to `int` of `-1/2` is `0`. -/
theorem truncToInt_neg_half : truncToInt (-1 / 2 : ℚ) = 0 := by
  rw [truncToInt_of_neg _ (by norm_num), Int.ceil_eq_iff]
  norm_num

/-- C37 (the code differs). The three-dimensional Cartesian system with offset `0` and cell
size `(1, 2, 3)` and the point `(-1/2, 1, 1)`, which lies in the cell `-1` of the direction
`0` (between the edges `-1` and `0`): `CellIndex` returns `0` in this direction, and the low
edge `0` of the cell `0` is above the point. -/
theorem CellIndex_below_offset :
    ∃ ix : Nat → Int,
      cartesianCoordSys.CellIndex (fun k => if k = 0 then -1 / 2 else 1) = some ix ∧
      ix 0 = 0 ∧
      cartesianCoordSys.LoEdge (ix 0) 0 = some 0 ∧
      ¬ ((0 : ℚ) ≤ -1 / 2) ∧
      cartesianCoordSys.LoEdge (-1) 0 = some (-1) ∧
      cartesianCoordSys.HiEdge (-1) 0 = some 0 := by
  have h0 : (fun k : Nat => if k < cartesianCoordSys.BL_SPACEDIM then
      truncToInt (((fun k : Nat => if k = 0 then (-1 / 2 : ℚ) else 1) k
        - cartesianCoordSys.offset k) / cartesianCoordSys.dx k) else 0) 0 = 0 := by
    have e : ((fun k : Nat => if k = 0 then (-1 / 2 : ℚ) else 1) 0
        - cartesianCoordSys.offset 0) / cartesianCoordSys.dx 0 = -1 / 2 := by
      norm_num [cartesianCoordSys]
    show (if 0 < cartesianCoordSys.BL_SPACEDIM then truncToInt _ else 0) = 0
    rw [if_pos (by decide), e, truncToInt_neg_half]
  refine ⟨_, rfl, h0, ?_, ?_, ?_, ?_⟩
  · have h1 := h0
    beta_reduce at h1 ⊢
    rw [h1]
    norm_num [CoordSys.LoEdge, cartesianCoordSys]
  · norm_num
  · norm_num [CoordSys.LoEdge, cartesianCoordSys]
  · norm_num [CoordSys.HiEdge, cartesianCoordSys]

/-- C38 (the code differs). The three-dimensional Cartesian system with offset `0` and cell
size `(1, 2, 3)` and the cell index `p = (-1, 0, 0)`: the cell centre is `(-1/2, 1, 3/2)` and
`CellIndex` of it is `0`, not `-1`, in the direction `0`. -/
theorem CellIndex_CellCenter_negative :
    ∃ (loc : Nat → ℚ) (ix : Nat → Int),
      cartesianCoordSys.CellCenter (fun k => if k = 0 then -1 else 0) (fun _ => 0) = some loc ∧
      loc 0 = -1 / 2 ∧ loc 1 = 1 ∧ loc 2 = 3 / 2 ∧
      cartesianCoordSys.CellIndex loc = some ix ∧
      ix 0 = 0 ∧ ix 0 ≠ (fun k : Nat => if k = 0 then (-1 : Int) else 0) 0 := by
  have hl0 : (fun k : Nat => if k < cartesianCoordSys.BL_SPACEDIM then
      cartesianCoordSys.offset k + cartesianCoordSys.dx k
        * (1 / 2 + (((fun k : Nat => if k = 0 then (-1 : Int) else 0) k : Int) : ℚ))
      else (fun _ => (0 : ℚ)) k) 0 = -1 / 2 := by
    norm_num [cartesianCoordSys]
  have hl1 : (fun k : Nat => if k < cartesianCoordSys.BL_SPACEDIM then
      cartesianCoordSys.offset k + cartesianCoordSys.dx k
        * (1 / 2 + (((fun k : Nat => if k = 0 then (-1 : Int) else 0) k : Int) : ℚ))
      else (fun _ => (0 : ℚ)) k) 1 = 1 := by
    norm_num [cartesianCoordSys]
  have hl2 : (fun k : Nat => if k < cartesianCoordSys.BL_SPACEDIM then
      cartesianCoordSys.offset k + cartesianCoordSys.dx k
        * (1 / 2 + (((fun k : Nat => if k = 0 then (-1 : Int) else 0) k : Int) : ℚ))
      else (fun _ => (0 : ℚ)) k) 2 = 3 / 2 := by
    norm_num [cartesianCoordSys]
  have hix : (if 0 < cartesianCoordSys.BL_SPACEDIM then truncToInt (((fun k : Nat =>
      if k < cartesianCoordSys.BL_SPACEDIM then
        cartesianCoordSys.offset k + cartesianCoordSys.dx k
          * (1 / 2 + (((fun k : Nat => if k = 0 then (-1 : Int) else 0) k : Int) : ℚ))
      else (fun _ => (0 : ℚ)) k) 0 - cartesianCoordSys.offset 0) / cartesianCoordSys.dx 0)
    else 0) = 0 := by
    rw [if_pos (by decide), hl0]
    have e : ((-1 / 2 : ℚ) - cartesianCoordSys.offset 0) / cartesianCoordSys.dx 0 = -1 / 2 := by
      norm_num [cartesianCoordSys]
    rw [e, truncToInt_neg_half]
  refine ⟨_, _, rfl, hl0, hl1, hl2, rfl, hix, ?_⟩
  have h1 := hix
  beta_reduce at h1 ⊢
  rw [h1]
  decide

/-- The nodes of a cell, for a system whose flag `ok` is set. -/
theorem LoNode_HiNode_eq (c : CoordSys K) (point : Nat → Int) (loc : Nat → K)
    (hok : c.ok = true) :
    c.LoNode point loc = some (fun k =>
      if k < c.BL_SPACEDIM then c.offset k + c.dx k * (point k : K) else loc k) ∧
    c.HiNode point loc = some (fun k =>
      if k < c.BL_SPACEDIM then c.offset k + c.dx k * ((point k + 1 : Int) : K) else loc k) := by
  unfold CoordSys.LoNode CoordSys.HiNode
  rw [if_neg (by rw [hok]; decide), if_neg (by rw [hok]; decide)]
  exact ⟨rfl, rfl⟩

/-- C39. Cell volume and face areas are consistent, for a system whose flag `ok` is set.
In the three-dimensional Cartesian system, `Volume(point)` is `dx[0] * dx[1] * dx[2]` and,
for each direction `dir` of `0, 1, 2`, equals `AreaLo(point, dir) * dx[dir]` and
`AreaHi(point, dir) * dx[dir]`.  In the two-dimensional `RZ` system `Volume(point)` equals
`AreaLo(point, 1) * dx[1]` and `AreaHi(point, 1) * dx[1]` and is
`pi * dx[1] * (r_hi^2 - r_lo^2)`, where `pi` is the value `4 * atan(1.0)` of the code and
`r_lo`, `r_hi` are the two nodes of the cell in the direction `0`. -/
theorem Volume_eq_Area_mul_dx (atan : K → K) (c : CoordSys K) (point : Nat → Int)
    (hok : c.ok = true) :
    (c.BL_SPACEDIM = 3 → c.c_sys = CoordType.cartesian → ∀ dir : Nat, dir < 3 →
      ∃ V A A' : K, c.Volume atan point = some V ∧ c.AreaLo atan point dir = some A ∧
        c.AreaHi atan point dir = some A' ∧
        V = A * c.dx dir ∧ V = A' * c.dx dir ∧ V = c.dx 0 * c.dx 1 * c.dx 2) ∧
    (c.BL_SPACEDIM = 2 → c.c_sys = CoordType.RZ →
      ∃ V A A' : K, c.Volume atan point = some V ∧ c.AreaLo atan point 1 = some A ∧
        c.AreaHi atan point 1 = some A' ∧
        V = A * c.dx 1 ∧ V = A' * c.dx 1 ∧
        V = 4 * atan 1 * c.dx 1
          * ((c.offset 0 + c.dx 0 * ((point 0 + 1 : Int) : K)) ^ 2
            - (c.offset 0 + c.dx 0 * (point 0 : K)) ^ 2)) := by
  have hn := LoNode_HiNode_eq c point (fun _ => 0) hok
  constructor
  · intro h3 hc dir hdir
    have hV : c.Volume atan point = some (c.dx 0 * c.dx 1 * c.dx 2) := by
      unfold CoordSys.Volume
      rw [hn.1, hn.2]
      simp only [CoordSys.Volume_xlo_xhi, hc, h3]
      norm_num
      ring
    interval_cases dir
    · refine ⟨_, c.dx 1 * c.dx 2, c.dx 1 * c.dx 2, hV, ?_, ?_, ?_, ?_, rfl⟩
      · simp [CoordSys.AreaLo, h3]
      · simp [CoordSys.AreaHi, h3]
      · ring
      · ring
    · refine ⟨_, c.dx 0 * c.dx 2, c.dx 0 * c.dx 2, hV, ?_, ?_, ?_, ?_, rfl⟩
      · simp [CoordSys.AreaLo, h3]
      · simp [CoordSys.AreaHi, h3]
      · ring
      · ring
    · refine ⟨_, c.dx 1 * c.dx 0, c.dx 1 * c.dx 0, hV, ?_, ?_, ?_, ?_, rfl⟩
      · simp [CoordSys.AreaLo, h3]
      · simp [CoordSys.AreaHi, h3]
      · ring
      · ring
  · intro h2 hc
    have hV : c.Volume atan point = some (1 / 2 * RZFACTOR atan
        * ((c.offset 1 + c.dx 1 * ((point 1 + 1 : Int) : K))
          - (c.offset 1 + c.dx 1 * (point 1 : K)))
        * ((c.offset 0 + c.dx 0 * ((point 0 + 1 : Int) : K))
            * (c.offset 0 + c.dx 0 * ((point 0 + 1 : Int) : K))
          - (c.offset 0 + c.dx 0 * (point 0 : K)) * (c.offset 0 + c.dx 0 * (point 0 : K)))) := by
      unfold CoordSys.Volume
      rw [hn.1, hn.2]
      simp [CoordSys.Volume_xlo_xhi, hc, h2]
    have hL : c.AreaLo atan point 1 = some
        (((c.offset 0 + c.dx 0 * (point 0 : K) + c.dx 0)
            * (c.offset 0 + c.dx 0 * (point 0 : K) + c.dx 0)
          - (c.offset 0 + c.dx 0 * (point 0 : K)) * (c.offset 0 + c.dx 0 * (point 0 : K)))
          * (1 / 2 * RZFACTOR atan)) := by
      unfold CoordSys.AreaLo
      rw [hn.1]
      simp [hc, h2]
    have hH : c.AreaHi atan point 1 = some
        (((c.offset 0 + c.dx 0 * ((point 0 + 1 : Int) : K))
            * (c.offset 0 + c.dx 0 * ((point 0 + 1 : Int) : K))
          - (c.offset 0 + c.dx 0 * ((point 0 + 1 : Int) : K) - c.dx 0)
            * (c.offset 0 + c.dx 0 * ((point 0 + 1 : Int) : K) - c.dx 0))
          * (RZFACTOR atan * (1 / 2))) := by
      unfold CoordSys.AreaHi
      rw [hn.2]
      simp [hc, h2]
    refine ⟨_, _, _, hV, hL, hH, ?_, ?_, ?_⟩
    · unfold RZFACTOR
      push_cast
      ring
    · unfold RZFACTOR
      push_cast
      ring
    · unfold RZFACTOR
      push_cast
      ring

/-- The `RZ` system with offset `(1, 0)` and cell size `(1/2, 1)`, the cell `(2, 0)` between
the radii `2` and `5/2`, and `atan(1.0)` taken as `11/14`: the volume is `99/14`.  The
Cartesian system with cell size `(1, 2, 3)`: the volume of the cell `(0, 0, 0)` is `6`, the
area in the direction `2` times `dx[2]`. -/
theorem Volume_eq_Area_mul_dx_witness :
    sampleCoordSys.ok = true ∧
    (∃ V A A' : ℚ,
      sampleCoordSys.Volume (fun _ => 11 / 14) (fun k => if k = 0 then 2 else 0) = some V ∧
      sampleCoordSys.AreaLo (fun _ => 11 / 14) (fun k => if k = 0 then 2 else 0) 1 = some A ∧
      sampleCoordSys.AreaHi (fun _ => 11 / 14) (fun k => if k = 0 then 2 else 0) 1 = some A' ∧
      V = A * sampleCoordSys.dx 1 ∧ V = A' * sampleCoordSys.dx 1 ∧ V = 99 / 14) ∧
    (∃ V A A' : ℚ,
      cartesianCoordSys.Volume (fun _ => 11 / 14) (fun _ => 0) = some V ∧
      cartesianCoordSys.AreaLo (fun _ => 11 / 14) (fun _ => 0) 2 = some A ∧
      cartesianCoordSys.AreaHi (fun _ => 11 / 14) (fun _ => 0) 2 = some A' ∧
      V = A * cartesianCoordSys.dx 2 ∧ V = A' * cartesianCoordSys.dx 2 ∧ V = 6) := by
  refine ⟨rfl, ?_, ?_⟩
  · obtain ⟨V, A, A', hV, hA, hA', h1, h2, h3⟩ :=
      (Volume_eq_Area_mul_dx (fun _ => (11 / 14 : ℚ)) sampleCoordSys
        (fun k => if k = 0 then 2 else 0) rfl).2 rfl rfl
    refine ⟨V, A, A', hV, hA, hA', h1, h2, ?_⟩
    rw [h3]
    norm_num [sampleCoordSys]
  · obtain ⟨V, A, A', hV, hA, hA', h1, h2, h3⟩ :=
      (Volume_eq_Area_mul_dx (fun _ => (11 / 14 : ℚ)) cartesianCoordSys
        (fun _ => 0) rfl).1 rfl rfl 2 (by decide)
    refine ⟨V, A, A', hV, hA, hA', h1, h2, ?_⟩
    rw [h3]
    norm_num [cartesianCoordSys]

end CellGeometry

/-! ## The markers after the rigid-body update -/

section MarkerUpdate

variable {K : Type} [LinearOrderedField K] [FloorRing K]

/-- The markers `UpdateParticles` returns: the force is computed from the updated angular
velocity, the updated centre and the position the marker has on entry, and then the position
is moved by `deltaX`. -/
theorem UpdateParticles_markers (L : Libm K) (self : mParticle K) (k : kernel K)
    (dt alpha_k : K) :
    (UpdateParticles L self k dt alpha_k).2.markers
      = self.markers.map (fun m =>
          { m with
            Fx_Marker := k.rho / dt * (m.U_Marker
              + ((UpdateParticles L self k dt alpha_k).1.omega.crossProduct
                  ((UpdateParticles L self k dt alpha_k).1.location.sub m.pos)).v0)
            Fy_Marker := k.rho / dt * (m.V_Marker
              + ((UpdateParticles L self k dt alpha_k).1.omega.crossProduct
                  ((UpdateParticles L self k dt alpha_k).1.location.sub m.pos)).v1)
            Fz_Marker := k.rho / dt * (m.W_Marker
              + ((UpdateParticles L self k dt alpha_k).1.omega.crossProduct
                  ((UpdateParticles L self k dt alpha_k).1.location.sub m.pos)).v2)
            pos := m.pos.add (RealVect.scale (alpha_k * dt)
              ((UpdateParticles L self k dt alpha_k).1.velocity.add k.velocity)) }) := rfl

/-- C31 (the code differs). A body centred at `(0, 0, 0)` with velocity `(1, 0, 0)` and
angular velocity `(0, 0, 1)`, density `2`, one marker at `(1, 0, 0)` with zero stored
velocity and force, `dt = 1`, `alpha_k = 1/2`.  After `UpdateParticles` the centre is
`(1, 0, 0)`, the angular velocity is `(0, 0, 1)` and the marker is at `(2, 0, 0)` with the
stored force `(0, 0, 0)`: the force was computed from the new centre and the position the
marker had before it was moved.  With the position the marker holds when the call returns,
`(rho / dt) * (U + omega_new x (centre_new - x))` is `(0, -2, 0)`. -/
theorem UpdateParticles_force_before_move :
    (UpdateParticles sampleLibm spinningParticles spinningKernel 1 (1 / 2)).1.location
      = ⟨1, 0, 0⟩ ∧
    (UpdateParticles sampleLibm spinningParticles spinningKernel 1 (1 / 2)).1.omega
      = ⟨0, 0, 1⟩ ∧
    (UpdateParticles sampleLibm spinningParticles spinningKernel 1 (1 / 2)).2.markers
      = [⟨⟨2, 0, 0⟩, 0, 0, 0, 0, 0, 0⟩] ∧
    RealVect.scale (spinningKernel.rho / 1)
        ((⟨0, 0, 0⟩ : RealVect ℚ).add
          ((UpdateParticles sampleLibm spinningParticles spinningKernel 1 (1 / 2)).1.omega.crossProduct
            ((UpdateParticles sampleLibm spinningParticles spinningKernel 1
              (1 / 2)).1.location.sub ⟨2, 0, 0⟩)))
      = ⟨0, -2, 0⟩ := by
  have h := UpdateParticles_zero_net sampleLibm spinningParticles spinningKernel 1 (1 / 2)
    (by simp [spinningParticles]) (by simp [spinningParticles]) (by simp [spinningParticles])
    (by simp [spinningParticles]) (by simp [spinningParticles]) (by simp [spinningParticles])
  have hv : (UpdateParticles sampleLibm spinningParticles spinningKernel 1 (1 / 2)).1.velocity
      = ⟨1, 0, 0⟩ := h.1
  have hw : (UpdateParticles sampleLibm spinningParticles spinningKernel 1 (1 / 2)).1.omega
      = ⟨0, 0, 1⟩ := h.2.1
  have hloc : (UpdateParticles sampleLibm spinningParticles spinningKernel 1 (1 / 2)).1.location
      = ⟨1, 0, 0⟩ := by
    rw [h.2.2]
    norm_num [spinningKernel]
  refine ⟨hloc, hw, ?_, ?_⟩
  · rw [UpdateParticles_markers, hv, hw, hloc]
    norm_num [spinningParticles, spinningKernel, RealVect.crossProduct, RealVect.sub,
      RealVect.add, RealVect.scale]
  · rw [hw, hloc]
    norm_num [spinningKernel, RealVect.crossProduct, RealVect.sub, RealVect.add,
      RealVect.scale]

end MarkerUpdate

/-! ## Square roots of the kernel and the marker volume -/

section KernelDomain

variable {K : Type} [LinearOrderedField K] [FloorRing K]

/-- C32 (the code differs). Three-point variant: for a node at the distance `0` from the
marker (any `h`) the weight is `(5 + sqrt(-2)) / 6 / h`, and at the distance `1` (with
`h = 1`) it is `(1 + sqrt(-2)) / 3`: on both branches `deltaFunction` takes the square root
of the negative number `-2`. -/
theorem three_point_sqrt_negative (sqrt : K → K) (x h : K) :
    deltaFunction sqrt x x h DELTA_FUNCTION_TYPE.THREE_POINT_IB
      = 1 / 6 * (5 + sqrt (-2)) / h ∧
    deltaFunction sqrt 1 0 1 DELTA_FUNCTION_TYPE.THREE_POINT_IB
      = 1 / 3 * (1 + sqrt (-2)) / 1 := by
  constructor
  · unfold deltaFunction
    norm_num
  · unfold deltaFunction
    norm_num

end KernelDomain

/-! ## The sampled points of the sphere -/

section SpherePoints

variable {K : Type} [LinearOrderedField K] [FloorRing K]

/-- After the sampling loop has run for the indices below `n`, the markers from `n` on are
untouched, and the marker `i < n` carries the point with the polar angle
`acos(-1 + 2 i / (ml - 1))` and some azimuth `phi`, which is `0` for `i = 0` and for
`i = ml - 1`; its attributes are kept. -/
theorem lagrangianPoints_fold_point (L : Libm K) (k : kernel K) (ms : List (Marker K))
    (n : Nat) :
    (∀ j : Nat, n ≤ j →
      ((List.range n).foldl (lagrangianPointStep L k) (0, ms)).2[j]? = ms[j]?) ∧
    (∀ i : Nat, i < n → ∃ phi : K, ((i = 0 ∨ (i : Int) = k.ml - 1) → phi = 0) ∧
      ((List.range n).foldl (lagrangianPointStep L k) (0, ms)).2[i]?
        = (ms[i]?).map (fun m =>
          { m with
            pos := ⟨k.location.v0 + k.radious
                      * L.sin (L.acos (-1 + 2 * (i : K) / ((k.ml : K) - 1))) * L.cos phi,
                    k.location.v1 + k.radious
                      * L.sin (L.acos (-1 + 2 * (i : K) / ((k.ml : K) - 1))) * L.sin phi,
                    k.location.v2 + k.radious
                      * L.cos (L.acos (-1 + 2 * (i : K) / ((k.ml : K) - 1)))⟩ })) := by
  induction n with
  | zero =>
    refine ⟨fun j _ => rfl, fun i hi => ?_⟩
    omega
  | succ n ih =>
    rw [List.range_succ, List.foldl_append, List.foldl_cons, List.foldl_nil]
    obtain ⟨h1, h2⟩ := ih
    generalize (List.range n).foldl (lagrangianPointStep L k) (0, ms) = r at h1 h2 ⊢
    obtain ⟨p, l⟩ := r
    unfold lagrangianPointStep
    simp only at h1 h2 ⊢
    constructor
    · intro j hj
      rw [List.getElem?_modify_ne _ _ (by omega : n ≠ j)]
      exact h1 j (by omega)
    · intro i hi
      by_cases hin : i = n
      · subst hin
        refine ⟨(if i = 0 ∨ (i : Int) = k.ml - 1 then 0
          else L.fmod (p + 3809 / 1000 / L.sqrt (k.ml : K)
            / L.sqrt (1 - (-1 + 2 * (i : K) / ((k.ml : K) - 1)) ^ 2)) (2 * L.pi)),
          fun h => if_pos h, ?_⟩
        rw [List.getElem?_modify_eq, h1 i le_rfl]
        rfl
      · obtain ⟨phi, hphi, hget⟩ := h2 i (by omega)
        refine ⟨phi, hphi, ?_⟩
        rw [List.getElem?_modify_ne _ _ (Ne.symm hin)]
        exact hget

/-- C33. With `sin^2 + cos^2 = 1` for the functions of the math library and a marker count
`M ≥ 2`, every marker `index < M` that `InitialWithLargrangianPoints` has written lies on the
sphere of the body: `(x - cx)^2 + (y - cy)^2 + (z - cz)^2 = radius^2`. -/
theorem InitialWithLargrangianPoints_on_sphere (L : Libm K) (self : mParticle K)
    (k : kernel K) (hsc : ∀ t : K, L.sin t ^ 2 + L.cos t ^ 2 = 1) (hM : 2 ≤ k.ml)
    (i : Nat) (m : Marker K) (hi : (i : Int) < k.ml)
    (hm : (InitialWithLargrangianPoints L self k).markers[i]? = some m) :
    (m.pos.v0 - k.location.v0) ^ 2 + (m.pos.v1 - k.location.v1) ^ 2
      + (m.pos.v2 - k.location.v2) ^ 2 = k.radious ^ 2 := by
  rw [InitialWithLargrangianPoints_eq_fold] at hm
  obtain ⟨phi, _, hget⟩ :=
    (lagrangianPoints_fold_point L k self.markers k.ml.toNat).2 i (by omega)
  have hm2 : ((List.range k.ml.toNat).foldl (lagrangianPointStep L k) (0, self.markers)).2[i]?
      = some m := hm
  rw [hget] at hm2
  obtain ⟨m0, _, rfl⟩ := Option.map_eq_some'.mp hm2
  simp only [add_sub_cancel_left]
  have h1 := hsc (L.acos (-1 + 2 * (i : K) / ((k.ml : K) - 1)))
  have h2 := hsc phi
  generalize L.sin (L.acos (-1 + 2 * (i : K) / ((k.ml : K) - 1))) = st at h1 ⊢
  generalize L.cos (L.acos (-1 + 2 * (i : K) / ((k.ml : K) - 1))) = ct at h1 ⊢
  generalize L.sin phi = sp at h2 ⊢
  generalize L.cos phi = cp at h2 ⊢
  have e : (k.radious * st * cp) ^ 2 + (k.radious * st * sp) ^ 2 + (k.radious * ct) ^ 2
      = k.radious ^ 2 * (st ^ 2 * (sp ^ 2 + cp ^ 2) + ct ^ 2) := by ring
  rw [e, h2, mul_one, h1, mul_one]

/-- The two-marker body sampled with the stand-ins `sampleLibm`: the marker `0` is at
`(8, 8, 12)`. -/
theorem polar_first_marker :
    (InitialWithLargrangianPoints sampleLibm polarParticles polarKernel).markers[0]?
      = some ⟨⟨8, 8, 12⟩, 0, 0, 0, 0, 0, 0⟩ := by
  have e : polarKernel.ml.toNat = 1 + 1 := by decide
  have h0 : polarParticles.markers[0]? = some ⟨⟨0, 0, 0⟩, 0, 0, 0, 0, 0, 0⟩ := rfl
  rw [InitialWithLargrangianPoints_eq_fold]
  show ((List.range polarKernel.ml.toNat).foldl (lagrangianPointStep sampleLibm polarKernel)
    (0, polarParticles.markers)).2[0]? = _
  rw [e, lagrangianPoints_fold_first, h0]
  norm_num [sampleLibm, polarKernel]

/-- The body of radius `4` centred at `(8, 8, 8)` with `M = 2`, sampled with the stand-ins
`sampleLibm`, which satisfy `sin^2 + cos^2 = 1`: the marker `0` is at `(8, 8, 12)`, on the
sphere. -/
theorem InitialWithLargrangianPoints_on_sphere_witness :
    (∀ t : ℚ, sampleLibm.sin t ^ 2 + sampleLibm.cos t ^ 2 = 1) ∧
    2 ≤ polarKernel.ml ∧ ((0 : Nat) : Int) < polarKernel.ml ∧
    (InitialWithLargrangianPoints sampleLibm polarParticles polarKernel).markers[0]?
      = some ⟨⟨8, 8, 12⟩, 0, 0, 0, 0, 0, 0⟩ ∧
    ((8 : ℚ) - polarKernel.location.v0) ^ 2 + (8 - polarKernel.location.v1) ^ 2
      + (12 - polarKernel.location.v2) ^ 2 = polarKernel.radious ^ 2 :=
  ⟨fun t => by norm_num [sampleLibm], by decide, by decide, polar_first_marker,
   InitialWithLargrangianPoints_on_sphere sampleLibm polarParticles polarKernel
     (fun t => by norm_num [sampleLibm]) (by decide) 0 ⟨⟨8, 8, 12⟩, 0, 0, 0, 0, 0, 0⟩
     (by decide) polar_first_marker⟩

/-- The height parameter `-1 + 2 i / (M - 1)` lies in `[-1, 1]` for `0 ≤ i ≤ M - 1`. -/
theorem height_parameter_bounds (M : Int) (hM : 2 ≤ M) (i : Nat) (hi : (i : Int) < M) :
    (-1 : K) ≤ -1 + 2 * (i : K) / ((M : K) - 1) ∧ -1 + 2 * (i : K) / ((M : K) - 1) ≤ 1 := by
  have hpos : (0 : K) < (M : K) - 1 := by
    have : (2 : K) ≤ (M : K) := by exact_mod_cast hM
    linarith
  have hiK : (i : K) ≤ (M : K) - 1 := by
    have h : (i : Int) ≤ M - 1 := by omega
    have h2 : ((i : Int) : K) ≤ ((M - 1 : Int) : K) := by exact_mod_cast h
    push_cast at h2
    exact h2
  have h0 : (0 : K) ≤ 2 * (i : K) / ((M : K) - 1) :=
    div_nonneg (by positivity) (le_of_lt hpos)
  have h1 : 2 * (i : K) / ((M : K) - 1) ≤ 2 := by
    rw [div_le_iff₀ hpos]
    linarith
  constructor <;> linarith

/-- C34. With `cos(acos(x)) = x` on `[-1, 1]`, `sin(acos(-1)) = 0` and `sin(acos(1)) = 0`
for the functions of the math library, and a marker count `M ≥ 2`: every marker
`index < M` that `InitialWithLargrangianPoints` has written has the height
`z = cz + radius * (-1 + 2 * index / (M - 1))`, the marker `0` is at
`centre - (0, 0, radius)` and the marker `M - 1` at `centre + (0, 0, radius)`. -/
theorem InitialWithLargrangianPoints_height (L : Libm K) (self : mParticle K) (k : kernel K)
    (hca : ∀ t : K, -1 ≤ t → t ≤ 1 → L.cos (L.acos t) = t)
    (hs0 : L.sin (L.acos (-1)) = 0) (hs1 : L.sin (L.acos 1) = 0) (hM : 2 ≤ k.ml) :
    (∀ (i : Nat) (m : Marker K), (i : Int) < k.ml →
      (InitialWithLargrangianPoints L self k).markers[i]? = some m →
      m.pos.v2 = k.location.v2 + k.radious * (-1 + 2 * (i : K) / ((k.ml : K) - 1))) ∧
    (∀ m : Marker K, (InitialWithLargrangianPoints L self k).markers[0]? = some m →
      m.pos = ⟨k.location.v0, k.location.v1, k.location.v2 - k.radious⟩) ∧
    (∀ m : Marker K,
      (InitialWithLargrangianPoints L self k).markers[(k.ml - 1).toNat]? = some m →
      m.pos = ⟨k.location.v0, k.location.v1, k.location.v2 + k.radious⟩) := by
  have hpt : ∀ (i : Nat) (m : Marker K), (i : Int) < k.ml →
      (InitialWithLargrangianPoints L self k).markers[i]? = some m →
      ∃ phi : K, ((i = 0 ∨ (i : Int) = k.ml - 1) → phi = 0) ∧
        m.pos = ⟨k.location.v0 + k.radious
                    * L.sin (L.acos (-1 + 2 * (i : K) / ((k.ml : K) - 1))) * L.cos phi,
                  k.location.v1 + k.radious
                    * L.sin (L.acos (-1 + 2 * (i : K) / ((k.ml : K) - 1))) * L.sin phi,
                  k.location.v2 + k.radious
                    * L.cos (L.acos (-1 + 2 * (i : K) / ((k.ml : K) - 1)))⟩ := by
    intro i m hi hm
    rw [InitialWithLargrangianPoints_eq_fold] at hm
    obtain ⟨phi, hphi, hget⟩ :=
      (lagrangianPoints_fold_point L k self.markers k.ml.toNat).2 i (by omega)
    have hm2 : ((List.range k.ml.toNat).foldl (lagrangianPointStep L k)
        (0, self.markers)).2[i]? = some m := hm
    rw [hget] at hm2
    obtain ⟨m0, _, rfl⟩ := Option.map_eq_some'.mp hm2
    exact ⟨phi, hphi, rfl⟩
  refine ⟨?_, ?_, ?_⟩
  · intro i m hi hm
    obtain ⟨phi, _, hpos⟩ := hpt i m hi hm
    have hb := height_parameter_bounds (K := K) k.ml hM i hi
    rw [hpos, hca _ hb.1 hb.2]
  · intro m hm
    obtain ⟨phi, _, hpos⟩ := hpt 0 m (by omega) hm
    have e : (-1 : K) + 2 * ((0 : Nat) : K) / ((k.ml : K) - 1) = -1 := by
      rw [Nat.cast_zero, mul_zero, zero_div, add_zero]
    rw [hpos, e, hs0, hca (-1) le_rfl (by norm_num)]
    simp only [mul_zero, zero_mul, add_zero, mul_neg, mul_one, sub_eq_add_neg]
  · intro m hm
    have hcast : (((k.ml - 1).toNat : Nat) : Int) = k.ml - 1 := Int.toNat_of_nonneg (by omega)
    obtain ⟨phi, _, hpos⟩ := hpt (k.ml - 1).toNat m (by omega) hm
    have hpos1 : (0 : K) < (k.ml : K) - 1 := by
      have : (2 : K) ≤ (k.ml : K) := by exact_mod_cast hM
      linarith
    have hK : (((k.ml - 1).toNat : Nat) : K) = (k.ml : K) - 1 := by
      have h := congrArg (fun t : Int => (t : K)) hcast
      simp only [Int.cast_natCast, Int.cast_sub, Int.cast_one] at h
      exact h
    have e : (-1 : K) + 2 * (((k.ml - 1).toNat : Nat) : K) / ((k.ml : K) - 1) = 1 := by
      rw [hK, mul_div_assoc, div_self (ne_of_gt hpos1)]
      norm_num
    rw [hpos, e, hs1, hca 1 (by norm_num) le_rfl]
    simp only [mul_zero, zero_mul, add_zero, mul_one]

/-- The two-marker body sampled with the stand-ins `poleLibm`: the marker `0` is at
`(8, 8, 4)` and the marker `1` at `(8, 8, 12)`. -/
theorem polar_markers_pole :
    (InitialWithLargrangianPoints poleLibm polarParticles polarKernel).markers[0]?
      = some ⟨⟨8, 8, 4⟩, 0, 0, 0, 0, 0, 0⟩ ∧
    (InitialWithLargrangianPoints poleLibm polarParticles polarKernel).markers[1]?
      = some ⟨⟨8, 8, 12⟩, 0, 0, 0, 0, 0, 0⟩ := by
  have e : polarKernel.ml.toNat = 1 + 1 := by decide
  rw [InitialWithLargrangianPoints_eq_fold]
  have hf : (List.range polarKernel.ml.toNat).foldl (lagrangianPointStep poleLibm polarKernel)
      (0, polarParticles.markers)
      = lagrangianPointStep poleLibm polarKernel
          (lagrangianPointStep poleLibm polarKernel (0, polarParticles.markers) 0) 1 := by
    rw [e]
    rfl
  show ((List.range polarKernel.ml.toNat).foldl (lagrangianPointStep poleLibm polarKernel)
      (0, polarParticles.markers)).2[0]? = _ ∧
    ((List.range polarKernel.ml.toNat).foldl (lagrangianPointStep poleLibm polarKernel)
      (0, polarParticles.markers)).2[1]? = _
  rw [hf]
  unfold lagrangianPointStep
  constructor
  · norm_num [poleLibm, polarKernel, polarParticles, List.modify]
  · norm_num [poleLibm, polarKernel, polarParticles, List.modify]

/-- The body of radius `4` centred at `(8, 8, 8)` with `M = 2`, sampled with the stand-ins
`poleLibm`, which satisfy the three hypotheses: the marker `0` is at `(8, 8, 4)`, the centre
minus `(0, 0, 4)`, and the marker `1` at `(8, 8, 12)`, the centre plus `(0, 0, 4)`. -/
theorem InitialWithLargrangianPoints_height_witness :
    (∀ t : ℚ, -1 ≤ t → t ≤ 1 → poleLibm.cos (poleLibm.acos t) = t) ∧
    poleLibm.sin (poleLibm.acos (-1)) = 0 ∧ poleLibm.sin (poleLibm.acos 1) = 0 ∧
    2 ≤ polarKernel.ml ∧
    (InitialWithLargrangianPoints poleLibm polarParticles polarKernel).markers[0]?
      = some ⟨⟨8, 8, 4⟩, 0, 0, 0, 0, 0, 0⟩ ∧
    (⟨8, 8, 4⟩ : RealVect ℚ)
      = ⟨polarKernel.location.v0, polarKernel.location.v1,
          polarKernel.location.v2 - polarKernel.radious⟩ ∧
    (InitialWithLargrangianPoints poleLibm polarParticles polarKernel).markers[1]?
      = some ⟨⟨8, 8, 12⟩, 0, 0, 0, 0, 0, 0⟩ ∧
    (⟨8, 8, 12⟩ : RealVect ℚ)
      = ⟨polarKernel.location.v0, polarKernel.location.v1,
          polarKernel.location.v2 + polarKernel.radious⟩ :=
  ⟨fun _ _ _ => rfl, rfl, rfl, by decide, polar_markers_pole.1,
   (InitialWithLargrangianPoints_height poleLibm polarParticles polarKernel
     (fun _ _ _ => rfl) rfl rfl (by decide)).2.1 ⟨⟨8, 8, 4⟩, 0, 0, 0, 0, 0, 0⟩
     polar_markers_pole.1,
   polar_markers_pole.2,
   (InitialWithLargrangianPoints_height poleLibm polarParticles polarKernel
     (fun _ _ _ => rfl) rfl rfl (by decide)).2.2 ⟨⟨8, 8, 12⟩, 0, 0, 0, 0, 0, 0⟩
     polar_markers_pole.2⟩

end SpherePoints

/-! ## The four-point kernel next to a cell centre -/

section OffCentre

variable {K : Type} [LinearOrderedField K] [FloorRing K]

/-- The four-point kernel as a function of the normalized distance `r`. -/
theorem deltaFunction_four_of_abs (sqrt : K → K) (xf xp h r : K)
    (hr : abs ((xf - xp) / h) = r) :
    deltaFunction sqrt xf xp h DELTA_FUNCTION_TYPE.FOUR_POINT_IB
      = if r ≥ 0 ∧ r < 1 / 2 then 1 / 8 * (3 - 2 * r + sqrt (1 + 4 * r - 4 * r ^ 2)) / h
        else if r ≥ 1 ∧ r < 2 then 1 / 8 * (5 - 2 * r - sqrt (-7 + 12 * r - 4 * r ^ 2)) / h
        else 0 := by
  subst hr
  rfl

/-- The normalized distance between a marker that lies `delta` cell widths below the centre
of the cell `a` and the node of the cell `a + ii`. -/
theorem off_centre_distance (h : K) (hh : 0 < h) (a ii : Int) (delta : K) :
    (((a : K) + 1 / 2 - delta) * h - (((a + ii : Int) : K) * h + h / 2)) / h
      = -((ii : K) + delta) := by
  have hne : h ≠ 0 := ne_of_gt hh
  push_cast
  field_simp
  ring

/-- The four-point weights of the five stencil nodes along one axis, for a marker that lies
`delta` cell widths below a cell centre, `0 < delta < 1/2`: the node at the distance
`1 - delta` falls into the branch that yields `0`, and the weights add up to
`(7 - 2 delta - sqrt(1 + 4 delta - 4 delta^2)) / (8 h)`. -/
theorem four_point_off_centre_sum (sqrt : K → K) (h : K) (hh : 0 < h) (a : Int) (delta : K)
    (hd0 : 0 < delta) (hd1 : delta < 1 / 2) :
    deltaFunction sqrt (((a : K) + 1 / 2 - delta) * h) (((a + (-1) : Int) : K) * h + h / 2) h
        DELTA_FUNCTION_TYPE.FOUR_POINT_IB = 0 ∧
    ∑ ii ∈ Finset.Icc (-2 : Int) 2,
        deltaFunction sqrt (((a : K) + 1 / 2 - delta) * h) (((a + ii : Int) : K) * h + h / 2) h
          DELTA_FUNCTION_TYPE.FOUR_POINT_IB
      = (7 - 2 * delta - sqrt (1 + 4 * delta - 4 * delta ^ 2)) / (8 * h) := by
  have hne : h ≠ 0 := ne_of_gt hh
  have hm2 : deltaFunction sqrt (((a : K) + 1 / 2 - delta) * h)
      (((a + (-2) : Int) : K) * h + h / 2) h DELTA_FUNCTION_TYPE.FOUR_POINT_IB
      = 1 / 8 * (1 + 2 * delta - sqrt (1 + 4 * delta - 4 * delta ^ 2)) / h := by
    have hr : abs ((((a : K) + 1 / 2 - delta) * h - (((a + (-2) : Int) : K) * h + h / 2)) / h)
        = 2 - delta := by
      rw [off_centre_distance h hh, abs_neg, abs_of_neg (by push_cast; linarith)]
      push_cast
      ring
    rw [deltaFunction_four_of_abs sqrt _ _ _ _ hr,
      if_neg (by rintro ⟨_, h2⟩; linarith), if_pos ⟨by linarith, by linarith⟩]
    have e : (-7 : K) + 12 * (2 - delta) - 4 * (2 - delta) ^ 2
        = 1 + 4 * delta - 4 * delta ^ 2 := by ring
    rw [e]
    ring
  have hm1 : deltaFunction sqrt (((a : K) + 1 / 2 - delta) * h)
      (((a + (-1) : Int) : K) * h + h / 2) h DELTA_FUNCTION_TYPE.FOUR_POINT_IB = 0 := by
    have hr : abs ((((a : K) + 1 / 2 - delta) * h - (((a + (-1) : Int) : K) * h + h / 2)) / h)
        = 1 - delta := by
      rw [off_centre_distance h hh, abs_neg, abs_of_neg (by push_cast; linarith)]
      push_cast
      ring
    rw [deltaFunction_four_of_abs sqrt _ _ _ _ hr,
      if_neg (by rintro ⟨_, h2⟩; linarith), if_neg (by rintro ⟨h1, _⟩; linarith)]
  have h0 : deltaFunction sqrt (((a : K) + 1 / 2 - delta) * h)
      (((a + 0 : Int) : K) * h + h / 2) h DELTA_FUNCTION_TYPE.FOUR_POINT_IB
      = 1 / 8 * (3 - 2 * delta + sqrt (1 + 4 * delta - 4 * delta ^ 2)) / h := by
    have hr : abs ((((a : K) + 1 / 2 - delta) * h - (((a + 0 : Int) : K) * h + h / 2)) / h)
        = delta := by
      rw [off_centre_distance h hh, abs_neg, abs_of_pos (by push_cast; linarith)]
      push_cast
      ring
    rw [deltaFunction_four_of_abs sqrt _ _ _ _ hr, if_pos ⟨le_of_lt hd0, hd1⟩]
  have hp1 : deltaFunction sqrt (((a : K) + 1 / 2 - delta) * h)
      (((a + 1 : Int) : K) * h + h / 2) h DELTA_FUNCTION_TYPE.FOUR_POINT_IB
      = 1 / 8 * (3 - 2 * delta - sqrt (1 + 4 * delta - 4 * delta ^ 2)) / h := by
    have hr : abs ((((a : K) + 1 / 2 - delta) * h - (((a + 1 : Int) : K) * h + h / 2)) / h)
        = 1 + delta := by
      rw [off_centre_distance h hh, abs_neg, abs_of_pos (by push_cast; linarith)]
      push_cast
      ring
    rw [deltaFunction_four_of_abs sqrt _ _ _ _ hr,
      if_neg (by rintro ⟨_, h2⟩; linarith), if_pos ⟨by linarith, by linarith⟩]
    have e : (-7 : K) + 12 * (1 + delta) - 4 * (1 + delta) ^ 2
        = 1 + 4 * delta - 4 * delta ^ 2 := by ring
    rw [e]
    ring
  have hp2 : deltaFunction sqrt (((a : K) + 1 / 2 - delta) * h)
      (((a + 2 : Int) : K) * h + h / 2) h DELTA_FUNCTION_TYPE.FOUR_POINT_IB = 0 := by
    have hr : abs ((((a : K) + 1 / 2 - delta) * h - (((a + 2 : Int) : K) * h + h / 2)) / h)
        = 2 + delta := by
      rw [off_centre_distance h hh, abs_neg, abs_of_pos (by push_cast; linarith)]
      push_cast
      ring
    rw [deltaFunction_four_of_abs sqrt _ _ _ _ hr,
      if_neg (by rintro ⟨_, h2⟩; linarith), if_neg (by rintro ⟨_, h2⟩; linarith)]
  refine ⟨hm1, ?_⟩
  rw [← sum_stencilOffsets]
  simp only [stencilOffsets, List.map_cons, List.map_nil, List.sum_cons, List.sum_nil]
  rw [hm2, hm1, h0, hp1, hp2]
  field_simp
  ring

/-- The double `0.25` is the centre of the cell `2` of the grid with the cell size `dxTenth`,
less `1/7205759403792794` of a cell. -/
theorem quarter_eq_off_centre :
    (1 / 4 : ℚ) = ((((2 : Int) : ℚ)) + 1 / 2 - 1 / 7205759403792794) * dxTenth := by
  norm_num [dxTenth]

/-- With the cell size `dxTenth` and a marker coordinate `1/4`, the weights times the cell
size add up along one axis to `(7 - 2 * delta - sqrt (1 + 4 * delta - 4 * delta^2)) / 8` with
`delta = 1/7205759403792794`, for every square-root function. -/
theorem four_point_tenth_axis_value (sqrt : ℚ → ℚ) :
    (∑ ii ∈ Finset.Icc (-2 : Int) 2,
        deltaFunction sqrt (1 / 4) (((2 + ii : Int) : ℚ) * dxTenth + dxTenth / 2) dxTenth
          DELTA_FUNCTION_TYPE.FOUR_POINT_IB) * dxTenth
      = (7 - 2 * (1 / 7205759403792794)
          - sqrt (1 + 4 * (1 / 7205759403792794) - 4 * (1 / 7205759403792794) ^ 2)) / 8 := by
  have hD : (0 : ℚ) < dxTenth := by norm_num [dxTenth]
  rw [quarter_eq_off_centre,
    (four_point_off_centre_sum sqrt dxTenth hD 2 (1 / 7205759403792794) (by norm_num)
      (by norm_num)).2]
  field_simp
  ring

/-- With the cell size `dxTenth` and a marker coordinate `1/4`, the weights times the cell
size add up to at most `3/4` along one axis, for every square-root function that is at least
`1` on arguments that are at least `1`. -/
theorem four_point_tenth_axis_sum (sqrt : ℚ → ℚ) (hs : ∀ t, 1 ≤ t → 1 ≤ sqrt t) :
    (∑ ii ∈ Finset.Icc (-2 : Int) 2,
        deltaFunction sqrt (1 / 4) (((2 + ii : Int) : ℚ) * dxTenth + dxTenth / 2) dxTenth
          DELTA_FUNCTION_TYPE.FOUR_POINT_IB) * dxTenth ≤ 3 / 4 := by
  rw [four_point_tenth_axis_value]
  have h1 := hs (1 + 4 * (1 / 7205759403792794) - 4 * (1 / 7205759403792794) ^ 2)
    (by norm_num)
  have h2 : (0 : ℚ) ≤ 2 * (1 / 7205759403792794) := by norm_num
  linarith

/-- C10 (the code differs). Cell size `0.1` in the three directions, held by the program as
the double `dxTenth`, and a marker at `(0.25, 0.25, 0.25)`, the centre `(2 + 0.5) * 0.1` of
the cell `(2, 2, 2)` as the program computes it.  The containing cell is `2`; the node of
the cell `1` is at the normalized distance `1 - 1/7205759403792794`, in the range
`[0.5, 1)` for which `deltaFunction` has no branch, and gets the weight `0`.  Along one axis
the weights times the cell size add up to
`(7 - 2 * delta - sqrt (1 + 4 * delta - 4 * delta^2)) / 8` with
`delta = 1/7205759403792794`.  For every square-root function that is at least `1` on
arguments that are at least `1`, the sum over the 125 stencil nodes of `tU * tV * tW` times
the cell volume is at most `27/64`, and a field equal to `1` everywhere is interpolated to
at most `27/64`, not to `1`. -/
theorem four_point_normalization_tenth :
    ⌊((1 / 4 : ℚ) - 0) / dxTenth⌋ = 2 ∧
    (∀ sqrt : ℚ → ℚ,
      deltaFunction sqrt (1 / 4) (((2 + (-1) : Int) : ℚ) * dxTenth + dxTenth / 2) dxTenth
        DELTA_FUNCTION_TYPE.FOUR_POINT_IB = 0) ∧
    (∀ sqrt : ℚ → ℚ,
      (∑ ii ∈ Finset.Icc (-2 : Int) 2,
        deltaFunction sqrt (1 / 4) (((2 + ii : Int) : ℚ) * dxTenth + dxTenth / 2) dxTenth
          DELTA_FUNCTION_TYPE.FOUR_POINT_IB) * dxTenth
        = (7 - 2 * (1 / 7205759403792794)
            - sqrt (1 + 4 * (1 / 7205759403792794) - 4 * (1 / 7205759403792794) ^ 2)) / 8) ∧
    (∀ sqrt : ℚ → ℚ, (∀ t, 1 ≤ t → 1 ≤ sqrt t) →
      (∑ ii ∈ Finset.Icc (-2 : Int) 2, ∑ jj ∈ Finset.Icc (-2 : Int) 2,
        ∑ kk ∈ Finset.Icc (-2 : Int) 2,
          deltaFunction sqrt (1 / 4) (((2 + ii : Int) : ℚ) * dxTenth + dxTenth / 2) dxTenth
              DELTA_FUNCTION_TYPE.FOUR_POINT_IB
            * deltaFunction sqrt (1 / 4) (((2 + jj : Int) : ℚ) * dxTenth + dxTenth / 2) dxTenth
                DELTA_FUNCTION_TYPE.FOUR_POINT_IB
            * deltaFunction sqrt (1 / 4) (((2 + kk : Int) : ℚ) * dxTenth + dxTenth / 2) dxTenth
                DELTA_FUNCTION_TYPE.FOUR_POINT_IB
            * (dxTenth * dxTenth * dxTenth)) ≤ 27 / 64 ∧
      (VelocityInterpolation_cir sqrt ⟨1 / 4, 1 / 4, 1 / 4⟩ 0 0 0 (fun _ _ _ _ => 1) 3
        ⟨0, 0, 0⟩ ⟨dxTenth, dxTenth, dxTenth⟩ DELTA_FUNCTION_TYPE.FOUR_POINT_IB).1
        ≤ 27 / 64) := by
  have hx : ⌊((1 / 4 : ℚ) - 0) / dxTenth⌋ = 2 := by
    rw [Int.floor_eq_iff]
    norm_num [dxTenth]
  have hD : (0 : ℚ) < dxTenth := by norm_num [dxTenth]
  have hsum3 : ∀ sqrt : ℚ → ℚ, (∀ t, 1 ≤ t → 1 ≤ sqrt t) →
      (∑ ii ∈ Finset.Icc (-2 : Int) 2, ∑ jj ∈ Finset.Icc (-2 : Int) 2,
        ∑ kk ∈ Finset.Icc (-2 : Int) 2,
          deltaFunction sqrt (1 / 4) (((2 + ii : Int) : ℚ) * dxTenth + dxTenth / 2) dxTenth
              DELTA_FUNCTION_TYPE.FOUR_POINT_IB
            * deltaFunction sqrt (1 / 4) (((2 + jj : Int) : ℚ) * dxTenth + dxTenth / 2) dxTenth
                DELTA_FUNCTION_TYPE.FOUR_POINT_IB
            * deltaFunction sqrt (1 / 4) (((2 + kk : Int) : ℚ) * dxTenth + dxTenth / 2) dxTenth
                DELTA_FUNCTION_TYPE.FOUR_POINT_IB
            * (dxTenth * dxTenth * dxTenth)) ≤ 27 / 64 := by
    intro sqrt hs
    have hT := four_point_tenth_axis_sum sqrt hs
    simp only [← Finset.sum_mul, ← Finset.mul_sum]
    generalize (∑ ii ∈ Finset.Icc (-2 : Int) 2,
        deltaFunction sqrt (1 / 4) (((2 + ii : Int) : ℚ) * dxTenth + dxTenth / 2) dxTenth
          DELTA_FUNCTION_TYPE.FOUR_POINT_IB) = T at hT ⊢
    have e : T * T * T * (dxTenth * dxTenth * dxTenth) = (T * dxTenth) ^ 3 := by ring
    rw [e]
    have h3 := (Odd.strictMono_pow (by decide : Odd 3)).monotone hT
    exact h3.trans (by norm_num)
  refine ⟨hx, ?_, four_point_tenth_axis_value, ?_⟩
  · intro sqrt
    rw [quarter_eq_off_centre]
    exact (four_point_off_centre_sum sqrt dxTenth hD 2 (1 / 7205759403792794) (by norm_num)
      (by norm_num)).1
  · intro sqrt hs
    refine ⟨hsum3 sqrt hs, ?_⟩
    rw [VelocityInterpolation_cir_eq]
    simp only [hx, delta_value, mul_one]
    exact hsum3 sqrt hs

/-- The sums of `four_point_normalization_tenth` for the square-root stand-in
`t ↦ (t + 1) / 2`, which is at least `1` on arguments that are at least `1`: the weights of
one axis times the cell size add up to `3/4 - delta / 2 + delta^2 / 4` with
`delta = 1/7205759403792794`, and the uniform field `1` is interpolated to at most
`27/64`. -/
theorem four_point_normalization_tenth_witness :
    (∀ t : ℚ, 1 ≤ t → 1 ≤ (fun t : ℚ => (t + 1) / 2) t) ∧
    (∑ ii ∈ Finset.Icc (-2 : Int) 2,
        deltaFunction (fun t : ℚ => (t + 1) / 2) (1 / 4)
          (((2 + ii : Int) : ℚ) * dxTenth + dxTenth / 2) dxTenth
          DELTA_FUNCTION_TYPE.FOUR_POINT_IB) * dxTenth
      = 3 / 4 - (1 / 7205759403792794) / 2 + (1 / 7205759403792794) ^ 2 / 4 ∧
    (VelocityInterpolation_cir (fun t : ℚ => (t + 1) / 2) ⟨1 / 4, 1 / 4, 1 / 4⟩ 0 0 0
        (fun _ _ _ _ => 1) 3 ⟨0, 0, 0⟩ ⟨dxTenth, dxTenth, dxTenth⟩
        DELTA_FUNCTION_TYPE.FOUR_POINT_IB).1 ≤ 27 / 64 := by
  have hs : ∀ t : ℚ, 1 ≤ t → 1 ≤ (fun t : ℚ => (t + 1) / 2) t := by
    intro t ht
    show 1 ≤ (t + 1) / 2
    linarith
  refine ⟨hs, ?_, (four_point_normalization_tenth.2.2.2 _ hs).2⟩
  rw [four_point_normalization_tenth.2.2.1]
  norm_num

end OffCentre

/-! ## The three-point kernel at the node of the marker's own cell -/

section OwnCell

variable {K : Type} [LinearOrderedField K] [FloorRing K]

/-- The node of the cell that contains the marker is at most half a cell away from it (grid
origin `0`), and there the three-point kernel takes the square root of a number that is at
most `-5/4`. -/
theorem three_point_own_cell_axis (sqrt : K → K) (p h : K) (hh : 0 < h) :
    ∃ r : K, 0 ≤ r ∧ r ≤ 1 / 2 ∧ -3 * (1 - r ^ 2) + 1 ≤ -5 / 4 ∧
      deltaFunction sqrt p (((⌊(p - 0) / h⌋ + 0 : Int) : K) * h + h / 2) h
          DELTA_FUNCTION_TYPE.THREE_POINT_IB
        = 1 / 6 * (5 - 3 * r + sqrt (-3 * (1 - r ^ 2) + 1)) / h := by
  have hne : h ≠ 0 := ne_of_gt hh
  refine ⟨abs ((p - (((⌊(p - 0) / h⌋ + 0 : Int) : K) * h + h / 2)) / h), abs_nonneg _, ?_⟩
  have hle : abs ((p - (((⌊(p - 0) / h⌋ + 0 : Int) : K) * h + h / 2)) / h) ≤ 1 / 2 := by
    have e : (p - (((⌊(p - 0) / h⌋ + 0 : Int) : K) * h + h / 2)) / h
        = (p - 0) / h - (⌊(p - 0) / h⌋ : K) - 1 / 2 := by
      push_cast
      field_simp
      ring
    rw [e, abs_le]
    have h1 := Int.floor_le ((p - 0) / h)
    have h2 := Int.lt_floor_add_one ((p - 0) / h)
    constructor <;> linarith
  refine ⟨hle, ?_, ?_⟩
  · have h0 := abs_nonneg ((p - (((⌊(p - 0) / h⌋ + 0 : Int) : K) * h + h / 2)) / h)
    nlinarith
  · unfold deltaFunction
    simp only
    rw [if_pos ⟨abs_nonneg _, lt_of_le_of_lt hle (by norm_num)⟩]

/-- C17 (the code differs). Three-point variant, grid origin `0`, cell sizes `dx > 0`: for
every marker position the weight `tU * tV * tW` of the node of the marker's own cell, which
`VelocityInterpolation_cir` multiplies with the velocity at that node, is the product of
three factors `(5 - 3 r + sqrt(-3 (1 - r^2) + 1)) / (6 dx)` with `0 ≤ r ≤ 1/2`: each factor
takes the square root of a number that is at most `-5/4`. -/
theorem three_point_own_cell_weight (sqrt : K → K) (pos dx : RealVect K)
    (h0 : 0 < dx.v0) (h1 : 0 < dx.v1) (h2 : 0 < dx.v2) :
    ∃ r0 r1 r2 : K, (0 ≤ r0 ∧ r0 ≤ 1 / 2 ∧ -3 * (1 - r0 ^ 2) + 1 ≤ -5 / 4) ∧
      (0 ≤ r1 ∧ r1 ≤ 1 / 2 ∧ -3 * (1 - r1 ^ 2) + 1 ≤ -5 / 4) ∧
      (0 ≤ r2 ∧ r2 ≤ 1 / 2 ∧ -3 * (1 - r2 ^ 2) + 1 ≤ -5 / 4) ∧
      delta_value sqrt pos dx DELTA_FUNCTION_TYPE.THREE_POINT_IB
          ⌊(pos.v0 - 0) / dx.v0⌋ ⌊(pos.v1 - 0) / dx.v1⌋ ⌊(pos.v2 - 0) / dx.v2⌋ 0 0 0
        = 1 / 6 * (5 - 3 * r0 + sqrt (-3 * (1 - r0 ^ 2) + 1)) / dx.v0
          * (1 / 6 * (5 - 3 * r1 + sqrt (-3 * (1 - r1 ^ 2) + 1)) / dx.v1)
          * (1 / 6 * (5 - 3 * r2 + sqrt (-3 * (1 - r2 ^ 2) + 1)) / dx.v2) := by
  obtain ⟨r0, a0, b0, c0, e0⟩ := three_point_own_cell_axis sqrt pos.v0 dx.v0 h0
  obtain ⟨r1, a1, b1, c1, e1⟩ := three_point_own_cell_axis sqrt pos.v1 dx.v1 h1
  obtain ⟨r2, a2, b2, c2, e2⟩ := three_point_own_cell_axis sqrt pos.v2 dx.v2 h2
  refine ⟨r0, r1, r2, ⟨a0, b0, c0⟩, ⟨a1, b1, c1⟩, ⟨a2, b2, c2⟩, ?_⟩
  unfold delta_value
  simp only
  rw [e0, e1, e2]

/-- The marker at the lower pole `(8, 8, 4)` of a body of radius `4` centred at `(8, 8, 8)`,
on the unit grid: the weight of the node of its own cell is
`((5 - 3/2 + sqrt(-5/4)) / 6)^3`. -/
theorem three_point_own_cell_weight_witness :
    (0 : ℚ) < (⟨1, 1, 1⟩ : RealVect ℚ).v0 ∧ (0 : ℚ) < (⟨1, 1, 1⟩ : RealVect ℚ).v1 ∧
    (0 : ℚ) < (⟨1, 1, 1⟩ : RealVect ℚ).v2 ∧
    (∃ r0 r1 r2 : ℚ, (0 ≤ r0 ∧ r0 ≤ 1 / 2 ∧ -3 * (1 - r0 ^ 2) + 1 ≤ -5 / 4) ∧
      (0 ≤ r1 ∧ r1 ≤ 1 / 2 ∧ -3 * (1 - r1 ^ 2) + 1 ≤ -5 / 4) ∧
      (0 ≤ r2 ∧ r2 ≤ 1 / 2 ∧ -3 * (1 - r2 ^ 2) + 1 ≤ -5 / 4) ∧
      delta_value Rat.sqrt ⟨8, 8, 4⟩ ⟨1, 1, 1⟩ DELTA_FUNCTION_TYPE.THREE_POINT_IB
          ⌊((8 : ℚ) - 0) / 1⌋ ⌊((8 : ℚ) - 0) / 1⌋ ⌊((4 : ℚ) - 0) / 1⌋ 0 0 0
        = 1 / 6 * (5 - 3 * r0 + Rat.sqrt (-3 * (1 - r0 ^ 2) + 1)) / 1
          * (1 / 6 * (5 - 3 * r1 + Rat.sqrt (-3 * (1 - r1 ^ 2) + 1)) / 1)
          * (1 / 6 * (5 - 3 * r2 + Rat.sqrt (-3 * (1 - r2 ^ 2) + 1)) / 1)) ∧
    delta_value Rat.sqrt ⟨8, 8, 4⟩ ⟨1, 1, 1⟩ DELTA_FUNCTION_TYPE.THREE_POINT_IB 8 8 4 0 0 0
      = (1 / 6 * (5 - 3 / 2 + Rat.sqrt (-5 / 4))) ^ 3 := by
  refine ⟨by norm_num, by norm_num, by norm_num,
    three_point_own_cell_weight Rat.sqrt ⟨8, 8, 4⟩ ⟨1, 1, 1⟩ (by norm_num) (by norm_num)
      (by norm_num), ?_⟩
  have ha : |(1 / 2 : ℚ)| = 1 / 2 := abs_of_pos (by norm_num)
  unfold delta_value deltaFunction
  norm_num [ha]
  ring

end OwnCell

/-! ## The marker volume and the `int` product -/

section MarkerVolume

variable {K : Type} [LinearOrderedField K] [FloorRing K]

/-- A value in the range of `int` is kept. -/
theorem wrapInt32_of_range (n : Int) (h1 : -2147483648 ≤ n) (h2 : n < 2147483648) :
    wrapInt32 n = n := by
  unfold wrapInt32
  omega

/-- The product `12 * radious * radious` is computed without overflow when its mathematical
value is below `2^31`. -/
theorem wrapInt32_product (radious : Int) (hr : 12 * radious * radious < 2147483648) :
    wrapInt32 (wrapInt32 (12 * radious) * radious) = 12 * radious * radious := by
  have hsq : 0 ≤ radious * radious := mul_self_nonneg radious
  have h1 : radious ≤ radious * radious := by
    rcases le_or_lt radious 0 with h | h
    · exact le_trans h hsq
    · nlinarith
  have h2 : -radious ≤ radious * radious := by
    rcases le_or_lt 0 radious with h | h
    · exact le_trans (by omega) hsq
    · nlinarith
  have e : 12 * radious * radious = 12 * (radious * radious) := by ring
  rw [wrapInt32_of_range (12 * radious) (by omega) (by omega),
    wrapInt32_of_range (12 * radious * radious) (by omega) hr]

/-- For position arrays of equal length, a marker count `M > 0` and a radius whose product
`12 * radious * radious` is below `2^31`, `InitParticles` stores for the position `i` a body
with `M * dv = (pi * h / 3) * (12 * radius^2 + h^2)`, which is
`(4/3) * pi * ((radius + h/2)^3 - (radius - h/2)^3)`. -/
theorem InitParticles_marker_volume_in_range (L : Libm K) (self : mParticle K)
    (x y z : List K) (rho_s : K) (radious : Int) (rho_f : K) (force_index velocity_index : Int)
    (hxy : x.length = y.length) (hxz : x.length = z.length)
    (hM : 0 < truncToInt (L.pi / 3 * (12 * ((radious : K) / self.dx.v0) ^ 2)))
    (hr : 12 * radious * radious < 2147483648)
    (i : Nat) (a b c : K) (ha : x[i]? = some a) (hb : y[i]? = some b) (hc : z[i]? = some c) :
    ∃ k : kernel K,
      (InitParticles L self x y z rho_s radious rho_f force_index
        velocity_index).1.particle_kernels[self.particle_kernels.length + i]? = some k ∧
      k.ml = truncToInt (L.pi / 3 * (12 * ((radious : K) / self.dx.v0) ^ 2)) ∧
      (k.ml : K) * k.dv
        = L.pi * self.dx.v0 / 3 * (12 * (radious : K) ^ 2 + self.dx.v0 ^ 2) ∧
      (k.ml : K) * k.dv
        = 4 / 3 * L.pi * (((radious : K) + self.dx.v0 / 2) ^ 3
            - ((radious : K) - self.dx.v0 / 2) ^ 3) := by
  rw [InitParticles_of_length_eq L self x y z rho_s radious rho_f force_index velocity_index
    hxy hxz]
  have hz : (List.zip x (List.zip y z))[i]? = some (a, b, c) := by
    rw [List.getElem?_zip_eq_some]
    refine ⟨ha, ?_⟩
    rw [List.getElem?_zip_eq_some]
    exact ⟨hb, hc⟩
  have hne : ((truncToInt (L.pi / 3 * (12 * ((radious : K) / self.dx.v0) ^ 2)) : Int) : K)
      ≠ 0 := by
    have : (0 : K) < ((truncToInt (L.pi / 3 * (12 * ((radious : K) / self.dx.v0) ^ 2)) : Int)
        : K) := by exact_mod_cast hM
    exact ne_of_gt this
  have key : ∀ Mk : K, Mk ≠ 0 →
      Mk * (L.pi * self.dx.v0 / 3 / Mk
        * (((wrapInt32 (wrapInt32 (12 * radious) * radious) : Int) : K)
          + self.dx.v0 * self.dx.v0))
        = L.pi * self.dx.v0 / 3 * (12 * (radious : K) ^ 2 + self.dx.v0 ^ 2) := by
    intro Mk hMk
    rw [wrapInt32_product radious hr]
    push_cast
    field_simp
    ring
  have hvol : L.pi * self.dx.v0 / 3 * (12 * (radious : K) ^ 2 + self.dx.v0 ^ 2)
      = 4 / 3 * L.pi * (((radious : K) + self.dx.v0 / 2) ^ 3
          - ((radious : K) - self.dx.v0 / 2) ^ 3) := by ring
  simp only [List.getElem?_append_right (Nat.le_add_right _ _), Nat.add_sub_cancel_left,
    List.getElem?_map, hz, Option.map_some']
  exact ⟨_, rfl, rfl, key _ hne, (key _ hne).trans hvol⟩

/-- Radius `20000` and cell size `1000` with `pi = 22/7` give `5028` markers. -/
theorem sample_marker_count_5028 :
    truncToInt (sampleLibm.pi / 3 * (12 * (((20000 : Int) : ℚ) / 1000) ^ 2)) = 5028 := by
  apply truncToInt_eq <;> norm_num [sampleLibm]

/-- C36 (the code differs). The empty container with cell size `1000`, one position and the
radius `20000` (`pi` taken as `22/7`): `M = 5028 > 0`, and the `int` product
`12 * radious * radious`, whose mathematical value is `4800000000`, is held as `505032704`.
The stored values satisfy `M * dv = (pi * h / 3) * (505032704 + h^2)`, which is not
`(pi * h / 3) * (12 * radius^2 + h^2)`. -/
theorem InitParticles_marker_volume_overflow :
    (InitParticles sampleLibm
        coarseParticles [8] [8] [8] 2 20000 1 0 3).1.particle_kernels.map
          (fun k => (k.location, k.ml, (k.ml : ℚ) * k.dv))
      = [(⟨8, 8, 8⟩, 5028, sampleLibm.pi * 1000 / 3 * (505032704 + 1000 ^ 2))] ∧
    wrapInt32 (wrapInt32 (12 * 20000) * 20000) = 505032704 ∧
    (12 * 20000 * 20000 : Int) = 4800000000 ∧
    sampleLibm.pi * 1000 / 3 * (505032704 + 1000 ^ 2)
      ≠ sampleLibm.pi * 1000 / 3 * (12 * (((20000 : Int) : ℚ)) ^ 2 + 1000 ^ 2) := by
  have hw : wrapInt32 (wrapInt32 (12 * 20000) * 20000) = 505032704 := by
    unfold wrapInt32
    norm_num
  have hM : truncToInt (sampleLibm.pi / 3 * (12 * (((20000 : Int) : ℚ)
      / coarseParticles.dx.v0) ^ 2)) = 5028 :=
    sample_marker_count_5028
  refine ⟨?_, hw, by norm_num, by norm_num [sampleLibm]⟩
  rw [InitParticles_of_length_eq sampleLibm coarseParticles [8] [8] [8] 2 20000 1 0 3 rfl rfl]
  simp only [hM, hw]
  norm_num [sampleLibm, coarseParticles]

end MarkerVolume

end IAMR
